import Mathlib

/-!
Allocation tracking registry of `mem_alloc_spiram_hooks.c`.

A shallow embedding of the tracking registry (`register_allocation`,
`unregister_allocation`, `free_unregister_allocation`, `list_allocations`) and of
the instrumented facade (`traceable_heap_caps_malloc`, `traceable_heap_caps_calloc`,
`traceable_heap_caps_realloc`).

Modelling conventions.

* Addresses are natural numbers, `0` is `NULL`.
* The globals of the C file are the fields of `State`; every C function becomes a
  function on `State`.  A function returns `none` when the C code would never return
  (a `xSemaphoreTake` with `portMAX_DELAY` on a mutex that is not available).
* The external allocator and the C library `realloc` are not part of the program:
  what they return is an argument of the function that calls them
  (`heap_caps_malloc_result`, `grow_ok`, `shrink_ok`, ...).
* Externally visible effects (lock operations, writes to the registry globals,
  `printf`, `memset`, `heap_caps_free`) are appended to `State.trace`.
* The `for` loops are recursive functions with a fuel argument and return `none` when
  the fuel runs out before the loop condition fails; every caller passes the counter
  `memory_track_allocation_t`, which is always enough (`shift_loop_eq`,
  `unregister_loop_skip`, `zero_loop_skip`, `list_loop_eq`).
* The tracking array holds `memory_track_allocation_t` records of
  `sizeof(MemoryTraceInfo)` bytes each inside a 32-bit address space, so the counter
  itself is far from the `size_t` limit and is a plain natural number; the
  user-controlled product `n * size` of `traceable_heap_caps_calloc` is reduced
  modulo `SIZE_T_MOD`.
* Memory has two views over the same addresses: `State.heap` gives the byte at an
  address, `State.vars` the pointer variable (`*ptr` for a `void **ptr`) stored at an
  address, four bytes wide with the least significant byte first.  `memset` clears
  both views over its range (`zeroed_word`), so a pointer variable that is stored
  inside a block is zeroed together with the block, and the reads of `*ptr` that follow
  the `memset` in `free_unregister_allocation` see the cleared value.  Pointer
  variables stored at different addresses are independent cells of `State.vars`.
* A slot read outside the block yields `default` and a slot write outside the block
  is dropped; the `_checked` variants of the registry functions are the same code with
  every slot access checked against the capacity (`none` on a violation), and are used
  to state that no such access happens.
-/

namespace MemTrack

/-- Modulus of `size_t` arithmetic (ESP32 targets have a 32-bit `size_t`). -/
def SIZE_T_MOD : Nat := 2 ^ 32

/-- The C `struct MemoryTraceInfo`; `char *` fields are strings, a `NULL` string
(an omitted initialiser) is the empty string. -/
structure MemoryTraceInfo where
  file : String
  line : Int
  function : String
  size : Nat
  method : String
  caps : Nat
  failure : Int
  address : Nat
  var_name : String
deriving DecidableEq, Inhabited

/-- State of the mutex handle `memorySemaphore`. -/
inductive Semaphore where
  | null
  | available
  | taken
deriving DecidableEq

/-- Observable effects, in program order. -/
inductive Event where
  | take
  | give
  | write
  | printf (msg : String)
  | wait (ms : Nat)
  | log_memory_allocation (info : MemoryTraceInfo)
  | print_allocation (info : MemoryTraceInfo)
  | memset (addr : Nat) (len : Nat)
  | heap_caps_free (addr : Nat) (contents : Nat → Nat)

/-- Globals of the translation unit together with the caller-visible memory. -/
structure State where
  debug_track_allocation : Bool
  memorySemaphore : Semaphore
  memory_track_allocation : Option (List MemoryTraceInfo)
  memory_track_allocation_t : Nat
  heap : Nat → Nat
  vars : Nat → Nat
  trace : List Event

/-- Number of slots of the block `memory_track_allocation` points to (0 for `NULL`). -/
def capacity (s : State) : Nat :=
  (s.memory_track_allocation.getD []).length

/-- The live records: the first `memory_track_allocation_t` slots of the array. -/
def records (s : State) : List MemoryTraceInfo :=
  (s.memory_track_allocation.getD []).take s.memory_track_allocation_t

/-- The array has room for the records the counter announces. -/
def StorageOk (s : State) : Prop :=
  s.memory_track_allocation_t ≤ capacity s

instance (s : State) : Decidable (StorageOk s) := by
  unfold StorageOk; infer_instance

/-- Read of `memory_track_allocation[i]`. -/
def slot (s : State) (i : Nat) : MemoryTraceInfo :=
  ((s.memory_track_allocation.getD [])[i]?).getD default

/-- Assignment `memory_track_allocation[i] = v`. -/
def store_slot (s : State) (i : Nat) (v : MemoryTraceInfo) : State :=
  { s with
    memory_track_allocation := s.memory_track_allocation.map (fun a => a.set i v)
    trace := s.trace ++ [Event.write] }

/-- Assignment to the pointer `memory_track_allocation`. -/
def set_storage (s : State) (p : Option (List MemoryTraceInfo)) : State :=
  { s with memory_track_allocation := p, trace := s.trace ++ [Event.write] }

/-- Assignment to the counter `memory_track_allocation_t`. -/
def set_count (s : State) (n : Nat) : State :=
  { s with memory_track_allocation_t := n, trace := s.trace ++ [Event.write] }

/-- Append one effect to the trace. -/
def emit (s : State) (e : Event) : State :=
  { s with trace := s.trace ++ [e] }

/-- The call `xSemaphoreTake(memorySemaphore, portMAX_DELAY)`: returns `pdTRUE` with the
mutex taken when it was available, and does not return otherwise. -/
def xSemaphoreTake (s : State) : Option State :=
  match s.memorySemaphore with
  | Semaphore.available =>
    some { s with memorySemaphore := Semaphore.taken, trace := s.trace ++ [Event.take] }
  | _ => none

/-- The call `xSemaphoreGive(memorySemaphore)`. -/
def xSemaphoreGive (s : State) : State :=
  match s.memorySemaphore with
  | Semaphore.taken =>
    { s with memorySemaphore := Semaphore.available, trace := s.trace ++ [Event.give] }
  | _ => s

/-- C library `realloc(p, n * sizeof(MemoryTraceInfo))` at slot granularity: on success a
block of `n` slots that starts with the old contents (fresh slots are indeterminate,
here `default`), on failure `NULL` with the old block left as it is. -/
def realloc (p : Option (List MemoryTraceInfo)) (n : Nat) (ok : Bool) :
    Option (List MemoryTraceInfo) :=
  if ok then
    some ((p.getD []).take n ++ List.replicate (n - (p.getD []).length) default)
  else none

/-- Source function `register_allocation`. -/
def register_allocation (s : State) (info : MemoryTraceInfo) (grow_ok : Bool) :
    Option State :=
  if s.debug_track_allocation then
    (xSemaphoreTake s).bind fun s1 =>
      match realloc s1.memory_track_allocation (s1.memory_track_allocation_t + 1) grow_ok with
      | none =>
        let s2 := emit s1 (Event.printf "Failed to allocate memory for tracking allocations\n")
        let s3 := emit s2 (Event.wait 5000)
        some (xSemaphoreGive s3)
      | some new_allocation =>
        let s2 := set_storage s1 (some new_allocation)
        let s3 := store_slot s2 s2.memory_track_allocation_t info
        let s4 := set_count s3 (s3.memory_track_allocation_t + 1)
        some (xSemaphoreGive s4)
  else some s

/-- The inner loop of `unregister_allocation`:
`for (j = ...; j < memory_track_allocation_t - 1; j++) a[j] = a[j + 1];`
(entered only with a positive counter, so the `size_t` subtraction does not wrap). -/
def shift_loop : Nat → State → Nat → Option State
  | 0, s, j => if j < s.memory_track_allocation_t - 1 then none else some s
  | fuel + 1, s, j =>
    if j < s.memory_track_allocation_t - 1 then
      shift_loop fuel (store_slot s j (slot s (j + 1))) (j + 1)
    else some s

/-- The body executed by `unregister_allocation` once `memory_track_allocation[i]`
matches: shift, decrement, shrink or free the array, give the mutex, return. -/
def remove_at (s : State) (i : Nat) (shrink_ok : Bool) : Option State :=
  (shift_loop s.memory_track_allocation_t s i).bind fun s1 =>
    let s2 := set_count s1 (s1.memory_track_allocation_t - 1)
    let s3 :=
      if s2.memory_track_allocation_t > 0 then
        match realloc s2.memory_track_allocation s2.memory_track_allocation_t shrink_ok with
        | some new_allocation => set_storage s2 (some new_allocation)
        | none => s2
      else set_storage s2 none
    some (xSemaphoreGive s3)

/-- The outer loop of `unregister_allocation`:
`for (i = ...; i < memory_track_allocation_t; i++) if (a[i].address == ptr) ...`,
followed by the `xSemaphoreGive` after the loop. -/
def unregister_loop : Nat → State → Nat → Bool → Nat → Option State
  | fuel, s, ptr, shrink_ok, i =>
    if i < s.memory_track_allocation_t then
      if (slot s i).address = ptr then remove_at s i shrink_ok
      else
        match fuel with
        | 0 => none
        | fuel + 1 => unregister_loop fuel s ptr shrink_ok (i + 1)
    else some (xSemaphoreGive s)

/-- Source function `unregister_allocation`. -/
def unregister_allocation (s : State) (ptr : Nat) (shrink_ok : Bool) : Option State :=
  if ptr = 0 ∨ !s.debug_track_allocation then some s
  else
    (xSemaphoreTake s).bind fun s1 =>
      unregister_loop s1.memory_track_allocation_t s1 ptr shrink_ok 0

/-- The pointer value `v` stored in the four bytes at address `p` (pointers are 32 bits
wide, least significant byte first), once the bytes of `[addr, addr + len)` have been set
to zero: `v` itself when none of the four bytes lies in the range, 0 when all do, and
the bytes left over otherwise. -/
def zeroed_word (p v addr len : Nat) : Nat :=
  if addr + len ≤ p ∨ p + 4 ≤ addr ∨ len = 0 then v
  else
    ((List.range 4).map fun k =>
      if addr ≤ p + k ∧ p + k < addr + len then 0 else v / 256 ^ k % 256 * 256 ^ k).sum

/-- The call `memset(addr, 0, len)`: every byte of `[addr, addr + len)` becomes zero,
in the byte view `heap` and in the pointer variables stored there (`vars`). -/
def memset (s : State) (addr len : Nat) : State :=
  { s with
    heap := fun x => if addr ≤ x ∧ x < addr + len then 0 else s.heap x
    vars := fun p => zeroed_word p (s.vars p) addr len
    trace := s.trace ++ [Event.memset addr len] }

/-- The external `heap_caps_free(addr)`; the trace keeps the memory contents the
allocator is handed, as a test double intercepting the call would see them. -/
def heap_caps_free (s : State) (addr : Nat) : State :=
  emit s (Event.heap_caps_free addr s.heap)

/-- The zeroing loop of `free_unregister_allocation`:
`for (i = ...; i < memory_track_allocation_t; i++)
   if (a[i].address == *ptr) { memset(*ptr, 0, a[i].size); break; }`. -/
def zero_loop : Nat → State → Nat → Nat → Option State
  | fuel, s, ptr, i =>
    if i < s.memory_track_allocation_t then
      if (slot s i).address = s.vars ptr then
        some (memset s (s.vars ptr) (slot s i).size)
      else
        match fuel with
        | 0 => none
        | fuel + 1 => zero_loop fuel s ptr (i + 1)
    else some s

/-- Source function `free_unregister_allocation`; `ptr` is the address of the caller's
pointer variable, `s.vars ptr` is `*ptr`. -/
def free_unregister_allocation (s : State) (ptr : Nat) (shrink_ok : Bool) : Option State :=
  if ptr ≠ 0 ∧ s.vars ptr ≠ 0 then
    (if s.debug_track_allocation then
      (xSemaphoreTake s).bind fun s1 =>
        (zero_loop s1.memory_track_allocation_t s1 ptr 0).bind fun s2 =>
          let s3 := xSemaphoreGive s2
          unregister_allocation s3 (s3.vars ptr) shrink_ok
    else some s).bind fun s4 =>
      let s5 := heap_caps_free s4 (s4.vars ptr)
      some { s5 with vars := Function.update s5.vars ptr 0 }
  else some s

/-- The printing loop of `list_allocations`. -/
def list_loop : Nat → State → Nat → Option State
  | fuel, s, i =>
    if i < s.memory_track_allocation_t then
      match fuel with
      | 0 => none
      | fuel + 1 => list_loop fuel (emit s (Event.print_allocation (slot s i))) (i + 1)
    else some s

/-- Source function `list_allocations`. -/
def list_allocations (s : State) : Option State :=
  if s.debug_track_allocation then
    (xSemaphoreTake s).bind fun s1 =>
      (list_loop s1.memory_track_allocation_t s1 0).bind fun s2 =>
        some (xSemaphoreGive s2)
  else some s

/-- Source function `log_memory_allocation` (diagnostic output only). -/
def log_memory_allocation (s : State) (info_requested : MemoryTraceInfo) : State :=
  emit s (Event.log_memory_allocation info_requested)

/-- Source function `traceable_heap_caps_malloc`; `heap_caps_malloc_result` is what the
external `heap_caps_malloc(size, caps)` returns.  The result is the returned pointer
and the new state. -/
def traceable_heap_caps_malloc (s : State) (size caps : Nat) (file : String) (line : Int)
    (function : String) (heap_caps_malloc_result : Nat) (grow_ok : Bool) :
    Option (Nat × State) :=
  let ptr := heap_caps_malloc_result
  let failure : Int := if ptr ≠ 0 then 0 else 1
  let s1 :=
    if failure ≠ 0 then
      log_memory_allocation s
        ⟨file, line, function, size, "heap_caps_malloc", caps, failure, 0, ""⟩
    else s
  (if s1.debug_track_allocation then
    if ptr ≠ 0 then
      register_allocation s1
        ⟨file, line, function, size, "heap_caps_malloc", caps, 0, ptr, "unknow"⟩ grow_ok
    else some s1
  else some s1).map fun s2 => (ptr, s2)

/-- Source function `traceable_heap_caps_calloc`; `heap_caps_calloc_result` is what the
external `heap_caps_calloc(n, size, caps)` returns.  `n * size` is a `size_t` product. -/
def traceable_heap_caps_calloc (s : State) (n size caps : Nat) (file : String) (line : Int)
    (function : String) (heap_caps_calloc_result : Nat) (grow_ok : Bool) :
    Option (Nat × State) :=
  let ptr := heap_caps_calloc_result
  let failure : Int := if ptr ≠ 0 then 0 else 1
  let s1 :=
    if failure ≠ 0 then
      log_memory_allocation s
        ⟨file, line, function, (n * size) % SIZE_T_MOD, "heap_caps_calloc", caps, failure, 0, ""⟩
    else s
  (if s1.debug_track_allocation then
    if ptr ≠ 0 then
      register_allocation s1
        ⟨file, line, function, (n * size) % SIZE_T_MOD, "heap_caps_calloc", caps, 0, ptr,
          "unknow"⟩ grow_ok
    else some s1
  else some s1).map fun s2 => (ptr, s2)

/-- Source function `traceable_heap_caps_realloc`; `heap_caps_realloc_result` is what the
external `heap_caps_realloc(ptr, size, caps)` returns. -/
def traceable_heap_caps_realloc (s : State) (ptr size caps : Nat) (file : String)
    (line : Int) (function : String) (heap_caps_realloc_result : Nat)
    (shrink_ok grow_ok : Bool) : Option (Nat × State) :=
  let new_ptr := heap_caps_realloc_result
  let failure : Int := if new_ptr = 0 then 1 else 0
  let s1 :=
    if failure ≠ 0 then
      log_memory_allocation s
        ⟨file, line, function, size, "heap_caps_realloc", caps, failure, 0, ""⟩
    else s
  (if s1.debug_track_allocation then
    if new_ptr ≠ ptr then
      (unregister_allocation s1 ptr shrink_ok).bind fun s2 =>
        register_allocation s2
          ⟨file, line, function, size, "heap_caps_realloc", caps, 0, new_ptr, "unknown"⟩
          grow_ok
    else some s1
  else some s1).map fun s2 => (new_ptr, s2)

/-- The records printed by `list_allocations`, read off a trace. -/
def printed : List Event → List MemoryTraceInfo
  | [] => []
  | Event.print_allocation info :: es => info :: printed es
  | _ :: es => printed es

/-- The addresses handed to `heap_caps_free`, read off a trace. -/
def freed : List Event → List Nat
  | [] => []
  | Event.heap_caps_free addr _ :: es => addr :: freed es
  | _ :: es => freed es

/-- The state before `app_main` runs: handle `NULL`, empty registry. -/
def initial (track : Bool) : State :=
  { debug_track_allocation := track
    memorySemaphore := Semaphore.null
    memory_track_allocation := none
    memory_track_allocation_t := 0
    heap := fun _ => 0
    vars := fun _ => 0
    trace := [] }

/-- The call `memorySemaphore = xSemaphoreCreateMutex()` (succeeding). -/
def xSemaphoreCreateMutex (s : State) : State :=
  { s with memorySemaphore := Semaphore.available }

/-- Assignment of `val` to the caller's pointer variable stored at `var`. -/
def assign (s : State) (var val : Nat) : State :=
  { s with vars := Function.update s.vars var val }

/-- The call `snprintf(addr, size, str)` with a format without conversions: at most
`size - 1` characters of `str` followed by a terminating zero byte. -/
def snprintf (s : State) (addr size : Nat) (str : String) : State :=
  let bytes := (str.toList.map Char.toNat).take (size - 1) ++ [0]
  { s with
    heap := fun x =>
      if addr ≤ x ∧ x < addr + min size bytes.length then bytes.getD (x - addr) 0
      else s.heap x }

/-- The first part of `app_main` in `example/main.c` (lines 4 to 26): create the mutex,
enable tracking, allocate `buffer` and `debug_string`.  `buffer` and `debug_string` are
the addresses of the two local pointer variables, `calloc1` and `calloc2` what the
external allocator returns, `file` the expansion of `__FILE__`, and the two capability
masks are those of `esp_heap_caps.h`.  The flag of the result tells whether `app_main`
goes on (`false` after one of the early `return`s). -/
def app_main_allocate (s : State) (file : String) (MALLOC_CAP_8BIT MALLOC_CAP_SPIRAM : Nat)
    (buffer debug_string calloc1 calloc2 : Nat) (grow1 grow2 : Bool) :
    Option (Bool × State) :=
  let s1 := { xSemaphoreCreateMutex s with debug_track_allocation := true }
  (traceable_heap_caps_calloc s1 256 1 MALLOC_CAP_8BIT file 12 "app_main" calloc1 grow1).bind
    fun p1 =>
      let s2 := assign p1.2 buffer p1.1
      if s2.vars buffer = 0 then
        some (false, emit s2 (Event.printf "Failed to allocate buffer!\n"))
      else
        let s3 := snprintf s2 (s2.vars buffer) 256 "Hello from memory tracking!"
        (traceable_heap_caps_calloc s3 512 1 MALLOC_CAP_SPIRAM file 21 "app_main" calloc2
            grow2).bind
          fun p2 =>
            let s4 := assign p2.2 debug_string p2.1
            if s4.vars debug_string = 0 then
              some (false, emit s4 (Event.printf "Failed to allocate debug_string!\n"))
            else some (true, s4)

/-- The whole of `app_main` in `example/main.c`. -/
def app_main (s : State) (file : String) (MALLOC_CAP_8BIT MALLOC_CAP_SPIRAM : Nat)
    (buffer debug_string calloc1 calloc2 : Nat) (grow1 grow2 shrink1 shrink2 : Bool) :
    Option State :=
  (app_main_allocate s file MALLOC_CAP_8BIT MALLOC_CAP_SPIRAM buffer debug_string calloc1
      calloc2 grow1 grow2).bind
    fun p =>
      if p.1 then
        (list_allocations p.2).bind fun s5 =>
          (free_unregister_allocation s5 buffer shrink1).bind fun s6 =>
            (list_allocations s6).bind fun s7 =>
              (free_unregister_allocation s7 debug_string shrink2).bind fun s8 =>
                list_allocations s8
      else some p.2

/-- The record `app_main` registers for `buffer` when the allocator returns `0x1000`. -/
def record_buffer : MemoryTraceInfo :=
  ⟨"main.c", 12, "app_main", 256, "heap_caps_calloc", 4, 0, 4096, "unknow"⟩

/-- The record `app_main` registers for `debug_string` when the allocator returns
`0x2000`. -/
def record_debug_string : MemoryTraceInfo :=
  ⟨"main.c", 21, "app_main", 512, "heap_caps_calloc", 1024, 0, 8192, "unknow"⟩

/-- A state with tracking enabled, the mutex available and the two records of `app_main`
in the registry; the pointer variables at addresses 1 and 2 hold the two blocks. -/
def two_records : State :=
  { debug_track_allocation := true
    memorySemaphore := Semaphore.available
    memory_track_allocation := some [record_buffer, record_debug_string]
    memory_track_allocation_t := 2
    heap := fun x => if 4096 ≤ x ∧ x < 4096 + 256 then 65 else 0
    vars := fun x => if x = 1 then 4096 else if x = 2 then 8192 else 0
    trace := [] }

/-- The record `traceable_heap_caps_realloc` registers for a null result. -/
def record_null : MemoryTraceInfo :=
  ⟨"main.c", 40, "app_main", 1024, "heap_caps_realloc", 4, 0, 0, "unknown"⟩

/-- The state `two_records` after a failed resize of the block at `0x1000`: the registry
holds the record of `debug_string` and a record whose address is null. -/
def with_null_record : State :=
  { debug_track_allocation := true
    memorySemaphore := Semaphore.available
    memory_track_allocation := some [record_debug_string, record_null]
    memory_track_allocation_t := 2
    heap := fun x => if 4096 ≤ x ∧ x < 4096 + 256 then 65 else 0
    vars := fun x => if x = 1 then 0 else if x = 2 then 8192 else 0
    trace := [] }

/-- A call of one of the two registry mutators, with the outcome of the `realloc` the
call may perform. -/
inductive RegistryCall where
  | register (info : MemoryTraceInfo) (grow_ok : Bool)
  | unregister (ptr : Nat) (shrink_ok : Bool)

/-- Execution of one registry call. -/
def RegistryCall.run (s : State) : RegistryCall → Option State
  | RegistryCall.register info grow_ok => register_allocation s info grow_ok
  | RegistryCall.unregister ptr shrink_ok => unregister_allocation s ptr shrink_ok

/-- Execution of a sequence of registry calls. -/
def run_calls (s : State) : List RegistryCall → Option State
  | [] => some s
  | c :: cs => (c.run s).bind fun t => run_calls t cs

/-- The registry as the specification describes it, an ordered sequence of records:
insert appends the record unless tracking is disabled or the growth fails, remove
deletes the first record with the given non-null address. -/
def spec_step (tracking : Bool) (l : List MemoryTraceInfo) : RegistryCall → List MemoryTraceInfo
  | RegistryCall.register info grow_ok => if tracking && grow_ok then l ++ [info] else l
  | RegistryCall.unregister ptr _ =>
    if tracking && decide (ptr ≠ 0) then l.eraseP (fun r => decide (r.address = ptr)) else l

/-- The specification's registry after a sequence of calls, started empty. -/
def spec_run (tracking : Bool) (calls : List RegistryCall) : List MemoryTraceInfo :=
  calls.foldl (spec_step tracking) []

/-- A call of the facade or of the release operation.  `result` is what the external
allocator returns to the call, `grow_ok` and `shrink_ok` the outcome of the `realloc` of
the tracking array; `release var addr` is the call `free_unregister_allocation(&v)` for
the caller's pointer variable `v` stored at `var` and holding `addr`. -/
inductive FacadeCall where
  | malloc (size caps : Nat) (file : String) (line : Int) (function : String)
      (result : Nat) (grow_ok : Bool)
  | calloc (n size caps : Nat) (file : String) (line : Int) (function : String)
      (result : Nat) (grow_ok : Bool)
  | release (var addr : Nat) (shrink_ok : Bool)

/-- Execution of one facade call. -/
def FacadeCall.run (s : State) : FacadeCall → Option State
  | FacadeCall.malloc size caps file line function result grow_ok =>
    (traceable_heap_caps_malloc s size caps file line function result grow_ok).map Prod.snd
  | FacadeCall.calloc n size caps file line function result grow_ok =>
    (traceable_heap_caps_calloc s n size caps file line function result grow_ok).map Prod.snd
  | FacadeCall.release var addr shrink_ok =>
    free_unregister_allocation (assign s var addr) var shrink_ok

/-- Execution of a sequence of facade calls. -/
def run_facade (s : State) : List FacadeCall → Option State
  | [] => some s
  | c :: cs => (c.run s).bind fun t => run_facade t cs

/-- The addresses handed to `heap_caps_free` between the states `s` and `t` of a run,
read off the trace. -/
def newly_freed (s t : State) : List Nat :=
  (freed t.trace).drop (freed s.trace).length

/-- The blocks that are allocated and not yet freed after a call run from the state
`s`, given those before it: a non-null allocator result is added, an address the call
hands to `heap_caps_free` is removed. -/
def live_step (s : State) (live : List Nat) : FacadeCall → List Nat
  | FacadeCall.malloc _ _ _ _ _ result _ => if result = 0 then live else result :: live
  | FacadeCall.calloc _ _ _ _ _ _ result _ => if result = 0 then live else result :: live
  | FacadeCall.release var addr shrink_ok =>
    match free_unregister_allocation (assign s var addr) var shrink_ok with
    | none => live
    | some t => live.filter (fun a => decide (a ∉ newly_freed s t))

/-- The address the external allocator returns to a call (0 for a release). -/
def FacadeCall.result : FacadeCall → Nat
  | FacadeCall.malloc _ _ _ _ _ result _ => result
  | FacadeCall.calloc _ _ _ _ _ _ result _ => result
  | FacadeCall.release _ _ _ => 0

/-- The assumption on the external allocator along a sequence of calls run from the
state `s` with the blocks `live` allocated: it never returns an address that is
currently allocated and not yet freed. -/
def AllocatorFresh : State → List Nat → List FacadeCall → Prop
  | _, _, [] => True
  | s, live, c :: cs =>
    (c.result = 0 ∨ c.result ∉ live) ∧
      match c.run s with
      | none => True
      | some t => AllocatorFresh t (live_step s live c) cs

/-- The assumption on the allocator can be checked on a concrete run. -/
def AllocatorFresh.dec : (s : State) → (live : List Nat) → (calls : List FacadeCall) →
    Decidable (AllocatorFresh s live calls)
  | _, _, [] => isTrue trivial
  | s, live, c :: cs =>
    if hc : c.result = 0 ∨ c.result ∉ live then
      match h : c.run s with
      | none => isTrue (by simp only [AllocatorFresh, h]; exact ⟨hc, trivial⟩)
      | some t =>
        match AllocatorFresh.dec t (live_step s live c) cs with
        | isTrue h2 => isTrue (by simp only [AllocatorFresh, h]; exact ⟨hc, h2⟩)
        | isFalse h2 =>
          isFalse (fun hh => h2 (by simp only [AllocatorFresh, h] at hh; exact hh.2))
    else isFalse (fun hh => hc hh.1)

instance (s : State) (live : List Nat) (calls : List FacadeCall) :
    Decidable (AllocatorFresh s live calls) :=
  AllocatorFresh.dec s live calls

/-- For every `heap_caps_free` of a trace, the freed address and the byte the block
holds at address `x` at the moment of the call. -/
def handed_over (x : Nat) : List Event → List (Nat × Nat)
  | [] => []
  | Event.heap_caps_free addr contents :: es => (addr, contents x) :: handed_over x es
  | _ :: es => handed_over x es

/-- The number of mutex operations (`xSemaphoreTake`, `xSemaphoreGive`) in a trace. -/
def lock_ops : List Event → Nat
  | [] => 0
  | Event.take :: es => lock_ops es + 1
  | Event.give :: es => lock_ops es + 1
  | _ :: es => lock_ops es

/-- The `memset` calls of a trace, as pairs of address and length. -/
def zeroings : List Event → List (Nat × Nat)
  | [] => []
  | Event.memset addr len :: es => (addr, len) :: zeroings es
  | _ :: es => zeroings es

/-- A state with tracking disabled, the mutex handle still `NULL` and the empty
registry; the pointer variable at address 1 holds the block `0x1000`. -/
def untracked : State :=
  { debug_track_allocation := false
    memorySemaphore := Semaphore.null
    memory_track_allocation := none
    memory_track_allocation_t := 0
    heap := fun x => if 4096 ≤ x ∧ x < 4096 + 256 then 65 else 0
    vars := fun x => if x = 1 then 4096 else 0
    trace := [] }

/-- The state `t` has the registry of `s` (same array, same counter, hence the same
record sequence), the same tracking flag and mutex state, and its trace holds no
mutex operation beyond those of `s`. -/
def RegistryUntouched (s t : State) : Prop :=
  t.memory_track_allocation = s.memory_track_allocation ∧
  t.memory_track_allocation_t = s.memory_track_allocation_t ∧
  records t = records s ∧
  t.debug_track_allocation = s.debug_track_allocation ∧
  t.memorySemaphore = s.memorySemaphore ∧
  lock_ops t.trace = lock_ops s.trace

/-- A record for a second allocation that the allocator serves at `0x1000`, the address
of the block of `buffer`. -/
def record_reuse : MemoryTraceInfo :=
  ⟨"main.c", 30, "app_main", 64, "heap_caps_malloc", 4, 0, 4096, "unknow"⟩

/-- Replay of a trace against the mutex as a held/free flag: `none` as soon as the
mutex is taken while held, given while free, or a registry global is written while the
mutex is free; otherwise the state of the mutex at the end. -/
def lock_check : Bool → List Event → Option Bool
  | held, [] => some held
  | held, Event.take :: es => if held then none else lock_check true es
  | held, Event.give :: es => if held then lock_check false es else none
  | held, Event.write :: es => if held then lock_check held es else none
  | held, _ :: es => lock_check held es

/-- The call that led from `s` to `t` returned with the mutex free, and the effects it
added to the trace respect the mutex when replayed from the free state. -/
def LockDisciplined (s t : State) : Prop :=
  t.memorySemaphore = Semaphore.available ∧
  ∃ T, t.trace = s.trace ++ T ∧ lock_check false T = some false

/-- Read of `memory_track_allocation[i]` that fails when the pointer is `NULL` or the
index lies outside the block. -/
def slot_checked (s : State) (i : Nat) : Option MemoryTraceInfo :=
  match s.memory_track_allocation with
  | none => none
  | some a => a[i]?

/-- Assignment `memory_track_allocation[i] = v` that fails when the index lies outside
the block (or the pointer is `NULL`). -/
def store_slot_checked (s : State) (i : Nat) (v : MemoryTraceInfo) : Option State :=
  if i < capacity s then some (store_slot s i v) else none

/-- The function `register_allocation` with the checked slot assignment. -/
def register_allocation_checked (s : State) (info : MemoryTraceInfo) (grow_ok : Bool) :
    Option State :=
  if s.debug_track_allocation then
    (xSemaphoreTake s).bind fun s1 =>
      match realloc s1.memory_track_allocation (s1.memory_track_allocation_t + 1) grow_ok with
      | none =>
        let s2 := emit s1 (Event.printf "Failed to allocate memory for tracking allocations\n")
        let s3 := emit s2 (Event.wait 5000)
        some (xSemaphoreGive s3)
      | some new_allocation =>
        let s2 := set_storage s1 (some new_allocation)
        (store_slot_checked s2 s2.memory_track_allocation_t info).bind fun s3 =>
          let s4 := set_count s3 (s3.memory_track_allocation_t + 1)
          some (xSemaphoreGive s4)
  else some s

/-- The shift loop with checked slot accesses; it also fails when the counter is 0,
where the `size_t` expression `memory_track_allocation_t - 1` of the loop condition
would wrap. -/
def shift_loop_checked : Nat → State → Nat → Option State
  | fuel, s, j =>
    if s.memory_track_allocation_t = 0 then none
    else if j < s.memory_track_allocation_t - 1 then
      match fuel with
      | 0 => none
      | fuel + 1 =>
        (slot_checked s (j + 1)).bind fun v =>
          (store_slot_checked s j v).bind fun s1 => shift_loop_checked fuel s1 (j + 1)
    else some s

/-- The matching branch of `unregister_allocation` with the checked shift loop. -/
def remove_at_checked (s : State) (i : Nat) (shrink_ok : Bool) : Option State :=
  (shift_loop_checked s.memory_track_allocation_t s i).bind fun s1 =>
    let s2 := set_count s1 (s1.memory_track_allocation_t - 1)
    let s3 :=
      if s2.memory_track_allocation_t > 0 then
        match realloc s2.memory_track_allocation s2.memory_track_allocation_t shrink_ok with
        | some new_allocation => set_storage s2 (some new_allocation)
        | none => s2
      else set_storage s2 none
    some (xSemaphoreGive s3)

/-- The scan of `unregister_allocation` with checked slot reads. -/
def unregister_loop_checked : Nat → State → Nat → Bool → Nat → Option State
  | fuel, s, ptr, shrink_ok, i =>
    if i < s.memory_track_allocation_t then
      (slot_checked s i).bind fun r =>
        if r.address = ptr then remove_at_checked s i shrink_ok
        else
          match fuel with
          | 0 => none
          | fuel + 1 => unregister_loop_checked fuel s ptr shrink_ok (i + 1)
    else some (xSemaphoreGive s)

/-- The function `unregister_allocation` with checked slot accesses. -/
def unregister_allocation_checked (s : State) (ptr : Nat) (shrink_ok : Bool) :
    Option State :=
  if ptr = 0 ∨ !s.debug_track_allocation then some s
  else
    (xSemaphoreTake s).bind fun s1 =>
      unregister_loop_checked s1.memory_track_allocation_t s1 ptr shrink_ok 0

/-- The printing loop of `list_allocations` with checked slot reads. -/
def list_loop_checked : Nat → State → Nat → Option State
  | fuel, s, i =>
    if i < s.memory_track_allocation_t then
      match fuel with
      | 0 => none
      | fuel + 1 =>
        (slot_checked s i).bind fun r =>
          list_loop_checked fuel (emit s (Event.print_allocation r)) (i + 1)
    else some s

/-- The function `list_allocations` with checked slot reads. -/
def list_allocations_checked (s : State) : Option State :=
  if s.debug_track_allocation then
    (xSemaphoreTake s).bind fun s1 =>
      (list_loop_checked s1.memory_track_allocation_t s1 0).bind fun s2 =>
        some (xSemaphoreGive s2)
  else some s

/-- Execution of one registry call with checked slot accesses. -/
def RegistryCall.run_checked (s : State) : RegistryCall → Option State
  | RegistryCall.register info grow_ok => register_allocation_checked s info grow_ok
  | RegistryCall.unregister ptr shrink_ok => unregister_allocation_checked s ptr shrink_ok

/-- Execution of a sequence of registry calls with checked slot accesses. -/
def run_calls_checked (s : State) : List RegistryCall → Option State
  | [] => some s
  | c :: cs => (c.run_checked s).bind fun t => run_calls_checked t cs

/-- Effect on the array of `k` iterations of the shift loop started at index `j`. -/
def shifted : Nat → Nat → List MemoryTraceInfo → List MemoryTraceInfo
  | _, 0, a => a
  | j, k + 1, a => shifted (j + 1) k (a.set j ((a[j + 1]?).getD default))

/-- The state `t` differs from `s` at most in the registry array, in the counter and in
the trace, which is `s.trace` extended by `T`. -/
def RegistryStep (s t : State) (T : List Event) : Prop :=
  t.debug_track_allocation = s.debug_track_allocation ∧
  t.memorySemaphore = s.memorySemaphore ∧
  t.heap = s.heap ∧ t.vars = s.vars ∧ t.trace = s.trace ++ T

/-- A trace fragment that consists of lock operations and registry writes only. -/
def Bookkeeping (T : List Event) : Prop :=
  ∀ e ∈ T, e = Event.take ∨ e = Event.give ∨ e = Event.write

/-! ## Basic facts about the primitives -/

theorem xSemaphoreTake_available (s : State) (h : s.memorySemaphore = Semaphore.available) :
    xSemaphoreTake s
      = some { s with memorySemaphore := Semaphore.taken, trace := s.trace ++ [Event.take] } := by
  simp [xSemaphoreTake, h]

theorem xSemaphoreGive_taken (s : State) (h : s.memorySemaphore = Semaphore.taken) :
    xSemaphoreGive s
      = { s with memorySemaphore := Semaphore.available, trace := s.trace ++ [Event.give] } := by
  simp [xSemaphoreGive, h]

theorem shifted_length (k j : Nat) (a : List MemoryTraceInfo) :
    (shifted j k a).length = a.length := by
  induction k generalizing j a with
  | zero => rfl
  | succ k ih => simp [shifted, ih]

/-- Pointwise description of the shifted array. -/
theorem shifted_getElem? (k j : Nat) (a : List MemoryTraceInfo) (h : j + k < a.length)
    (m : Nat) :
    (shifted j k a)[m]? = if j ≤ m ∧ m < j + k then a[m + 1]? else a[m]? := by
  induction k generalizing j a with
  | zero =>
    have h0 : ¬ (j ≤ m ∧ m < j + 0) := by omega
    rw [if_neg h0, shifted]
  | succ k ih =>
    have hlen : j + 1 + k < (a.set j ((a[j + 1]?).getD default)).length := by
      simp; omega
    rw [shifted, ih (j + 1) _ hlen]
    have hj1 : a[j + 1]? = some (a[j + 1]) := List.getElem?_eq_getElem (by omega)
    by_cases h1 : j + 1 ≤ m ∧ m < j + 1 + k
    · have h2 : j ≤ m ∧ m < j + (k + 1) := by omega
      have h3 : j ≠ m + 1 := by omega
      simp [h1, h2, List.getElem?_set_ne h3]
    · rw [if_neg h1]
      by_cases h4 : m = j
      · subst h4
        have h2 : m ≤ m ∧ m < m + (k + 1) := by omega
        have h5 : m < a.length := by omega
        rw [if_pos h2, List.getElem?_set_self h5, hj1]
        rfl
      · have h2 : ¬ (j ≤ m ∧ m < j + (k + 1)) := by omega
        rw [if_neg h2, List.getElem?_set_ne (Ne.symm h4)]

/-- After the shift loop the first `n - 1` slots are the first `n` slots with slot `i`
deleted. -/
theorem take_shifted (a : List MemoryTraceInfo) (n i : Nat) (hi : i < n) (hn : n ≤ a.length) :
    (shifted i (n - 1 - i) a).take (n - 1) = (a.take n).eraseIdx i := by
  apply List.ext_getElem?
  intro m
  have hb : i + (n - 1 - i) < a.length := by omega
  rw [List.getElem?_take, shifted_getElem? _ _ _ hb, List.getElem?_eraseIdx,
    List.getElem?_take, List.getElem?_take]
  by_cases h1 : m < n - 1
  · by_cases h2 : m < i
    · have h3 : ¬ (i ≤ m ∧ m < i + (n - 1 - i)) := by omega
      have h4 : m < n := by omega
      simp [h1, h2, h3, h4]
    · have h3 : i ≤ m ∧ m < i + (n - 1 - i) := by omega
      have h4 : m + 1 < n := by omega
      simp [h1, h2, h3, h4]
  · by_cases h2 : m < i
    · omega
    · have h4 : ¬ (m + 1 < n) := by omega
      simp [h1, h2, h4]

theorem shift_loop_eq (fuel : Nat) (s : State) (j : Nat)
    (hfuel : s.memory_track_allocation_t - 1 - j ≤ fuel) :
    shift_loop fuel s j
      = some { s with
          memory_track_allocation :=
            s.memory_track_allocation.map (shifted j (s.memory_track_allocation_t - 1 - j))
          trace := s.trace ++ List.replicate (s.memory_track_allocation_t - 1 - j) Event.write } := by
  induction fuel generalizing s j with
  | zero =>
    have h0 : s.memory_track_allocation_t - 1 - j = 0 := by omega
    have h1 : ¬ (j < s.memory_track_allocation_t - 1) := by omega
    rw [shift_loop, if_neg h1, h0]
    cases s with
    | mk d m a n hp v tr => cases a <;> simp [shifted]
  | succ fuel ih =>
    rw [shift_loop]
    by_cases h1 : j < s.memory_track_allocation_t - 1
    · rw [if_pos h1]
      have hc : (store_slot s j (slot s (j + 1))).memory_track_allocation_t
          = s.memory_track_allocation_t := rfl
      rw [ih _ _ (by rw [hc]; omega), hc]
      have hk : s.memory_track_allocation_t - 1 - j
          = (s.memory_track_allocation_t - 1 - (j + 1)) + 1 := by omega
      rw [hk]
      cases s with
      | mk d m a n hp v tr =>
        cases a <;> simp [store_slot, slot, shifted, List.replicate_succ]
    · have h0 : s.memory_track_allocation_t - 1 - j = 0 := by omega
      rw [if_neg h1, h0]
      cases s with
      | mk d m a n hp v tr => cases a <;> simp [shifted]

theorem freed_append (T U : List Event) : freed (T ++ U) = freed T ++ freed U := by
  induction T with
  | nil => rfl
  | cons e T ih => cases e <;> simp [freed, ih]

theorem printed_append (T U : List Event) : printed (T ++ U) = printed T ++ printed U := by
  induction T with
  | nil => rfl
  | cons e T ih => cases e <;> simp [printed, ih]

theorem bookkeeping_append {T U : List Event} (hT : Bookkeeping T) (hU : Bookkeeping U) :
    Bookkeeping (T ++ U) := by
  intro e he
  rcases List.mem_append.mp he with h | h
  · exact hT e h
  · exact hU e h

theorem bookkeeping_replicate_write (k : Nat) : Bookkeeping (List.replicate k Event.write) := by
  intro e he
  exact Or.inr (Or.inr (List.eq_of_mem_replicate he))

theorem bookkeeping_freed {T : List Event} (hT : Bookkeeping T) : freed T = [] := by
  induction T with
  | nil => rfl
  | cons e T ih =>
    have hT2 : Bookkeeping T := fun x hx => hT x (List.mem_cons_of_mem _ hx)
    rcases hT e (List.mem_cons_self _ _) with h | h | h <;> subst h <;> simpa [freed] using ih hT2

theorem bookkeeping_printed {T : List Event} (hT : Bookkeeping T) : printed T = [] := by
  induction T with
  | nil => rfl
  | cons e T ih =>
    have hT2 : Bookkeeping T := fun x hx => hT x (List.mem_cons_of_mem _ hx)
    rcases hT e (List.mem_cons_self _ _) with h | h | h <;> subst h <;>
      simpa [printed] using ih hT2

/-- The matching branch of `unregister_allocation`: slot `i` is deleted from the live
records whatever the outcome of the shrinking `realloc`. -/
theorem remove_at_spec (s : State) (i : Nat) (shrink_ok : Bool)
    (hlock : s.memorySemaphore = Semaphore.taken)
    (hi : i < s.memory_track_allocation_t) (hok : StorageOk s) :
    ∃ t T, remove_at s i shrink_ok = some t ∧
      t.debug_track_allocation = s.debug_track_allocation ∧
      t.memorySemaphore = Semaphore.available ∧
      t.heap = s.heap ∧ t.vars = s.vars ∧ t.trace = s.trace ++ T ∧ Bookkeeping T ∧
      records t = (records s).eraseIdx i ∧
      t.memory_track_allocation_t = s.memory_track_allocation_t - 1 ∧ StorageOk t := by
  obtain ⟨d, m, a, n, hp, v, tr⟩ := s
  simp only at hlock hi
  subst hlock
  cases a with
  | none => simp [StorageOk, capacity] at hok; omega
  | some a =>
    have hn : n ≤ a.length := by simpa [StorageOk, capacity] using hok
    have hrec := take_shifted a n i hi hn
    have hlen := shifted_length (n - 1 - i) i a
    rw [remove_at, shift_loop_eq _ _ _ (by show n - 1 - i ≤ n; omega)]
    have hB1 : Bookkeeping (List.replicate (n - 1 - i) Event.write ++ [Event.write]
        ++ [Event.give]) := by
      intro e he
      simp only [List.mem_append, List.mem_singleton] at he
      rcases he with (h | h) | h
      · exact Or.inr (Or.inr (List.eq_of_mem_replicate h))
      · exact Or.inr (Or.inr h)
      · exact Or.inr (Or.inl h)
    have hB2 : Bookkeeping (List.replicate (n - 1 - i) Event.write ++ [Event.write]
        ++ [Event.write] ++ [Event.give]) := by
      intro e he
      simp only [List.mem_append, List.mem_singleton] at he
      rcases he with ((h | h) | h) | h
      · exact Or.inr (Or.inr (List.eq_of_mem_replicate h))
      · exact Or.inr (Or.inr h)
      · exact Or.inr (Or.inr h)
      · exact Or.inr (Or.inl h)
    by_cases hpos : n - 1 > 0
    · cases shrink_ok
      · refine ⟨_, List.replicate (n - 1 - i) Event.write ++ [Event.write] ++ [Event.give],
          rfl, ?_⟩
        simp only [set_count, set_storage, realloc, xSemaphoreGive, hpos, records,
          StorageOk, capacity, if_true, Option.map_some', Option.getD_some, hrec, hlen,
          List.append_assoc, Bool.false_eq_true, if_false]
        exact ⟨trivial, trivial, trivial, trivial, trivial, by simpa using hB1, trivial, trivial,
          by omega⟩
      · refine ⟨_, List.replicate (n - 1 - i) Event.write ++ [Event.write] ++ [Event.write]
          ++ [Event.give], rfl, ?_⟩
        simp only [set_count, set_storage, realloc, xSemaphoreGive, hpos, records,
          StorageOk, capacity, if_true, Option.map_some', Option.getD_some,
          List.append_assoc]
        refine ⟨trivial, trivial, trivial, trivial, trivial, by simpa using hB2, ?_, trivial, ?_⟩
        · rw [← hrec, hlen]
          have h0 : n - 1 - a.length = 0 := by omega
          simp [h0]
        · rw [hlen]
          have h0 : n - 1 - a.length = 0 := by omega
          simp [h0]
          omega
    · have hn1 : n = 1 := by omega
      subst hn1
      have hi0 : i = 0 := by omega
      subst hi0
      refine ⟨_, List.replicate (1 - 1 - 0) Event.write ++ [Event.write] ++ [Event.write]
          ++ [Event.give], rfl, ?_⟩
      have hz : ¬ (1 - 1 > 0) := by decide
      simp only [set_count, set_storage, xSemaphoreGive, records, StorageOk, capacity,
        Option.getD_none, Option.getD_some, List.append_assoc, hz, if_false]
      refine ⟨trivial, trivial, trivial, trivial, ?_, by simpa using hB2, ?_, ?_, ?_⟩
      · simp
      · cases a with
        | nil => simp at hn
        | cons x xs => simp
      · simp
      · simp

theorem slot_eq_records (s : State) (i : Nat) (hi : i < s.memory_track_allocation_t) :
    slot s i = ((records s)[i]?).getD default := by
  simp [slot, records, List.getElem?_take, hi]

/-- The scan skips every index whose slot does not match. -/
theorem unregister_loop_skip (fuel : Nat) (s : State) (ptr : Nat) (shrink_ok : Bool)
    (i k : Nat) (hik : i ≤ k) (hk : k ≤ s.memory_track_allocation_t)
    (hne : ∀ m, i ≤ m → m < k → (slot s m).address ≠ ptr) (hfuel : k - i ≤ fuel) :
    unregister_loop fuel s ptr shrink_ok i
      = unregister_loop (fuel - (k - i)) s ptr shrink_ok k := by
  induction fuel generalizing i with
  | zero =>
    have h0 : i = k := by omega
    subst h0
    rw [Nat.sub_self, Nat.sub_zero]
  | succ f ih =>
    by_cases hik2 : i = k
    · subst hik2
      rw [Nat.sub_self, Nat.sub_zero]
    · have hlt : i < s.memory_track_allocation_t := by omega
      have hf : f + 1 - (k - i) = f - (k - (i + 1)) := by omega
      rw [hf, ← ih (i + 1) (by omega) (fun m h1 h2 => hne m (by omega) h2) (by omega)]
      rw [unregister_loop.eq_def]
      simp only [if_pos hlt, if_neg (hne i (le_refl i) (by omega))]

theorem unregister_loop_hit (fuel : Nat) (s : State) (ptr : Nat) (shrink_ok : Bool) (k : Nat)
    (hk : k < s.memory_track_allocation_t) (hm : (slot s k).address = ptr) :
    unregister_loop fuel s ptr shrink_ok k = remove_at s k shrink_ok := by
  rw [unregister_loop.eq_def]
  simp only [if_pos hk, if_pos hm]

theorem unregister_loop_end (fuel : Nat) (s : State) (ptr : Nat) (shrink_ok : Bool) :
    unregister_loop fuel s ptr shrink_ok s.memory_track_allocation_t
      = some (xSemaphoreGive s) := by
  rw [unregister_loop.eq_def]
  simp only [if_neg (lt_irrefl _)]

/-- A list with an element satisfying `p` splits at the first such element. -/
theorem split_at_first {α : Type} (p : α → Prop) (l : List α) (h : ∃ x ∈ l, p x) :
    ∃ pre r post, l = pre ++ r :: post ∧ p r ∧ ∀ x ∈ pre, ¬ p x := by
  classical
  induction l with
  | nil => simp at h
  | cons a l ih =>
    by_cases ha : p a
    · exact ⟨[], a, l, rfl, ha, by simp⟩
    · obtain ⟨x, hx, hpx⟩ := h
      have hx2 : x ∈ l := by
        rcases List.mem_cons.mp hx with h1 | h1
        · subst h1; exact absurd hpx ha
        · exact h1
      obtain ⟨pre, r, post, hl, hr, hpre⟩ := ih ⟨x, hx2, hpx⟩
      refine ⟨a :: pre, r, post, by simp [hl], hr, ?_⟩
      intro y hy
      rcases List.mem_cons.mp hy with h1 | h1
      · subst h1; exact ha
      · exact hpre y h1

/-- Removal of a tracked address: the first record with that address is deleted. -/
theorem unregister_hit (s : State) (ptr : Nat) (shrink_ok : Bool)
    (pre : List MemoryTraceInfo) (r : MemoryTraceInfo) (post : List MemoryTraceInfo)
    (htrack : s.debug_track_allocation = true)
    (hlock : s.memorySemaphore = Semaphore.available) (hok : StorageOk s) (hptr : ptr ≠ 0)
    (hrec : records s = pre ++ r :: post) (hr : r.address = ptr)
    (hpre : ∀ x ∈ pre, x.address ≠ ptr) :
    ∃ t T, unregister_allocation s ptr shrink_ok = some t ∧ RegistryStep s t T ∧
      Bookkeeping T ∧ records t = pre ++ post ∧
      t.memory_track_allocation_t + 1 = s.memory_track_allocation_t ∧ StorageOk t := by
  have hlen : (records s).length = s.memory_track_allocation_t := by
    simp only [records, List.length_take, StorageOk, capacity] at hok ⊢
    omega
  have hk : pre.length < s.memory_track_allocation_t := by
    rw [← hlen, hrec]; simp
  let s1 : State :=
    { s with memorySemaphore := Semaphore.taken, trace := s.trace ++ [Event.take] }
  have hrec1 : records s1 = records s := rfl
  have hslot : ∀ m, slot s1 m = slot s m := fun m => rfl
  have hne : ∀ m, 0 ≤ m → m < pre.length → (slot s1 m).address ≠ ptr := by
    intro m _ hm
    rw [hslot, slot_eq_records s m (by omega), hrec, List.getElem?_append_left hm,
      List.getElem?_eq_getElem hm]
    exact hpre _ (List.getElem_mem _)
  have hm : (slot s1 pre.length).address = ptr := by
    rw [hslot, slot_eq_records s _ hk, hrec, List.getElem?_append_right (le_refl _),
      Nat.sub_self]
    simpa using hr
  have hstep : unregister_allocation s ptr shrink_ok = remove_at s1 pre.length shrink_ok := by
    have hc : ¬ (ptr = 0 ∨ (!s.debug_track_allocation) = true) := by simp [hptr, htrack]
    rw [unregister_allocation, if_neg hc, xSemaphoreTake_available s hlock]
    show unregister_loop s1.memory_track_allocation_t s1 ptr shrink_ok 0 = _
    rw [unregister_loop_skip _ s1 ptr shrink_ok 0 pre.length (Nat.zero_le _) (le_of_lt hk) hne
      (le_of_lt hk)]
    exact unregister_loop_hit _ s1 ptr shrink_ok _ hk hm
  obtain ⟨t, T, h1, h2, h3, h4, h5, h6, h7, h8, h9, h10⟩ :=
    remove_at_spec s1 pre.length shrink_ok rfl hk hok
  refine ⟨t, [Event.take] ++ T, by rw [hstep, h1], ⟨by rw [h2], by rw [h3, hlock], h4, h5, ?_⟩,
    ?_, ?_, ?_, h10⟩
  · rw [h6]; simp [s1]
  · exact bookkeeping_append (fun e he => Or.inl (List.mem_singleton.mp he)) h7
  · rw [h8, hrec1, hrec, List.eraseIdx_append_of_length_le (le_refl _), Nat.sub_self]
    rfl
  · rw [h9]
    show s.memory_track_allocation_t - 1 + 1 = s.memory_track_allocation_t
    omega

/-! ## Registration -/

/-- Growing the array by one slot and storing into the new last slot appends. -/
theorem take_set_grow (a : List MemoryTraceInfo) (n : Nat) (x : MemoryTraceInfo)
    (hn : n ≤ a.length) :
    ((a.take (n + 1) ++ List.replicate (n + 1 - a.length) default).set n x).take (n + 1)
      = a.take n ++ [x] := by
  have hL : (a.take (n + 1) ++ List.replicate (n + 1 - a.length) default).length = n + 1 := by
    simp only [List.length_append, List.length_take, List.length_replicate]
    omega
  apply List.ext_getElem?
  intro m
  rw [List.getElem?_take, List.getElem?_set, hL, List.getElem?_append, List.length_take,
    List.getElem?_take, List.getElem?_append, List.length_take, List.getElem?_take]
  have hmin : min n a.length = n := by omega
  rw [hmin]
  by_cases h1 : m < n
  · have h2 : m < n + 1 := by omega
    have h3 : n ≠ m := by omega
    have h4 : m < min (n + 1) a.length := by omega
    simp [h1, h2, h3, h4]
  · by_cases h2 : m = n
    · subst h2
      simp
    · have h3 : ¬ (m < n + 1) := by omega
      have h4 : m - n ≠ 0 := by omega
      have h5 : ∃ k, m - n = k + 1 := ⟨m - n - 1, by omega⟩
      obtain ⟨k, hk⟩ := h5
      simp [h1, h3, hk]

/-- Successful registration: the record is appended behind the live records. -/
theorem register_ok (s : State) (info : MemoryTraceInfo)
    (htrack : s.debug_track_allocation = true)
    (hlock : s.memorySemaphore = Semaphore.available) (hok : StorageOk s) :
    ∃ t T, register_allocation s info true = some t ∧ RegistryStep s t T ∧ Bookkeeping T ∧
      records t = records s ++ [info] ∧
      t.memory_track_allocation_t = s.memory_track_allocation_t + 1 ∧ StorageOk t := by
  obtain ⟨d, m, a, n, hp, v, tr⟩ := s
  simp only at htrack hlock
  subst htrack hlock
  have hn : n ≤ (a.getD []).length := hok
  have hB : Bookkeeping [Event.take, Event.write, Event.write, Event.write, Event.give] := by
    intro e he
    simp only [List.mem_cons, List.mem_singleton, List.not_mem_nil, or_false] at he
    rcases he with h | h | h | h | h
    · exact Or.inl h
    · exact Or.inr (Or.inr h)
    · exact Or.inr (Or.inr h)
    · exact Or.inr (Or.inr h)
    · exact Or.inr (Or.inl h)
  refine ⟨_, [Event.take, Event.write, Event.write, Event.write, Event.give], rfl,
    ⟨rfl, rfl, rfl, rfl, ?_⟩, hB, ?_, rfl, ?_⟩
  · simp [xSemaphoreTake, realloc, set_storage, store_slot, set_count, xSemaphoreGive]
  · simp only [xSemaphoreTake, realloc, set_storage, store_slot, set_count, xSemaphoreGive,
      records, if_true, Option.bind, Option.map_some', Option.getD_some]
    exact take_set_grow (a.getD []) n info hn
  · simp only [xSemaphoreTake, realloc, set_storage, store_slot, set_count, xSemaphoreGive,
      StorageOk, capacity, if_true, Option.bind, Option.map_some', Option.getD_some,
      List.length_set, List.length_append, List.length_take, List.length_replicate]
    omega

/-- Failed growth: the registry is left as it is; the call prints, waits, and returns. -/
theorem register_fail (s : State) (info : MemoryTraceInfo)
    (htrack : s.debug_track_allocation = true)
    (hlock : s.memorySemaphore = Semaphore.available) :
    ∃ t, register_allocation s info false = some t ∧
      RegistryStep s t [Event.take,
        Event.printf "Failed to allocate memory for tracking allocations\n",
        Event.wait 5000, Event.give] ∧
      t.memory_track_allocation = s.memory_track_allocation ∧
      t.memory_track_allocation_t = s.memory_track_allocation_t := by
  obtain ⟨d, m, a, n, hp, v, tr⟩ := s
  simp only at htrack hlock
  subst htrack hlock
  refine ⟨_, rfl, ⟨rfl, rfl, rfl, rfl, ?_⟩, rfl, rfl⟩
  simp [xSemaphoreTake, realloc, emit, xSemaphoreGive]

/-! ## Lookup miss and release -/

theorem unregister_guard (s : State) (ptr : Nat) (shrink_ok : Bool)
    (h : ptr = 0 ∨ s.debug_track_allocation = false) :
    unregister_allocation s ptr shrink_ok = some s := by
  have hc : ptr = 0 ∨ (!s.debug_track_allocation) = true := by
    rcases h with h | h
    · exact Or.inl h
    · exact Or.inr (by simp [h])
  rw [unregister_allocation, if_pos hc]

/-- In a consistent state every live slot is an element of the record sequence. -/
theorem slot_mem_records (s : State) (hok : StorageOk s) (m : Nat)
    (hm : m < s.memory_track_allocation_t) : slot s m ∈ records s := by
  have hlen : (records s).length = s.memory_track_allocation_t := by
    simp only [records, List.length_take, StorageOk, capacity] at hok ⊢
    omega
  rw [slot_eq_records s m hm, List.getElem?_eq_getElem (by omega)]
  exact List.getElem_mem _

/-- Removal of an address no record has: only the mutex is taken and given. -/
theorem unregister_miss (s : State) (ptr : Nat) (shrink_ok : Bool)
    (htrack : s.debug_track_allocation = true)
    (hlock : s.memorySemaphore = Semaphore.available) (hok : StorageOk s) (hptr : ptr ≠ 0)
    (hmiss : ∀ x ∈ records s, x.address ≠ ptr) :
    unregister_allocation s ptr shrink_ok
      = some { s with trace := s.trace ++ [Event.take, Event.give] } := by
  let s1 : State :=
    { s with memorySemaphore := Semaphore.taken, trace := s.trace ++ [Event.take] }
  have hne : ∀ m, 0 ≤ m → m < s1.memory_track_allocation_t → (slot s1 m).address ≠ ptr :=
    fun m _ hm => hmiss _ (slot_mem_records s hok m hm)
  have hc : ¬ (ptr = 0 ∨ (!s.debug_track_allocation) = true) := by simp [hptr, htrack]
  rw [unregister_allocation, if_neg hc, xSemaphoreTake_available s hlock]
  show unregister_loop s1.memory_track_allocation_t s1 ptr shrink_ok 0 = _
  rw [unregister_loop_skip _ s1 ptr shrink_ok 0 s1.memory_track_allocation_t (Nat.zero_le _)
    (le_refl _) hne (by omega), unregister_loop_end]
  obtain ⟨d, m, a, n, hp, v, tr⟩ := s
  simp only at hlock
  subst hlock
  simp [s1, xSemaphoreGive]

/-- The zeroing scan skips every index whose slot does not match `*ptr`. -/
theorem zero_loop_skip (fuel : Nat) (s : State) (ptr : Nat) (i k : Nat) (hik : i ≤ k)
    (hk : k ≤ s.memory_track_allocation_t)
    (hne : ∀ m, i ≤ m → m < k → (slot s m).address ≠ s.vars ptr) (hfuel : k - i ≤ fuel) :
    zero_loop fuel s ptr i = zero_loop (fuel - (k - i)) s ptr k := by
  induction fuel generalizing i with
  | zero =>
    have h0 : i = k := by omega
    subst h0
    rw [Nat.sub_self, Nat.sub_zero]
  | succ f ih =>
    by_cases hik2 : i = k
    · subst hik2
      rw [Nat.sub_self, Nat.sub_zero]
    · have hlt : i < s.memory_track_allocation_t := by omega
      have hf : f + 1 - (k - i) = f - (k - (i + 1)) := by omega
      rw [hf, ← ih (i + 1) (by omega) (fun m h1 h2 => hne m (by omega) h2) (by omega)]
      rw [zero_loop.eq_def]
      simp only [if_pos hlt, if_neg (hne i (le_refl i) (by omega))]

theorem zero_loop_hit (fuel : Nat) (s : State) (ptr : Nat) (k : Nat)
    (hk : k < s.memory_track_allocation_t) (hm : (slot s k).address = s.vars ptr) :
    zero_loop fuel s ptr k = some (memset s (s.vars ptr) (slot s k).size) := by
  rw [zero_loop.eq_def]
  simp only [if_pos hk, if_pos hm]

theorem zero_loop_end (fuel : Nat) (s : State) (ptr : Nat) :
    zero_loop fuel s ptr s.memory_track_allocation_t = some s := by
  rw [zero_loop.eq_def]
  simp only [if_neg (lt_irrefl _)]

/-- The zeroing scan adds at most one `memset` and nothing else. -/
theorem zero_loop_trace (fuel : Nat) (s : State) (ptr : Nat) (i : Nat)
    (hfuel : s.memory_track_allocation_t - i ≤ fuel) :
    ∃ t M, zero_loop fuel s ptr i = some t ∧
      t.memorySemaphore = s.memorySemaphore ∧
      t.debug_track_allocation = s.debug_track_allocation ∧
      (t.memory_track_allocation = s.memory_track_allocation ∧
        t.memory_track_allocation_t = s.memory_track_allocation_t) ∧
      t.trace = s.trace ++ M ∧ ∀ e ∈ M, ∃ a n, e = Event.memset a n := by
  induction fuel generalizing i with
  | zero =>
    have h1 : ¬ (i < s.memory_track_allocation_t) := by omega
    rw [zero_loop.eq_def]
    simp only [if_neg h1]
    exact ⟨s, [], rfl, rfl, rfl, ⟨rfl, rfl⟩, by simp, by intro e he; simp at he⟩
  | succ f ih =>
    rw [zero_loop.eq_def]
    by_cases h1 : i < s.memory_track_allocation_t
    · by_cases h2 : (slot s i).address = s.vars ptr
      · simp only [if_pos h1, if_pos h2]
        refine ⟨_, [Event.memset (s.vars ptr) (slot s i).size], rfl, rfl, rfl, ⟨rfl, rfl⟩,
          rfl, ?_⟩
        intro e he
        exact ⟨_, _, List.mem_singleton.mp he⟩
      · simp only [if_pos h1, if_neg h2]
        exact ih (i + 1) (by omega)
    · simp only [if_neg h1]
      exact ⟨s, [], rfl, rfl, rfl, ⟨rfl, rfl⟩, by simp, by intro e he; simp at he⟩

/-- Release of a block the registry has a record for, through a pointer variable
stored outside the block: the block is zeroed over the recorded size, the first record
for the address is removed, then the block is freed and the caller's variable is set
to null. -/
theorem free_unregister_hit (s : State) (ptr : Nat) (shrink_ok : Bool)
    (pre : List MemoryTraceInfo) (r : MemoryTraceInfo) (post : List MemoryTraceInfo)
    (htrack : s.debug_track_allocation = true)
    (hlock : s.memorySemaphore = Semaphore.available) (hok : StorageOk s) (hptr : ptr ≠ 0)
    (ha : s.vars ptr ≠ 0) (hrec : records s = pre ++ r :: post)
    (hr : r.address = s.vars ptr) (hpre : ∀ x ∈ pre, x.address ≠ s.vars ptr)
    (hsep : s.vars ptr + r.size ≤ ptr ∨ ptr + 4 ≤ s.vars ptr ∨ r.size = 0) :
    ∃ t T, free_unregister_allocation s ptr shrink_ok = some t ∧
      t.debug_track_allocation = s.debug_track_allocation ∧
      t.memorySemaphore = s.memorySemaphore ∧
      t.heap = (fun x => if s.vars ptr ≤ x ∧ x < s.vars ptr + r.size then 0 else s.heap x) ∧
      t.vars ptr = 0 ∧
      t.trace = s.trace ++ T ++ [Event.heap_caps_free (s.vars ptr) t.heap] ∧
      freed T = [] ∧ printed T = [] ∧
      records t = pre ++ post ∧
      t.memory_track_allocation_t + 1 = s.memory_track_allocation_t ∧ StorageOk t := by
  have hlen : (records s).length = s.memory_track_allocation_t := by
    simp only [records, List.length_take, StorageOk, capacity] at hok ⊢
    omega
  have hk : pre.length < s.memory_track_allocation_t := by
    rw [← hlen, hrec]; simp
  let s1 : State :=
    { s with memorySemaphore := Semaphore.taken, trace := s.trace ++ [Event.take] }
  have hslot : ∀ m, slot s1 m = slot s m := fun m => rfl
  have hne : ∀ m, 0 ≤ m → m < pre.length → (slot s1 m).address ≠ s1.vars ptr := by
    intro m _ hm
    rw [hslot, slot_eq_records s m (by omega), hrec, List.getElem?_append_left hm,
      List.getElem?_eq_getElem hm]
    exact hpre _ (List.getElem_mem _)
  have hsl : slot s1 pre.length = r := by
    rw [hslot, slot_eq_records s _ hk, hrec, List.getElem?_append_right (le_refl _),
      Nat.sub_self]
    simp
  have hm : (slot s1 pre.length).address = s1.vars ptr := by rw [hsl]; exact hr
  have hz : zero_loop s1.memory_track_allocation_t s1 ptr 0
      = some (memset s1 (s.vars ptr) r.size) := by
    rw [zero_loop_skip _ s1 ptr 0 pre.length (Nat.zero_le _) (le_of_lt hk) hne (le_of_lt hk),
      zero_loop_hit _ s1 ptr _ hk hm, hsl]
  let s3 : State :=
    { s with
      memorySemaphore := Semaphore.available
      heap := fun x => if s.vars ptr ≤ x ∧ x < s.vars ptr + r.size then 0 else s.heap x
      vars := fun p => zeroed_word p (s.vars p) (s.vars ptr) r.size
      trace := s.trace ++ [Event.take] ++ [Event.memset (s.vars ptr) r.size] ++ [Event.give] }
  have hs3 : xSemaphoreGive (memset s1 (s.vars ptr) r.size) = s3 := rfl
  have hb : s3.vars ptr = s.vars ptr := if_pos hsep
  obtain ⟨t, T, h1, ⟨h2, h3, h4, h5, h6⟩, h7, h8, h9, h10⟩ :=
    unregister_hit s3 (s.vars ptr) shrink_ok pre r post htrack rfl hok ha hrec hr hpre
  have hcond : ptr ≠ 0 ∧ s.vars ptr ≠ 0 := ⟨hptr, ha⟩
  have hv : t.vars ptr = s.vars ptr := by rw [h5, hb]
  refine ⟨{ heap_caps_free t (t.vars ptr) with
      vars := Function.update (heap_caps_free t (t.vars ptr)).vars ptr 0 },
    [Event.take, Event.memset (s.vars ptr) r.size, Event.give] ++ T, ?_, ?_⟩
  · rw [free_unregister_allocation, if_pos hcond, if_pos htrack,
      xSemaphoreTake_available s hlock]
    show ((zero_loop s1.memory_track_allocation_t s1 ptr 0).bind _).bind _ = _
    rw [hz]
    show ((unregister_allocation s3 (s3.vars ptr) shrink_ok)).bind _ = _
    rw [hb, h1]
    rfl
  · refine ⟨h2, h3.trans hlock.symm, h4, ?_, ?_, ?_, ?_, h8, h9, h10⟩
    · show Function.update t.vars ptr 0 ptr = 0
      simp
    · show t.trace ++ [Event.heap_caps_free (t.vars ptr) t.heap] = _
      rw [h6, hv]
      simp [s3, heap_caps_free, emit]
    · rw [freed_append, bookkeeping_freed h7]; rfl
    · rw [printed_append, bookkeeping_printed h7]; rfl

/-- Release of a block the registry has no record for (or with tracking disabled): no
byte is written, the registry is left as it is, the block is freed and the caller's
variable is set to null. -/
theorem free_unregister_miss (s : State) (ptr : Nat) (shrink_ok : Bool)
    (hlock : s.debug_track_allocation = true → s.memorySemaphore = Semaphore.available)
    (hok : StorageOk s) (hptr : ptr ≠ 0) (ha : s.vars ptr ≠ 0)
    (hmiss : s.debug_track_allocation = true → ∀ x ∈ records s, x.address ≠ s.vars ptr) :
    ∃ T, Bookkeeping T ∧
      free_unregister_allocation s ptr shrink_ok
        = some { s with
            vars := Function.update s.vars ptr 0
            trace := s.trace ++ T ++ [Event.heap_caps_free (s.vars ptr) s.heap] } := by
  have hcond : ptr ≠ 0 ∧ s.vars ptr ≠ 0 := ⟨hptr, ha⟩
  cases htrack : s.debug_track_allocation with
  | false =>
    refine ⟨[], by intro e he; simp at he, ?_⟩
    rw [free_unregister_allocation, if_pos hcond]
    simp [htrack, heap_caps_free, emit]
  | true =>
    have hl := hlock htrack
    have hmiss2 := hmiss htrack
    let s1 : State :=
      { s with memorySemaphore := Semaphore.taken, trace := s.trace ++ [Event.take] }
    have hne : ∀ m, 0 ≤ m → m < s1.memory_track_allocation_t →
        (slot s1 m).address ≠ s1.vars ptr :=
      fun m _ hm => hmiss2 _ (slot_mem_records s hok m hm)
    have hz : zero_loop s1.memory_track_allocation_t s1 ptr 0 = some s1 := by
      rw [zero_loop_skip _ s1 ptr 0 s1.memory_track_allocation_t (Nat.zero_le _) (le_refl _)
        hne (by omega), zero_loop_end]
    let s3 : State :=
      { s with
        memorySemaphore := Semaphore.available
        trace := s.trace ++ [Event.take] ++ [Event.give] }
    have hs3 : xSemaphoreGive s1 = s3 := rfl
    have hu := unregister_miss s3 (s.vars ptr) shrink_ok htrack rfl hok ha hmiss2
    refine ⟨[Event.take, Event.give, Event.take, Event.give], ?_, ?_⟩
    · intro e he
      simp only [List.mem_cons, List.mem_singleton, List.not_mem_nil, or_false] at he
      rcases he with h | h | h | h
      · exact Or.inl h
      · exact Or.inr (Or.inl h)
      · exact Or.inl h
      · exact Or.inr (Or.inl h)
    · rw [free_unregister_allocation, if_pos hcond, if_pos htrack,
        xSemaphoreTake_available s hl]
      show ((zero_loop s1.memory_track_allocation_t s1 ptr 0).bind _).bind _ = _
      rw [hz]
      show ((unregister_allocation s3 (s.vars ptr) shrink_ok)).bind _ = _
      rw [hu]
      simp [heap_caps_free, emit, s3, hl, htrack]

/-! ## Enumeration and sequences of registry calls -/

theorem list_loop_eq (fuel : Nat) (s : State) (i : Nat)
    (hfuel : s.memory_track_allocation_t - i ≤ fuel) :
    list_loop fuel s i
      = some { s with
          trace := s.trace ++ (List.range' i (s.memory_track_allocation_t - i)).map
            (fun k => Event.print_allocation (slot s k)) } := by
  induction fuel generalizing s i with
  | zero =>
    have h0 : s.memory_track_allocation_t - i = 0 := by omega
    have h1 : ¬ (i < s.memory_track_allocation_t) := by omega
    rw [list_loop.eq_def]
    simp only [if_neg h1, h0]
    simp
  | succ f ih =>
    rw [list_loop.eq_def]
    by_cases h1 : i < s.memory_track_allocation_t
    · simp only [if_pos h1]
      rw [ih _ _ (by show s.memory_track_allocation_t - (i + 1) ≤ f; omega)]
      have hk : s.memory_track_allocation_t - i
          = (s.memory_track_allocation_t - (i + 1)) + 1 := by omega
      rw [hk, List.range'_succ]
      simp [emit, slot]
    · have h0 : s.memory_track_allocation_t - i = 0 := by omega
      simp only [if_neg h1, h0]
      simp

theorem printed_map_print (l : List MemoryTraceInfo) :
    printed (l.map Event.print_allocation) = l := by
  induction l with
  | nil => rfl
  | cons a l ih => simp [printed, ih]

/-- In a consistent state the slots below the counter are the record sequence. -/
theorem map_slot_range (s : State) (hok : StorageOk s) :
    (List.range' 0 s.memory_track_allocation_t).map (slot s) = records s := by
  apply List.ext_getElem?
  intro m
  have hlen : (records s).length = s.memory_track_allocation_t := by
    simp only [records, List.length_take, StorageOk, capacity] at hok ⊢
    omega
  by_cases hm : m < s.memory_track_allocation_t
  · rw [List.getElem?_map, List.getElem?_range' _ _ hm, List.getElem?_eq_getElem (by omega)]
    simp only [Option.map_some', Nat.zero_add, Nat.one_mul]
    rw [slot_eq_records s m hm, List.getElem?_eq_getElem (by omega)]
    rfl
  · rw [List.getElem?_eq_none (by simp; omega), List.getElem?_eq_none (by omega)]

/-- What `list_allocations` prints: the record sequence when tracking is enabled,
nothing otherwise. -/
theorem list_allocations_prints (s : State)
    (hlock : s.debug_track_allocation = true → s.memorySemaphore = Semaphore.available)
    (hok : StorageOk s) :
    ∃ u, list_allocations s = some u ∧
      printed u.trace
        = printed s.trace ++ (if s.debug_track_allocation then records s else []) ∧
      u.memory_track_allocation = s.memory_track_allocation ∧
      u.memory_track_allocation_t = s.memory_track_allocation_t := by
  cases htrack : s.debug_track_allocation with
  | false =>
    refine ⟨s, ?_, by simp, rfl, rfl⟩
    simp [list_allocations, htrack]
  | true =>
    have hl := hlock htrack
    let s1 : State :=
      { s with memorySemaphore := Semaphore.taken, trace := s.trace ++ [Event.take] }
    have hloop := list_loop_eq s1.memory_track_allocation_t s1 0 (by omega)
    refine ⟨xSemaphoreGive
        { s1 with
          trace := s1.trace ++ (List.range' 0 (s1.memory_track_allocation_t - 0)).map
            (fun k => Event.print_allocation (slot s1 k)) }, ?_, ?_, ?_, ?_⟩
    · rw [list_allocations, if_pos htrack, xSemaphoreTake_available s hl]
      show (list_loop s1.memory_track_allocation_t s1 0).bind _ = _
      rw [hloop]
      rfl
    · have hmap : (List.range' 0 s.memory_track_allocation_t).map
          (fun k => Event.print_allocation (slot s k))
          = (records s).map Event.print_allocation := by
        rw [← map_slot_range s hok, List.map_map]
        rfl
      simp only [xSemaphoreGive, s1, Nat.sub_zero, if_true]
      have hs : ∀ k, slot s1 k = slot s k := fun k => rfl
      simp only [s1] at hs
      simp only [hs, hmap, printed_append, printed_map_print]
      simp [printed]
    · rfl
    · rfl

theorem eraseP_first (p : MemoryTraceInfo → Bool) (pre : List MemoryTraceInfo)
    (r : MemoryTraceInfo) (post : List MemoryTraceInfo) (hr : p r = true)
    (hpre : ∀ x ∈ pre, ¬ p x = true) :
    (pre ++ r :: post).eraseP p = pre ++ post := by
  rw [List.eraseP_append_right _ hpre, List.eraseP_cons_of_pos hr]

/-- One registry call from a consistent state: the call returns, the state stays
consistent and the record sequence follows the specification's registry. -/
theorem registry_call_step (s : State) (c : RegistryCall) (hok : StorageOk s)
    (hlock : s.debug_track_allocation = true → s.memorySemaphore = Semaphore.available) :
    ∃ t, c.run s = some t ∧ StorageOk t ∧
      t.debug_track_allocation = s.debug_track_allocation ∧
      t.memorySemaphore = s.memorySemaphore ∧
      records t = spec_step s.debug_track_allocation (records s) c := by
  cases htrack : s.debug_track_allocation with
  | false =>
    cases c with
    | register info grow_ok =>
      exact ⟨s, by simp [RegistryCall.run, register_allocation, htrack], hok, htrack, rfl,
        by simp [spec_step]⟩
    | unregister ptr shrink_ok =>
      exact ⟨s, unregister_guard s ptr shrink_ok (Or.inr htrack), hok, htrack, rfl,
        by simp [spec_step]⟩
  | true =>
    have hl := hlock htrack
    cases c with
    | register info grow_ok =>
      cases grow_ok with
      | true =>
        obtain ⟨t, T, h1, ⟨h2, h3, _⟩, _, h5, _, h7⟩ := register_ok s info htrack hl hok
        exact ⟨t, h1, h7, h2.trans htrack, h3, by simp [spec_step, h5]⟩
      | false =>
        obtain ⟨t, h1, ⟨h2, h3, _⟩, h4, h5⟩ := register_fail s info htrack hl
        have hrec : records t = records s := by simp [records, h4, h5]
        refine ⟨t, h1, ?_, h2.trans htrack, h3, by simp [spec_step, hrec]⟩
        simpa [StorageOk, capacity, h4, h5] using hok
    | unregister ptr shrink_ok =>
      by_cases hptr : ptr = 0
      · refine ⟨s, unregister_guard s ptr shrink_ok (Or.inl hptr), hok, htrack, rfl, ?_⟩
        simp [spec_step, hptr]
      · by_cases hmem : ∃ x ∈ records s, x.address = ptr
        · obtain ⟨pre, r, post, hrec, hr, hpre⟩ :=
            split_at_first (fun x => x.address = ptr) (records s) hmem
          obtain ⟨t, T, h1, ⟨h2, h3, _⟩, _, h5, _, h7⟩ :=
            unregister_hit s ptr shrink_ok pre r post htrack hl hok hptr hrec hr hpre
          refine ⟨t, h1, h7, h2.trans htrack, h3, ?_⟩
          simp only [spec_step, Bool.true_and, hptr, ne_eq, not_false_eq_true, decide_True,
            if_true]
          rw [h5, hrec, eraseP_first _ pre r post (by simpa using hr)
            (fun x hx => by simpa using hpre x hx)]
        · have hmiss : ∀ x ∈ records s, x.address ≠ ptr :=
            fun x hx hxa => hmem ⟨x, hx, hxa⟩
          have h1 := unregister_miss s ptr shrink_ok htrack hl hok hptr hmiss
          refine ⟨_, h1, hok, htrack, rfl, ?_⟩
          simp only [spec_step, Bool.true_and, hptr, ne_eq, not_false_eq_true, decide_True,
            if_true]
          rw [List.eraseP_of_forall_not (fun x hx => by simpa using hmiss x hx)]
          rfl

/-- A sequence of registry calls from a consistent state. -/
theorem run_calls_spec (calls : List RegistryCall) (s : State) (hok : StorageOk s)
    (hlock : s.debug_track_allocation = true → s.memorySemaphore = Semaphore.available) :
    ∃ t, run_calls s calls = some t ∧ StorageOk t ∧
      t.debug_track_allocation = s.debug_track_allocation ∧
      t.memorySemaphore = s.memorySemaphore ∧
      records t = calls.foldl (spec_step s.debug_track_allocation) (records s) := by
  induction calls generalizing s with
  | nil => exact ⟨s, rfl, hok, rfl, rfl, rfl⟩
  | cons c cs ih =>
    obtain ⟨u, h1, h2, h3, h4, h5⟩ := registry_call_step s c hok hlock
    obtain ⟨t, k1, k2, k3, k4, k5⟩ := ih u h2 (fun h => by rw [h4]; exact hlock (h3 ▸ h))
    refine ⟨t, ?_, k2, k3.trans h3, k4.trans h4, ?_⟩
    · rw [run_calls, h1]
      exact k1
    · rw [k5, h3, h5]
      rfl

/-! ## Removal of a tracked address -/

/-- C1. `unregister_allocation` with tracking enabled, on a non-null address that occurs
in the registry: the call returns, the record sequence afterwards is the original one
with the first record having that address deleted and all other records in their
original order, and the counter is decremented by exactly one (whether or not the
shrinking `realloc` succeeds). -/
theorem unregister_allocation_removes_first (s : State) (ptr : Nat) (shrink_ok : Bool)
    (htrack : s.debug_track_allocation = true)
    (hlock : s.memorySemaphore = Semaphore.available) (hok : StorageOk s)
    (hptr : ptr ≠ 0) (hmem : ∃ r ∈ records s, r.address = ptr) :
    ∃ t, unregister_allocation s ptr shrink_ok = some t ∧
      (∃ pre r post, records s = pre ++ r :: post ∧ r.address = ptr ∧
        (∀ x ∈ pre, x.address ≠ ptr) ∧ records t = pre ++ post) ∧
      t.memory_track_allocation_t + 1 = s.memory_track_allocation_t ∧
      (records t).length + 1 = (records s).length := by
  obtain ⟨pre, r, post, hrec, hr, hpre⟩ :=
    split_at_first (fun x => x.address = ptr) (records s) hmem
  obtain ⟨t, T, h1, _, _, h4, h5, _⟩ :=
    unregister_hit s ptr shrink_ok pre r post htrack hlock hok hptr hrec hr hpre
  refine ⟨t, h1, ⟨pre, r, post, hrec, hr, hpre, h4⟩, h5, ?_⟩
  rw [h4, hrec]
  simp
  omega

/-- C1, the scenario of `example/main.c`: after the tracked allocations of 256 and 512
bytes the enumeration prints exactly these two records in insertion order; releasing the
first leaves exactly the second, releasing the second leaves no record. -/
theorem unregister_allocation_removes_first_witness :
    (two_records.debug_track_allocation = true ∧
      two_records.memorySemaphore = Semaphore.available ∧ StorageOk two_records ∧
      (4096 : Nat) ≠ 0 ∧ (∃ r ∈ records two_records, r.address = 4096)) ∧
    (∃ t, unregister_allocation two_records 4096 true = some t ∧
      (∃ pre r post, records two_records = pre ++ r :: post ∧ r.address = 4096 ∧
        (∀ x ∈ pre, x.address ≠ 4096) ∧ records t = pre ++ post) ∧
      t.memory_track_allocation_t + 1 = two_records.memory_track_allocation_t ∧
      (records t).length + 1 = (records two_records).length) ∧
    (unregister_allocation two_records 4096 true).map records = some [record_debug_string] ∧
    (app_main_allocate (initial false) "main.c" 4 1024 1 2 4096 8192 true true).map
        (fun p => (p.1, records p.2, p.2.memory_track_allocation_t))
      = some (true, [record_buffer, record_debug_string], 2) ∧
    ((app_main_allocate (initial false) "main.c" 4 1024 1 2 4096 8192 true true).bind
        (fun p => list_allocations p.2)).map (fun s => printed s.trace)
      = some [record_buffer, record_debug_string] ∧
    ((app_main_allocate (initial false) "main.c" 4 1024 1 2 4096 8192 true true).bind
        (fun p => (list_allocations p.2).bind fun s =>
          (free_unregister_allocation s 1 true).bind list_allocations)).map
        (fun s => (records s, printed s.trace))
      = some ([record_debug_string],
          [record_buffer, record_debug_string, record_debug_string]) ∧
    (app_main (initial false) "main.c" 4 1024 1 2 4096 8192 true true true true).map
        (fun s => (records s, s.memory_track_allocation_t, printed s.trace, freed s.trace))
      = some ([], 0, [record_buffer, record_debug_string, record_debug_string],
          [4096, 8192]) := by
  have hmem : ∃ r ∈ records two_records, r.address = 4096 :=
    ⟨record_buffer, by decide, rfl⟩
  exact ⟨⟨rfl, rfl, by decide, by decide, hmem⟩,
    unregister_allocation_removes_first two_records 4096 true rfl rfl (by decide) (by decide)
      hmem,
    by decide, by decide!, by decide!, by decide!, by decide!⟩

/-! ## The facade: allocate and allocate-zeroed -/

/-- C3. Fail-open on growth failure: with tracking enabled and a non-null result of the
external allocator, a failing growth of the array makes `register_allocation` return
with the array, the record sequence and the counter unchanged; allocate and
allocate-zeroed still return the allocator's address, leave the registry unchanged
and call `heap_caps_free` on nothing. -/
theorem growth_failure_fail_open (s : State) (info : MemoryTraceInfo) (n size caps : Nat)
    (file : String) (line : Int) (function : String) (ptr : Nat)
    (htrack : s.debug_track_allocation = true)
    (hlock : s.memorySemaphore = Semaphore.available) (hptr : ptr ≠ 0) :
    (∃ t, register_allocation s info false = some t ∧
        t.memory_track_allocation = s.memory_track_allocation ∧
        records t = records s ∧
        t.memory_track_allocation_t = s.memory_track_allocation_t) ∧
    (∃ t, traceable_heap_caps_malloc s size caps file line function ptr false
          = some (ptr, t) ∧
        t.memory_track_allocation = s.memory_track_allocation ∧
        records t = records s ∧
        t.memory_track_allocation_t = s.memory_track_allocation_t ∧
        freed t.trace = freed s.trace) ∧
    (∃ t, traceable_heap_caps_calloc s n size caps file line function ptr false
          = some (ptr, t) ∧
        t.memory_track_allocation = s.memory_track_allocation ∧
        records t = records s ∧
        t.memory_track_allocation_t = s.memory_track_allocation_t ∧
        freed t.trace = freed s.trace) := by
  have hfr : ∀ (u v : State) (T : List Event), RegistryStep u v T → freed T = [] →
      freed v.trace = freed u.trace := by
    intro u v T h hT
    rw [h.2.2.2.2, freed_append, hT, List.append_nil]
  refine ⟨?_, ?_, ?_⟩
  · obtain ⟨t, h1, _, h3, h4⟩ := register_fail s info htrack hlock
    exact ⟨t, h1, h3, by simp [records, h3, h4], h4⟩
  · obtain ⟨t, h1, h2, h3, h4⟩ :=
      register_fail s ⟨file, line, function, size, "heap_caps_malloc", caps, 0, ptr, "unknow"⟩
        htrack hlock
    refine ⟨t, ?_, h3, by simp [records, h3, h4], h4, hfr s t _ h2 rfl⟩
    simp [traceable_heap_caps_malloc, hptr, htrack, h1]
  · obtain ⟨t, h1, h2, h3, h4⟩ :=
      register_fail s
        ⟨file, line, function, (n * size) % SIZE_T_MOD, "heap_caps_calloc", caps, 0, ptr,
          "unknow"⟩ htrack hlock
    refine ⟨t, ?_, h3, by simp [records, h3, h4], h4, hfr s t _ h2 rfl⟩
    simp [traceable_heap_caps_calloc, hptr, htrack, h1]

/-- C3 at the state of `example/main.c` with both records registered: a third
allocation whose registration cannot grow the array. -/
theorem growth_failure_fail_open_witness :
    (two_records.debug_track_allocation = true ∧
      two_records.memorySemaphore = Semaphore.available ∧ (12288 : Nat) ≠ 0) ∧
    ((∃ t, register_allocation two_records record_buffer false = some t ∧
        t.memory_track_allocation = two_records.memory_track_allocation ∧
        records t = records two_records ∧
        t.memory_track_allocation_t = two_records.memory_track_allocation_t) ∧
      (∃ t, traceable_heap_caps_malloc two_records 64 4 "main.c" 30 "app_main" 12288 false
            = some (12288, t) ∧
        t.memory_track_allocation = two_records.memory_track_allocation ∧
        records t = records two_records ∧
        t.memory_track_allocation_t = two_records.memory_track_allocation_t ∧
        freed t.trace = freed two_records.trace) ∧
      (∃ t, traceable_heap_caps_calloc two_records 8 8 4 "main.c" 30 "app_main" 12288 false
            = some (12288, t) ∧
        t.memory_track_allocation = two_records.memory_track_allocation ∧
        records t = records two_records ∧
        t.memory_track_allocation_t = two_records.memory_track_allocation_t ∧
        freed t.trace = freed two_records.trace)) ∧
    (traceable_heap_caps_malloc two_records 64 4 "main.c" 30 "app_main" 12288 false).map
        (fun p => (p.1, records p.2, p.2.memory_track_allocation_t, freed p.2.trace))
      = some (12288, [record_buffer, record_debug_string], 2, []) :=
  ⟨⟨rfl, rfl, by decide⟩,
    growth_failure_fail_open two_records record_buffer 8 64 4 "main.c" 30 "app_main" 12288
      rfl rfl (by decide),
    by decide⟩

/-- C6. Allocation failure in allocate and allocate-zeroed: whatever the registry state,
the tracking flag and the state of the mutex, when the external allocator returns null
the call returns null and the only effect is the diagnostic `log_memory_allocation`:
no record is inserted, the array, the record sequence and the counter are unchanged,
nothing is printed by way of enumeration and nothing is freed. -/
theorem allocation_failure_inserts_nothing (s : State) (n size caps : Nat) (file : String)
    (line : Int) (function : String) (grow_ok : Bool) :
    (∃ info, traceable_heap_caps_malloc s size caps file line function 0 grow_ok
        = some (0, log_memory_allocation s info)) ∧
    (∃ info, traceable_heap_caps_calloc s n size caps file line function 0 grow_ok
        = some (0, log_memory_allocation s info)) ∧
    (∀ info,
      (log_memory_allocation s info).memory_track_allocation = s.memory_track_allocation ∧
      (log_memory_allocation s info).memory_track_allocation_t = s.memory_track_allocation_t ∧
      records (log_memory_allocation s info) = records s ∧
      (log_memory_allocation s info).debug_track_allocation = s.debug_track_allocation ∧
      (log_memory_allocation s info).memorySemaphore = s.memorySemaphore ∧
      (log_memory_allocation s info).trace = s.trace ++ [Event.log_memory_allocation info] ∧
      printed (log_memory_allocation s info).trace = printed s.trace ∧
      freed (log_memory_allocation s info).trace = freed s.trace) := by
  refine ⟨⟨⟨file, line, function, size, "heap_caps_malloc", caps, 1, 0, ""⟩, ?_⟩,
    ⟨⟨file, line, function, (n * size) % SIZE_T_MOD, "heap_caps_calloc", caps, 1, 0, ""⟩, ?_⟩,
    ?_⟩
  · cases h : s.debug_track_allocation <;>
      simp [traceable_heap_caps_malloc, log_memory_allocation, emit, h]
  · cases h : s.debug_track_allocation <;>
      simp [traceable_heap_caps_calloc, log_memory_allocation, emit, h]
  · intro info
    refine ⟨rfl, rfl, rfl, rfl, rfl, rfl, ?_, ?_⟩
    · simp [log_memory_allocation, emit, printed_append, printed]
    · simp [log_memory_allocation, emit, freed_append, freed]

/-! ## Release -/

/-- C9. Zero-on-release: with tracking enabled, a pointer variable holding a non-null
address `a`, `r` the record the registry holds for `a` (the one the scan finds, the
only one when addresses are unique) and the four bytes of the pointer variable stored
outside the block `[a, a + r.size)`, `free_unregister_allocation` returns, its only
`heap_caps_free` is the last effect of the call, it is handed `a` with every byte of
`[a, a + r.size)` equal to zero, and by then the record `r` has been removed from the
registry (no record for `a` is left when addresses are unique); finally the caller's
variable is null. -/
theorem zero_before_free (s : State) (ptr : Nat) (shrink_ok : Bool) (r : MemoryTraceInfo)
    (htrack : s.debug_track_allocation = true)
    (hlock : s.memorySemaphore = Semaphore.available) (hok : StorageOk s)
    (hptr : ptr ≠ 0) (ha : s.vars ptr ≠ 0)
    (hfind : (records s).find? (fun x => decide (x.address = s.vars ptr)) = some r)
    (hsep : s.vars ptr + r.size ≤ ptr ∨ ptr + 4 ≤ s.vars ptr ∨ r.size = 0) :
    ∃ t T m, free_unregister_allocation s ptr shrink_ok = some t ∧
      t.trace = s.trace ++ T ++ [Event.heap_caps_free (s.vars ptr) m] ∧ freed T = [] ∧
      (∀ x, s.vars ptr ≤ x → x < s.vars ptr + r.size → m x = 0) ∧
      (∃ pre post, records s = pre ++ r :: post ∧ (∀ x ∈ pre, x.address ≠ s.vars ptr) ∧
        records t = pre ++ post) ∧
      t.memory_track_allocation_t + 1 = s.memory_track_allocation_t ∧
      (((records s).map (fun x => x.address)).Nodup → ∀ x ∈ records t, x.address ≠ s.vars ptr) ∧
      t.vars ptr = 0 := by
  obtain ⟨hr, pre, post, hrec, hpre⟩ := List.find?_eq_some.mp hfind
  have hr2 : r.address = s.vars ptr := by simpa using hr
  have hpre2 : ∀ x ∈ pre, x.address ≠ s.vars ptr := by
    intro x hx
    simpa using hpre x hx
  obtain ⟨t, T, h1, _, _, h4, h5, h6, h7, _, h9, h10, _⟩ :=
    free_unregister_hit s ptr shrink_ok pre r post htrack hlock hok hptr ha hrec hr2 hpre2
      hsep
  refine ⟨t, T, t.heap, h1, h6, h7, ?_, ⟨pre, post, hrec, hpre2, h9⟩, h10, ?_, h5⟩
  · intro x hx1 hx2
    rw [h4]
    simp [hx1, hx2]
  · intro hnd x hx hxa
    rw [hrec, List.map_append, List.map_cons, List.nodup_middle, List.nodup_cons] at hnd
    apply hnd.1
    rw [h9] at hx
    rw [hr2, ← hxa, ← List.map_append]
    exact List.mem_map_of_mem _ hx

/-- C9 on the first release of `example/main.c`: the block at `0x1000` holds non-zero
bytes before the call and is handed to `heap_caps_free` zeroed. -/
theorem zero_before_free_witness :
    (two_records.debug_track_allocation = true ∧
      two_records.memorySemaphore = Semaphore.available ∧ StorageOk two_records ∧
      (1 : Nat) ≠ 0 ∧ two_records.vars 1 ≠ 0 ∧
      (records two_records).find? (fun x => decide (x.address = two_records.vars 1))
        = some record_buffer ∧
      (two_records.vars 1 + record_buffer.size ≤ 1 ∨ 1 + 4 ≤ two_records.vars 1 ∨
        record_buffer.size = 0)) ∧
    (∃ t T m, free_unregister_allocation two_records 1 true = some t ∧
      t.trace = two_records.trace ++ T ++ [Event.heap_caps_free (two_records.vars 1) m] ∧
      freed T = [] ∧
      (∀ x, two_records.vars 1 ≤ x → x < two_records.vars 1 + record_buffer.size → m x = 0) ∧
      (∃ pre post, records two_records = pre ++ record_buffer :: post ∧
        (∀ x ∈ pre, x.address ≠ two_records.vars 1) ∧ records t = pre ++ post) ∧
      t.memory_track_allocation_t + 1 = two_records.memory_track_allocation_t ∧
      (((records two_records).map (fun x => x.address)).Nodup →
        ∀ x ∈ records t, x.address ≠ two_records.vars 1) ∧
      t.vars 1 = 0) ∧
    (two_records.heap 4096, two_records.heap 4351) = (65, 65) ∧
    (free_unregister_allocation two_records 1 true).map
        (fun t => (records t, t.vars 1, handed_over 4096 t.trace, handed_over 4351 t.trace))
      = some ([record_debug_string], 0, [(4096, 0)], [(4096, 0)]) :=
  ⟨⟨rfl, rfl, by decide, by decide, by decide, by decide, by decide⟩,
    zero_before_free two_records 1 true record_buffer rfl rfl (by decide) (by decide)
      (by decide) (by decide) (by decide),
    by decide, by decide!⟩

/-- C9 without the separation of variable and block: in the state `two_records` with
the pointer to the block `[0x1000, 0x1100)` stored at `0x1010`, inside the block, every
condition C9 names holds, the zeroing clears the variable together with the block, so
`unregister_allocation` and `heap_caps_free` are called with null: the record of
`0x1000` stays in the registry, the counter stays 2 and `0x1000` is never freed. -/
theorem zero_before_free_aliased :
    ((assign two_records 4112 4096).debug_track_allocation = true ∧
      (assign two_records 4112 4096).memorySemaphore = Semaphore.available ∧
      StorageOk (assign two_records 4112 4096) ∧ (4112 : Nat) ≠ 0 ∧
      (assign two_records 4112 4096).vars 4112 = 4096 ∧
      (records (assign two_records 4112 4096)).find?
          (fun x => decide (x.address = (assign two_records 4112 4096).vars 4112))
        = some record_buffer) ∧
    (free_unregister_allocation (assign two_records 4112 4096) 4112 true).map
        (fun t => (records t, t.memory_track_allocation_t, freed t.trace, zeroings t.trace))
      = some ([record_buffer, record_debug_string], 2, [0], [(4096, 256)]) ∧
    ¬ (∃ t T m, free_unregister_allocation (assign two_records 4112 4096) 4112 true = some t ∧
        t.trace = (assign two_records 4112 4096).trace ++ T
          ++ [Event.heap_caps_free ((assign two_records 4112 4096).vars 4112) m] ∧
        (∃ pre post, records (assign two_records 4112 4096) = pre ++ record_buffer :: post ∧
          records t = pre ++ post)) := by
  have hrun : (free_unregister_allocation (assign two_records 4112 4096) 4112 true).map
      (fun t => (records t, t.memory_track_allocation_t, freed t.trace, zeroings t.trace))
      = some ([record_buffer, record_debug_string], 2, [0], [(4096, 256)]) := by decide!
  refine ⟨⟨rfl, rfl, by decide, by decide, by decide, by decide⟩, hrun, ?_⟩
  rintro ⟨t, T, m, h1, h2, pre, post, h3, h4⟩
  rw [h1] at hrun
  simp only [Option.map_some', Option.some.injEq, Prod.mk.injEq] at hrun
  have hlen := congrArg List.length h3
  rw [h4] at hrun
  have hlen2 := congrArg List.length hrun.1
  have hrs : records (assign two_records 4112 4096) = [record_buffer, record_debug_string] :=
    by decide
  rw [hrs] at hlen
  simp at hlen hlen2
  omega

/-- C10. Idempotent null-release: for a pointer variable holding a non-null address
and stored outside the block the registry records for that address (no condition when
tracking is disabled or the address has no record), two calls of
`free_unregister_allocation` in a row on that variable both return; the first frees
the original address (exactly one `heap_caps_free` is added to the trace) and leaves
the variable null, the second leaves the whole state, trace included, unchanged.  A
call on a null pointer-to-variable leaves every state unchanged. -/
theorem release_twice_frees_once (s : State) (ptr : Nat) (shrink_ok shrink_ok2 : Bool)
    (hlock : s.debug_track_allocation = true → s.memorySemaphore = Semaphore.available)
    (hok : StorageOk s) (hptr : ptr ≠ 0) (ha : s.vars ptr ≠ 0)
    (hsep : s.debug_track_allocation = true → ∀ r,
      (records s).find? (fun x => decide (x.address = s.vars ptr)) = some r →
      s.vars ptr + r.size ≤ ptr ∨ ptr + 4 ≤ s.vars ptr ∨ r.size = 0) :
    (∃ t, free_unregister_allocation s ptr shrink_ok = some t ∧
      freed t.trace = freed s.trace ++ [s.vars ptr] ∧ t.vars ptr = 0 ∧
      free_unregister_allocation t ptr shrink_ok2 = some t ∧
      (free_unregister_allocation s ptr shrink_ok).bind
          (fun u => free_unregister_allocation u ptr shrink_ok2) = some t) ∧
    (∀ (u : State) (b : Bool), free_unregister_allocation u 0 b = some u) := by
  have hnull : ∀ (u : State) (q : Nat) (b : Bool), (q = 0 ∨ u.vars q = 0) →
      free_unregister_allocation u q b = some u := by
    intro u q b h
    have hc : ¬ (q ≠ 0 ∧ u.vars q ≠ 0) := by
      rcases h with h | h
      · exact fun hh => hh.1 h
      · exact fun hh => hh.2 h
    rw [free_unregister_allocation, if_neg hc]
  refine ⟨?_, fun u b => hnull u 0 b (Or.inl rfl)⟩
  by_cases hcase : s.debug_track_allocation = true ∧ ∃ x ∈ records s, x.address = s.vars ptr
  · obtain ⟨htrack, hmem⟩ := hcase
    obtain ⟨pre, r, post, hrec, hr, hpre⟩ :=
      split_at_first (fun x => x.address = s.vars ptr) (records s) hmem
    have hfind : (records s).find? (fun x => decide (x.address = s.vars ptr)) = some r :=
      List.find?_eq_some.mpr ⟨by simpa using hr, pre, post, hrec,
        fun x hx => by simpa using hpre x hx⟩
    obtain ⟨t, T, h1, _, _, _, h5, h6, h7, _⟩ :=
      free_unregister_hit s ptr shrink_ok pre r post htrack (hlock htrack) hok hptr ha hrec hr
        hpre (hsep htrack r hfind)
    have hv : t.vars ptr = 0 := h5
    have h2 := hnull t ptr shrink_ok2 (Or.inr hv)
    refine ⟨t, h1, ?_, hv, h2, by rw [h1]; exact h2⟩
    rw [h6, freed_append, freed_append, h7]
    simp [freed]
  · have hmiss : s.debug_track_allocation = true → ∀ x ∈ records s, x.address ≠ s.vars ptr :=
      fun htrack x hx hxa => hcase ⟨htrack, x, hx, hxa⟩
    obtain ⟨T, hT, h1⟩ := free_unregister_miss s ptr shrink_ok hlock hok hptr ha hmiss
    have hv : ({ s with
        vars := Function.update s.vars ptr 0
        trace := s.trace ++ T ++ [Event.heap_caps_free (s.vars ptr) s.heap] } : State).vars ptr
        = 0 := by simp
    have h2 := hnull _ ptr shrink_ok2 (Or.inr hv)
    refine ⟨_, h1, ?_, hv, h2, by rw [h1]; exact h2⟩
    simp [freed_append, bookkeeping_freed hT, freed]

/-- C10 on the variable `buffer` of `example/main.c`. -/
theorem release_twice_frees_once_witness :
    ((two_records.debug_track_allocation = true →
        two_records.memorySemaphore = Semaphore.available) ∧
      StorageOk two_records ∧ (1 : Nat) ≠ 0 ∧ two_records.vars 1 ≠ 0 ∧
      (two_records.debug_track_allocation = true → ∀ r,
        (records two_records).find? (fun x => decide (x.address = two_records.vars 1))
          = some r →
        two_records.vars 1 + r.size ≤ 1 ∨ 1 + 4 ≤ two_records.vars 1 ∨ r.size = 0)) ∧
    ((∃ t, free_unregister_allocation two_records 1 true = some t ∧
        freed t.trace = freed two_records.trace ++ [two_records.vars 1] ∧ t.vars 1 = 0 ∧
        free_unregister_allocation t 1 false = some t ∧
        (free_unregister_allocation two_records 1 true).bind
            (fun u => free_unregister_allocation u 1 false) = some t) ∧
      (∀ (u : State) (b : Bool), free_unregister_allocation u 0 b = some u)) ∧
    ((free_unregister_allocation two_records 1 true).bind
        (fun u => free_unregister_allocation u 1 false)).map
        (fun t => (freed t.trace, t.vars 1, records t))
      = some ([4096], 0, [record_debug_string]) :=
  ⟨⟨fun _ => rfl, by decide, by decide, by decide,
      fun _ _ _ => Or.inr (Or.inl (by decide))⟩,
    release_twice_frees_once two_records 1 true false (fun _ => rfl) (by decide) (by decide)
      (by decide) (fun _ _ _ => Or.inr (Or.inl (by decide))),
    by decide!⟩

/-- C10 without the separation of variable and block: in the state `two_records` with
the pointer to the tracked block `[0x1000, 0x1100)` stored at `0x1068`, inside the
block, the conditions C10 names hold, and the first of two calls in a row hands null
to `heap_caps_free`: the original address `0x1000` is never freed (and its record
stays in the registry), the second call changes nothing. -/
theorem release_twice_aliased :
    (((assign two_records 4200 4096).debug_track_allocation = true →
        (assign two_records 4200 4096).memorySemaphore = Semaphore.available) ∧
      StorageOk (assign two_records 4200 4096) ∧ (4200 : Nat) ≠ 0 ∧
      (assign two_records 4200 4096).vars 4200 = 4096) ∧
    ((free_unregister_allocation (assign two_records 4200 4096) 4200 true).bind
        (fun u => free_unregister_allocation u 4200 false)).map
        (fun t => (freed t.trace, t.vars 4200, records t))
      = some ([0], 0, [record_buffer, record_debug_string]) ∧
    ¬ (∃ t, free_unregister_allocation (assign two_records 4200 4096) 4200 true = some t ∧
        freed t.trace = freed (assign two_records 4200 4096).trace
          ++ [(assign two_records 4200 4096).vars 4200]) := by
  have hrun : (free_unregister_allocation (assign two_records 4200 4096) 4200 true).map
      (fun t => freed t.trace) = some [0] := by decide!
  refine ⟨⟨fun _ => rfl, by decide, by decide, by decide⟩, by decide!, ?_⟩
  rintro ⟨t, h1, h2⟩
  rw [h1] at hrun
  simp only [Option.map_some', Option.some.injEq] at hrun
  rw [hrun] at h2
  revert h2
  decide

/-! ## The facade: resize -/

/-- C7, the code at a failing input: with tracking enabled and the block at `0x1000`
tracked, a resize for which the external allocator returns null removes the record of
`0x1000` and, when the array can grow, appends a record whose address is null. -/
theorem realloc_failure_mutates_registry :
    (records two_records).map (fun r => (r.address, r.size)) = [(4096, 256), (8192, 512)] ∧
    (traceable_heap_caps_realloc two_records 4096 1024 4 "main.c" 40 "app_main" 0 true
        true).map (fun p => (p.1, (records p.2).map (fun r => (r.address, r.size)),
          p.2.memory_track_allocation_t))
      = some (0, [(8192, 512), (0, 1024)], 2) ∧
    (traceable_heap_caps_realloc two_records 4096 1024 4 "main.c" 40 "app_main" 0 true
        false).map (fun p => (p.1, (records p.2).map (fun r => (r.address, r.size)),
          p.2.memory_track_allocation_t))
      = some (0, [(8192, 512)], 1) ∧
    (traceable_heap_caps_realloc two_records 4096 1024 4 "main.c" 40 "app_main" 0 true
        true).map (fun p => records p.2)
      = some (records with_null_record) := by
  refine ⟨by decide, by decide!, by decide!, by decide!⟩

/-- C8 as stated fails for a null input address: in `with_null_record` exactly one
record has the address null, the resize of null returns the fresh non-null `0x3000` and
the array grows, yet the record with the input address is still there and the counter
has grown. -/
theorem realloc_relocation_null_input :
    (with_null_record.debug_track_allocation = true ∧
      with_null_record.memorySemaphore = Semaphore.available ∧ StorageOk with_null_record ∧
      (records with_null_record).countP (fun x => decide (x.address = 0)) = 1 ∧
      (12288 : Nat) ≠ 0 ∧ (∀ x ∈ records with_null_record, x.address ≠ 12288)) ∧
    (traceable_heap_caps_realloc with_null_record 0 64 4 "main.c" 50 "app_main" 12288 true
        true).map (fun p => (p.1, (records p.2).map (fun r => r.address),
          p.2.memory_track_allocation_t))
      = some (12288, [8192, 0, 12288], 3) ∧
    ¬ (∃ t, traceable_heap_caps_realloc with_null_record 0 64 4 "main.c" 50 "app_main" 12288
          true true = some (12288, t) ∧
        (∀ x ∈ records t, x.address ≠ 0) ∧
        t.memory_track_allocation_t = with_null_record.memory_track_allocation_t) := by
  have hrun : (traceable_heap_caps_realloc with_null_record 0 64 4 "main.c" 50 "app_main"
      12288 true true).map (fun p => (p.1, (records p.2).map (fun r => r.address),
        p.2.memory_track_allocation_t)) = some (12288, [8192, 0, 12288], 3) := by decide!
  refine ⟨⟨rfl, rfl, by decide, by decide, by decide, by decide⟩, hrun, ?_⟩
  rintro ⟨t, ht, _, hcount⟩
  rw [ht] at hrun
  simp only [Option.map_some', Option.some.injEq, Prod.mk.injEq] at hrun
  rw [hcount] at hrun
  exact absurd hrun.2.2 (by decide)

/-- C8, amended. Resize with relocation of a non-null tracked address: with tracking
enabled and exactly one record for the non-null input address `p`, when the external
resize returns a non-null `q ≠ p` that no record has and the array grows, the call
returns `q`; the registry afterwards is the old record sequence without the record of
`p`, in the same order, followed by one new record with address `q`, size `new_size`
and mask `caps`; no record has address `p`, exactly one has address `q`, and the
counter is unchanged (for either outcome of the shrinking `realloc`). -/
theorem realloc_relocation (s : State) (p q new_size caps : Nat) (file : String) (line : Int)
    (function : String) (shrink_ok : Bool)
    (htrack : s.debug_track_allocation = true)
    (hlock : s.memorySemaphore = Semaphore.available) (hok : StorageOk s)
    (hp : p ≠ 0)
    (hone : (records s).countP (fun x => decide (x.address = p)) = 1)
    (hq : q ≠ 0) (hqp : q ≠ p) (hfresh : ∀ x ∈ records s, x.address ≠ q) :
    ∃ t pre r post info,
      traceable_heap_caps_realloc s p new_size caps file line function q shrink_ok true
        = some (q, t) ∧
      records s = pre ++ r :: post ∧ r.address = p ∧
      records t = pre ++ post ++ [info] ∧
      info.address = q ∧ info.size = new_size ∧ info.caps = caps ∧
      (∀ x ∈ records t, x.address ≠ p) ∧
      (records t).countP (fun x => decide (x.address = q)) = 1 ∧
      t.memory_track_allocation_t = s.memory_track_allocation_t := by
  have hmem : ∃ x ∈ records s, x.address = p := by
    have hpos : 0 < (records s).countP (fun x => decide (x.address = p)) := by omega
    obtain ⟨x, hx, hpx⟩ := List.countP_pos_iff.mp hpos
    exact ⟨x, hx, by simpa using hpx⟩
  obtain ⟨pre, r, post, hrec, hr, hpre⟩ :=
    split_at_first (fun x => x.address = p) (records s) hmem
  have hpre0 : pre.countP (fun x => decide (x.address = p)) = 0 := by
    rw [List.countP_eq_zero]
    intro x hx
    simpa using hpre x hx
  have hpost0 : post.countP (fun x => decide (x.address = p)) = 0 := by
    rw [hrec, List.countP_append, List.countP_cons_of_pos _ _ (by simpa using hr), hpre0] at hone
    omega
  have hpost : ∀ x ∈ post, x.address ≠ p := by
    intro x hx
    simpa using (List.countP_eq_zero.mp hpost0) x hx
  obtain ⟨u, T, h1, ⟨h2, h3, _, _, _⟩, _, h8, h9, h10⟩ :=
    unregister_hit s p shrink_ok pre r post htrack hlock hok hp hrec hr hpre
  obtain ⟨t, T2, k1, _, _, k4, k5, _⟩ :=
    register_ok u ⟨file, line, function, new_size, "heap_caps_realloc", caps, 0, q, "unknown"⟩
      (h2.trans htrack) (h3.trans hlock) h10
  have hfq : ∀ x ∈ pre ++ post, x.address ≠ q := by
    intro x hx
    apply hfresh x
    rw [hrec]
    rcases List.mem_append.mp hx with h | h
    · exact List.mem_append_left _ h
    · exact List.mem_append_right _ (List.mem_cons_of_mem _ h)
  refine ⟨t, pre, r, post, _, ?_, hrec, hr, by rw [k4, h8], rfl, rfl, rfl, ?_, ?_, ?_⟩
  · have hne : q ≠ p := hqp
    simp [traceable_heap_caps_realloc, hq, htrack, hne, h1, k1]
  · intro x hx
    rw [k4, h8] at hx
    rcases List.mem_append.mp hx with h | h
    · rcases List.mem_append.mp h with h | h
      · exact hpre x h
      · exact hpost x h
    · rw [List.mem_singleton.mp h]
      exact hqp
  · rw [k4, h8, List.countP_append]
    have h0 : (pre ++ post).countP (fun x => decide (x.address = q)) = 0 := by
      rw [List.countP_eq_zero]
      intro x hx
      simpa using hfq x hx
    rw [h0]
    simp
  · rw [k5]
    omega

/-- C8, amended, on `example/main.c`: the block of `buffer` moves from `0x1000` to
`0x3000`. -/
theorem realloc_relocation_witness :
    (two_records.debug_track_allocation = true ∧
      two_records.memorySemaphore = Semaphore.available ∧ StorageOk two_records ∧
      (4096 : Nat) ≠ 0 ∧
      (records two_records).countP (fun x => decide (x.address = 4096)) = 1 ∧
      (12288 : Nat) ≠ 0 ∧ (12288 : Nat) ≠ 4096 ∧
      (∀ x ∈ records two_records, x.address ≠ 12288)) ∧
    (∃ t pre r post info,
      traceable_heap_caps_realloc two_records 4096 1024 4 "main.c" 40 "app_main" 12288 true
        true = some (12288, t) ∧
      records two_records = pre ++ r :: post ∧ r.address = 4096 ∧
      records t = pre ++ post ++ [info] ∧
      info.address = 12288 ∧ info.size = 1024 ∧ info.caps = 4 ∧
      (∀ x ∈ records t, x.address ≠ 4096) ∧
      (records t).countP (fun x => decide (x.address = 12288)) = 1 ∧
      t.memory_track_allocation_t = two_records.memory_track_allocation_t) ∧
    (traceable_heap_caps_realloc two_records 4096 1024 4 "main.c" 40 "app_main" 12288 true
        true).map (fun p => (p.1, (records p.2).map (fun r => (r.address, r.size, r.caps)),
          p.2.memory_track_allocation_t))
      = some (12288, [(8192, 512, 1024), (12288, 1024, 4)], 2) :=
  ⟨⟨rfl, rfl, by decide, by decide, by decide, by decide, by decide, by decide⟩,
    realloc_relocation two_records 4096 12288 1024 4 "main.c" 40 "app_main" true rfl rfl
      (by decide) (by decide) (by decide) (by decide) (by decide) (by decide),
    by decide!⟩

/-- Release with tracking enabled, wherever the pointer variable is stored: the call
returns in a consistent state; `b`, the value the variable holds after the zeroing
scan, is the one address handed to `heap_caps_free`, and the registry is left as it is
when `b` is null or has no record, and loses the first record for `b` otherwise. -/
theorem free_unregister_tracked (s : State) (ptr : Nat) (shrink_ok : Bool)
    (htrack : s.debug_track_allocation = true)
    (hlock : s.memorySemaphore = Semaphore.available) (hok : StorageOk s)
    (hptr : ptr ≠ 0) (ha : s.vars ptr ≠ 0) :
    ∃ t b, free_unregister_allocation s ptr shrink_ok = some t ∧ StorageOk t ∧
      t.debug_track_allocation = true ∧ t.memorySemaphore = Semaphore.available ∧
      freed t.trace = freed s.trace ++ [b] ∧
      ((records t = records s ∧ (b = 0 ∨ ∀ x ∈ records s, x.address ≠ b)) ∨
        (b ≠ 0 ∧ ∃ pre r post, records s = pre ++ r :: post ∧ r.address = b ∧
          (∀ x ∈ pre, x.address ≠ b) ∧ records t = pre ++ post)) := by
  have hcond : ptr ≠ 0 ∧ s.vars ptr ≠ 0 := ⟨hptr, ha⟩
  let s1 : State :=
    { s with memorySemaphore := Semaphore.taken, trace := s.trace ++ [Event.take] }
  obtain ⟨s2, M, z1, z2, z3, ⟨z4, z5⟩, z6, z7⟩ :=
    zero_loop_trace s1.memory_track_allocation_t s1 ptr 0 (by omega)
  have hs2 : s2.memorySemaphore = Semaphore.taken := z2
  have hgive := xSemaphoreGive_taken s2 hs2
  have hM : freed M = [] := by
    clear z6
    induction M with
    | nil => rfl
    | cons e M ih =>
      obtain ⟨a, n, h⟩ := z7 e (List.mem_cons_self _ _)
      subst h
      simpa [freed] using ih (fun x hx => z7 x (List.mem_cons_of_mem _ hx))
  have k1 : (xSemaphoreGive s2).debug_track_allocation = true := by
    rw [hgive]; exact z3.trans htrack
  have k2 : (xSemaphoreGive s2).memorySemaphore = Semaphore.available := by rw [hgive]
  have k3 : records (xSemaphoreGive s2) = records s := by
    rw [hgive]
    simp only [records, z4, z5]
  have k4 : StorageOk (xSemaphoreGive s2) := by
    rw [hgive]
    simp only [StorageOk, capacity, z4, z5]
    exact hok
  have k5 : freed (xSemaphoreGive s2).trace = freed s.trace := by
    rw [hgive]
    show freed (s2.trace ++ [Event.give]) = _
    rw [z6]
    show freed (s.trace ++ [Event.take] ++ M ++ [Event.give]) = _
    simp [freed_append, hM, freed]
  have hrun : ∀ u : State, unregister_allocation (xSemaphoreGive s2)
      ((xSemaphoreGive s2).vars ptr) shrink_ok = some u →
      free_unregister_allocation s ptr shrink_ok
        = some { heap_caps_free u (u.vars ptr) with
            vars := Function.update (heap_caps_free u (u.vars ptr)).vars ptr 0 } := by
    intro u hu
    rw [free_unregister_allocation, if_pos hcond, if_pos htrack,
      xSemaphoreTake_available s hlock]
    show ((zero_loop s1.memory_track_allocation_t s1 ptr 0).bind _).bind _ = _
    rw [z1]
    show ((unregister_allocation (xSemaphoreGive s2) ((xSemaphoreGive s2).vars ptr)
      shrink_ok)).bind _ = _
    rw [hu]
    rfl
  have hfin : ∀ (u : State) (U : List Event), RegistryStep (xSemaphoreGive s2) u U →
      Bookkeeping U →
      freed ({ heap_caps_free u (u.vars ptr) with
          vars := Function.update (heap_caps_free u (u.vars ptr)).vars ptr 0 } : State).trace
        = freed s.trace ++ [(xSemaphoreGive s2).vars ptr] := by
    intro u U hU hB
    obtain ⟨_, _, _, hv, htr⟩ := hU
    show freed (u.trace ++ [Event.heap_caps_free (u.vars ptr) u.heap]) = _
    rw [htr, hv, freed_append, freed_append, k5, bookkeeping_freed hB]
    simp [freed]
  have hrefl : RegistryStep (xSemaphoreGive s2) (xSemaphoreGive s2) [] :=
    ⟨rfl, rfl, rfl, rfl, by simp⟩
  have hnil : Bookkeeping [] := by intro e he; simp at he
  by_cases hb : (xSemaphoreGive s2).vars ptr = 0
  · have hu := unregister_guard (xSemaphoreGive s2) ((xSemaphoreGive s2).vars ptr) shrink_ok
      (Or.inl hb)
    exact ⟨_, (xSemaphoreGive s2).vars ptr, hrun _ hu, k4, k1, k2, hfin _ [] hrefl hnil,
      Or.inl ⟨k3, Or.inl hb⟩⟩
  · by_cases hmem : ∃ x ∈ records (xSemaphoreGive s2),
        x.address = (xSemaphoreGive s2).vars ptr
    · obtain ⟨pre, r, post, hrec, hr, hpre⟩ :=
        split_at_first (fun x => x.address = (xSemaphoreGive s2).vars ptr)
          (records (xSemaphoreGive s2)) hmem
      obtain ⟨u, U, h1, h2, h3, h4, _, h6⟩ :=
        unregister_hit (xSemaphoreGive s2) ((xSemaphoreGive s2).vars ptr) shrink_ok pre r post
          k1 k2 k4 hb hrec hr hpre
      refine ⟨_, (xSemaphoreGive s2).vars ptr, hrun u h1, h6, h2.1.trans k1, h2.2.1.trans k2,
        hfin u U h2 h3, Or.inr ⟨hb, pre, r, post, ?_, hr, hpre, h4⟩⟩
      rw [← k3]
      exact hrec
    · have hmiss : ∀ x ∈ records (xSemaphoreGive s2),
          x.address ≠ (xSemaphoreGive s2).vars ptr := fun x hx hxa => hmem ⟨x, hx, hxa⟩
      have hu := unregister_miss (xSemaphoreGive s2) ((xSemaphoreGive s2).vars ptr) shrink_ok
        k1 k2 k4 hb hmiss
      refine ⟨_, (xSemaphoreGive s2).vars ptr, hrun _ hu, k4, k1, k2, ?_,
        Or.inl ⟨k3, Or.inr (by rw [← k3]; exact hmiss)⟩⟩
      refine hfin _ [Event.take, Event.give] ⟨rfl, rfl, rfl, rfl, rfl⟩ ?_
      intro e he
      simp only [List.mem_cons, List.mem_singleton, List.not_mem_nil, or_false] at he
      rcases he with h | h
      · exact Or.inl h
      · exact Or.inr (Or.inl h)

/-! ## Invariants over sequences of calls -/

/-- The invariant behind address uniqueness: the state is consistent, tracking is
enabled, the mutex is available, no two records share an address, no record has a null
address and every recorded address is a live block. -/
theorem facade_call_step (live : List Nat) (s : State) (c : FacadeCall)
    (hok : StorageOk s) (htrack : s.debug_track_allocation = true)
    (hlock : s.memorySemaphore = Semaphore.available)
    (hnd : ((records s).map (fun r => r.address)).Nodup)
    (hnz : ∀ x ∈ records s, x.address ≠ 0)
    (hlive : ∀ x ∈ records s, x.address ∈ live)
    (hfresh : c.result = 0 ∨ c.result ∉ live) :
    ∃ t, c.run s = some t ∧ StorageOk t ∧ t.debug_track_allocation = true ∧
      t.memorySemaphore = Semaphore.available ∧
      ((records t).map (fun r => r.address)).Nodup ∧
      (∀ x ∈ records t, x.address ≠ 0) ∧
      ∀ x ∈ records t, x.address ∈ live_step s live c := by
  have hreg : ∀ (info : MemoryTraceInfo) (grow_ok : Bool), info.address ≠ 0 →
      info.address ∉ live →
      ∃ t, register_allocation s info grow_ok = some t ∧ StorageOk t ∧
        t.debug_track_allocation = true ∧ t.memorySemaphore = Semaphore.available ∧
        ((records t).map (fun r => r.address)).Nodup ∧
        (∀ x ∈ records t, x.address ≠ 0) ∧
        ∀ x ∈ records t, x.address ∈ info.address :: live := by
    intro info grow_ok hinz hnew
    cases grow_ok with
    | true =>
      obtain ⟨t, T, h1, ⟨h2, h3, _⟩, _, h5, _, h7⟩ := register_ok s info htrack hlock hok
      refine ⟨t, h1, h7, h2.trans htrack, h3.trans hlock, ?_, ?_, ?_⟩
      · rw [h5, List.map_append, List.nodup_append]
        refine ⟨hnd, by simp, ?_⟩
        intro a ha hb
        rw [List.map_singleton, List.mem_singleton] at hb
        obtain ⟨x, hx, hxa⟩ := List.mem_map.mp ha
        exact hnew (by rw [← hb, ← hxa]; exact hlive x hx)
      · intro x hx
        rw [h5] at hx
        rcases List.mem_append.mp hx with h | h
        · exact hnz x h
        · rw [List.mem_singleton.mp h]
          exact hinz
      · intro x hx
        rw [h5] at hx
        rcases List.mem_append.mp hx with h | h
        · exact List.mem_cons_of_mem _ (hlive x h)
        · rw [List.mem_singleton.mp h]
          exact List.mem_cons_self _ _
    | false =>
      obtain ⟨t, h1, ⟨h2, h3, _⟩, h4, h5⟩ := register_fail s info htrack hlock
      have hrec : records t = records s := by simp [records, h4, h5]
      refine ⟨t, h1, ?_, h2.trans htrack, h3.trans hlock, by rw [hrec]; exact hnd,
        by rw [hrec]; exact hnz, ?_⟩
      · simpa [StorageOk, capacity, h4, h5] using hok
      · intro x hx
        rw [hrec] at hx
        exact List.mem_cons_of_mem _ (hlive x hx)
  cases c with
  | malloc size caps file line function result grow_ok =>
    by_cases hres : result = 0
    · subst hres
      refine ⟨log_memory_allocation s
        ⟨file, line, function, size, "heap_caps_malloc", caps, 1, 0, ""⟩, ?_, hok, htrack,
        hlock, hnd, hnz, ?_⟩
      · simp [FacadeCall.run, traceable_heap_caps_malloc, log_memory_allocation, emit, htrack]
      · simpa [live_step] using hlive
    · obtain ⟨t, h1, h2, h3, h4, h5, h6, h7⟩ :=
        hreg ⟨file, line, function, size, "heap_caps_malloc", caps, 0, result, "unknow"⟩
          grow_ok hres (hfresh.resolve_left hres)
      refine ⟨t, ?_, h2, h3, h4, h5, h6, ?_⟩
      · simp [FacadeCall.run, traceable_heap_caps_malloc, hres, htrack, h1]
      · simpa [live_step, hres] using h7
  | calloc n size caps file line function result grow_ok =>
    by_cases hres : result = 0
    · subst hres
      refine ⟨log_memory_allocation s
        ⟨file, line, function, (n * size) % SIZE_T_MOD, "heap_caps_calloc", caps, 1, 0, ""⟩,
        ?_, hok, htrack, hlock, hnd, hnz, ?_⟩
      · simp [FacadeCall.run, traceable_heap_caps_calloc, log_memory_allocation, emit, htrack]
      · simpa [live_step] using hlive
    · obtain ⟨t, h1, h2, h3, h4, h5, h6, h7⟩ :=
        hreg ⟨file, line, function, (n * size) % SIZE_T_MOD, "heap_caps_calloc", caps, 0,
          result, "unknow"⟩ grow_ok hres (hfresh.resolve_left hres)
      refine ⟨t, ?_, h2, h3, h4, h5, h6, ?_⟩
      · simp [FacadeCall.run, traceable_heap_caps_calloc, hres, htrack, h1]
      · simpa [live_step, hres] using h7
  | release var addr shrink_ok =>
    have hv : (assign s var addr).vars var = addr := by simp [assign]
    have hrecs : records (assign s var addr) = records s := rfl
    by_cases hnull : var = 0 ∨ addr = 0
    · have hc : ¬ (var ≠ 0 ∧ (assign s var addr).vars var ≠ 0) := by
        rw [hv]
        rcases hnull with h | h
        · exact fun hh => hh.1 h
        · exact fun hh => hh.2 h
      have hrun : free_unregister_allocation (assign s var addr) var shrink_ok
          = some (assign s var addr) := by
        rw [free_unregister_allocation, if_neg hc]
      refine ⟨assign s var addr, hrun, hok, htrack, hlock, hnd, hnz, ?_⟩
      intro x hx
      have hnf : newly_freed s (assign s var addr) = [] := by
        show List.drop (freed s.trace).length (freed s.trace) = []
        exact List.drop_length _
      simp only [live_step, hrun, hnf, List.mem_filter]
      exact ⟨hlive x hx, by simp⟩
    · have hvar : var ≠ 0 := fun h => hnull (Or.inl h)
      have haddr : addr ≠ 0 := fun h => hnull (Or.inr h)
      obtain ⟨t, b, h1, h2, h3, h4, h5, h6⟩ :=
        free_unregister_tracked (assign s var addr) var shrink_ok htrack hlock hok hvar
          (by rw [hv]; exact haddr)
      have hnf : newly_freed s t = [b] := by
        show List.drop (freed s.trace).length (freed t.trace) = [b]
        rw [h5]
        exact List.drop_left _ _
      have hstep : ∀ x, x ∈ live → x ≠ b → x ∈ live_step s live
          (FacadeCall.release var addr shrink_ok) := by
        intro x hx hxb
        simp only [live_step, h1, hnf, List.mem_filter]
        exact ⟨hx, by simpa using hxb⟩
      rw [hrecs] at h6
      rcases h6 with ⟨hsame, hb⟩ | ⟨hb, pre, r, post, hrec, hr, hpre, hpost⟩
      · refine ⟨t, h1, h2, h3, h4, by rw [hsame]; exact hnd, by rw [hsame]; exact hnz, ?_⟩
        intro x hx
        rw [hsame] at hx
        refine hstep _ (hlive x hx) ?_
        rcases hb with hb | hb
        · rw [hb]; exact hnz x hx
        · exact hb x hx
      · have hnd2 := hnd
        rw [hrec, List.map_append, List.map_cons, List.nodup_middle, List.nodup_cons,
          ← List.map_append] at hnd2
        have hsub : ∀ x ∈ records t, x ∈ records s := by
          intro x hx
          rw [hpost] at hx
          rw [hrec]
          rcases List.mem_append.mp hx with h | h
          · exact List.mem_append_left _ h
          · exact List.mem_append_right _ (List.mem_cons_of_mem _ h)
        refine ⟨t, h1, h2, h3, h4, by rw [hpost]; exact hnd2.2,
          fun x hx => hnz x (hsub x hx), ?_⟩
        intro x hx
        refine hstep _ (hlive x (hsub x hx)) ?_
        intro h
        apply hnd2.1
        rw [hr, ← h]
        rw [hpost] at hx
        exact List.mem_map_of_mem _ hx

/-- C4. Uniqueness: for every finite sequence of allocate, allocate-zeroed and release
calls started with tracking enabled from the empty registry, under the assumption that
the external allocator never returns an address that is allocated and not yet freed
(the addresses freed being those the run hands to `heap_caps_free`), every prefix of
the sequence runs to completion and afterwards no two records of the registry have the
same address, whatever growths and shrinks fail. -/
theorem address_uniqueness (s : State) (live : List Nat) (calls : List FacadeCall)
    (htrack : s.debug_track_allocation = true)
    (hlock : s.memorySemaphore = Semaphore.available)
    (hzero : s.memory_track_allocation_t = 0) (hfresh : AllocatorFresh s live calls) :
    ∀ k, ∃ t, run_facade s (calls.take k) = some t ∧
      ((records t).map (fun r => r.address)).Nodup := by
  have hok : StorageOk s := by simp [StorageOk, hzero]
  have hrec0 : records s = [] := by simp [records, hzero]
  have hmain : ∀ (cs : List FacadeCall) (lv : List Nat) (u : State), StorageOk u →
      u.debug_track_allocation = true → u.memorySemaphore = Semaphore.available →
      ((records u).map (fun r => r.address)).Nodup →
      (∀ x ∈ records u, x.address ≠ 0) →
      (∀ x ∈ records u, x.address ∈ lv) → AllocatorFresh u lv cs →
      ∀ k, ∃ t, run_facade u (cs.take k) = some t ∧
        ((records t).map (fun r => r.address)).Nodup := by
    intro cs
    induction cs with
    | nil =>
      intro lv u _ _ _ hnd _ _ _ k
      exact ⟨u, by simp [run_facade], hnd⟩
    | cons c cs ih =>
      intro lv u h1 h2 h3 hnd hnz h5 h6 k
      cases k with
      | zero => exact ⟨u, by simp [run_facade], hnd⟩
      | succ k =>
        obtain ⟨v, k1, k2, k3, k4, k5, k6, k7⟩ :=
          facade_call_step lv u c h1 h2 h3 hnd hnz h5 h6.1
        have h7 : AllocatorFresh v (live_step u lv c) cs := by
          have h8 := h6.2
          rw [k1] at h8
          exact h8
        obtain ⟨t, m1, m2⟩ := ih (live_step u lv c) v k2 k3 k4 k5 k6 k7 h7 k
        refine ⟨t, ?_, m2⟩
        rw [List.take_succ_cons, run_facade, k1]
        exact m1
  exact hmain calls live s hok htrack hlock (by simp [hrec0]) (by simp [hrec0])
    (by simp [hrec0]) hfresh

/-- C4 on a run in which one growth fails, the block `0x1000` is first released through
a pointer variable stored inside it at `0x1010` (the zeroing clears the variable, so
null is freed and the record stays), then released through the variable at address 1,
after which the allocator returns `0x1000` again. -/
theorem address_uniqueness_witness :
    ((xSemaphoreCreateMutex (initial true)).debug_track_allocation = true ∧
      (xSemaphoreCreateMutex (initial true)).memorySemaphore = Semaphore.available ∧
      (xSemaphoreCreateMutex (initial true)).memory_track_allocation_t = 0 ∧
      AllocatorFresh (xSemaphoreCreateMutex (initial true)) []
        [FacadeCall.calloc 256 1 4 "main.c" 12 "app_main" 4096 true,
          FacadeCall.malloc 512 1024 "main.c" 21 "app_main" 8192 false,
          FacadeCall.release 4112 4096 true,
          FacadeCall.malloc 32 4 "main.c" 25 "app_main" 12288 true,
          FacadeCall.release 1 4096 true,
          FacadeCall.malloc 64 4 "main.c" 30 "app_main" 4096 true,
          FacadeCall.release 2 8192 true]) ∧
    (∀ k, ∃ t, run_facade (xSemaphoreCreateMutex (initial true))
        (([FacadeCall.calloc 256 1 4 "main.c" 12 "app_main" 4096 true,
          FacadeCall.malloc 512 1024 "main.c" 21 "app_main" 8192 false,
          FacadeCall.release 4112 4096 true,
          FacadeCall.malloc 32 4 "main.c" 25 "app_main" 12288 true,
          FacadeCall.release 1 4096 true,
          FacadeCall.malloc 64 4 "main.c" 30 "app_main" 4096 true,
          FacadeCall.release 2 8192 true] : List FacadeCall).take k) = some t ∧
      ((records t).map (fun r => r.address)).Nodup) ∧
    (run_facade (xSemaphoreCreateMutex (initial true))
        [FacadeCall.calloc 256 1 4 "main.c" 12 "app_main" 4096 true,
          FacadeCall.malloc 512 1024 "main.c" 21 "app_main" 8192 false,
          FacadeCall.release 4112 4096 true,
          FacadeCall.malloc 32 4 "main.c" 25 "app_main" 12288 true,
          FacadeCall.release 1 4096 true,
          FacadeCall.malloc 64 4 "main.c" 30 "app_main" 4096 true,
          FacadeCall.release 2 8192 true]).map
        (fun t => ((records t).map (fun r => (r.address, r.size)), freed t.trace))
      = some ([(12288, 32), (4096, 64)], [0, 4096, 8192]) :=
  ⟨⟨rfl, rfl, rfl, by decide!⟩,
    address_uniqueness (xSemaphoreCreateMutex (initial true)) [] _ rfl rfl rfl (by decide!),
    by decide!⟩

/-- The assumption on the allocator looks at the blocks the run really frees: after the
release of `0x1000` through a pointer variable stored inside the block, null is freed
and `0x1000` is still allocated, so an allocator that returns `0x1000` again does not
satisfy the assumption (and the registry would hold two records for `0x1000`). -/
theorem allocatorFresh_after_aliased_release :
    ¬ AllocatorFresh (xSemaphoreCreateMutex (initial true)) []
        [FacadeCall.calloc 256 1 4 "main.c" 12 "app_main" 4096 true,
          FacadeCall.release 4112 4096 true,
          FacadeCall.malloc 64 4 "main.c" 30 "app_main" 4096 true] ∧
    (run_facade (xSemaphoreCreateMutex (initial true))
        [FacadeCall.calloc 256 1 4 "main.c" 12 "app_main" 4096 true,
          FacadeCall.release 4112 4096 true,
          FacadeCall.malloc 64 4 "main.c" 30 "app_main" 4096 true]).map
        (fun t => ((records t).map (fun r => (r.address, r.size)), freed t.trace))
      = some ([(4096, 256), (4096, 64)], [0]) :=
  ⟨by decide!, by decide!⟩

/-- C5. Count consistency: after every finite sequence of `register_allocation` and
`unregister_allocation` calls from a state with counter 0 (in particular the initial
state, array `NULL` and counter 0), with arbitrary outcomes of every growth and shrink
and either setting of the tracking flag, the run returns, the record sequence is
the one the specification's registry holds, the counter equals the number of live
records in the array (and does not exceed its capacity), and `list_allocations`
enumerates exactly these records, so as many as the counter says. -/
theorem count_consistency (s : State) (calls : List RegistryCall)
    (hzero : s.memory_track_allocation_t = 0)
    (hlock : s.debug_track_allocation = true → s.memorySemaphore = Semaphore.available) :
    ∃ t, run_calls s calls = some t ∧
      records t = spec_run s.debug_track_allocation calls ∧
      t.memory_track_allocation_t = (records t).length ∧
      t.memory_track_allocation_t ≤ capacity t ∧
      ∃ u, list_allocations t = some u ∧
        printed u.trace = printed t.trace ++ records t ∧
        (printed u.trace).length = (printed t.trace).length + t.memory_track_allocation_t := by
  have hok : StorageOk s := by simp [StorageOk, hzero]
  have hrec0 : records s = [] := by simp [records, hzero]
  obtain ⟨t, h1, h2, h3, h4, h5⟩ := run_calls_spec calls s hok hlock
  have hlen : t.memory_track_allocation_t = (records t).length := by
    simp only [records, List.length_take, StorageOk, capacity] at h2 ⊢
    omega
  obtain ⟨u, k1, k2, _⟩ :=
    list_allocations_prints t (fun h => by rw [h4]; exact hlock (h3 ▸ h)) h2
  have hfalse : ∀ (cs : List RegistryCall) (l : List MemoryTraceInfo),
      cs.foldl (spec_step false) l = l := by
    intro cs
    induction cs with
    | nil => intro l; rfl
    | cons c cs ih => intro l; cases c <;> simpa [spec_step] using ih l
  have hpr : printed u.trace = printed t.trace ++ records t := by
    rw [k2]
    cases htrack : s.debug_track_allocation with
    | true => simp [h3, htrack]
    | false =>
      rw [htrack] at h5
      simp [h3, htrack, h5, hfalse, hrec0]
  refine ⟨t, h1, by rw [h5, hrec0]; rfl, hlen, h2, u, k1, hpr, ?_⟩
  rw [hpr, List.length_append, ← hlen]

/-- C5 on a run with a failed growth, a failed shrink and a lookup miss. -/
theorem count_consistency_witness :
    ((xSemaphoreCreateMutex (initial true)).memory_track_allocation = none ∧
      (xSemaphoreCreateMutex (initial true)).memory_track_allocation_t = 0 ∧
      ((xSemaphoreCreateMutex (initial true)).debug_track_allocation = true →
        (xSemaphoreCreateMutex (initial true)).memorySemaphore = Semaphore.available)) ∧
    (∃ t, run_calls (xSemaphoreCreateMutex (initial true))
          [RegistryCall.register record_buffer true,
            RegistryCall.register record_null false,
            RegistryCall.register record_debug_string true,
            RegistryCall.unregister 12288 true,
            RegistryCall.unregister 4096 false] = some t ∧
      records t = spec_run (xSemaphoreCreateMutex (initial true)).debug_track_allocation
          [RegistryCall.register record_buffer true,
            RegistryCall.register record_null false,
            RegistryCall.register record_debug_string true,
            RegistryCall.unregister 12288 true,
            RegistryCall.unregister 4096 false] ∧
      t.memory_track_allocation_t = (records t).length ∧
      t.memory_track_allocation_t ≤ capacity t ∧
      ∃ u, list_allocations t = some u ∧
        printed u.trace = printed t.trace ++ records t ∧
        (printed u.trace).length = (printed t.trace).length + t.memory_track_allocation_t) ∧
    (run_calls (xSemaphoreCreateMutex (initial true))
          [RegistryCall.register record_buffer true,
            RegistryCall.register record_null false,
            RegistryCall.register record_debug_string true,
            RegistryCall.unregister 12288 true,
            RegistryCall.unregister 4096 false]).map
        (fun t => (records t, t.memory_track_allocation_t, capacity t))
      = some ([record_debug_string], 1, 2) :=
  ⟨⟨rfl, rfl, fun _ => rfl⟩,
    count_consistency (xSemaphoreCreateMutex (initial true)) _ rfl (fun _ => rfl),
    by decide!⟩

/-! ## Frame properties -/

theorem lock_ops_append (T U : List Event) : lock_ops (T ++ U) = lock_ops T + lock_ops U := by
  induction T with
  | nil => simp [lock_ops]
  | cons e T ih => cases e <;> simp [lock_ops, ih] <;> omega

theorem zeroings_append (T U : List Event) : zeroings (T ++ U) = zeroings T ++ zeroings U := by
  induction T with
  | nil => rfl
  | cons e T ih => cases e <;> simp [zeroings, ih]

theorem bookkeeping_zeroings {T : List Event} (hT : Bookkeeping T) : zeroings T = [] := by
  induction T with
  | nil => rfl
  | cons e T ih =>
    have hT2 : Bookkeeping T := fun x hx => hT x (List.mem_cons_of_mem _ hx)
    rcases hT e (List.mem_cons_self _ _) with h | h | h <;> subst h <;>
      simpa [zeroings] using ih hT2

/-- C13. Lookup miss is a silent no-op: `unregister_allocation` called with a null
address, or with an address no record in the registry has, returns and leaves the
array, the record sequence and the counter exactly unchanged; nothing is printed,
zeroed or freed (the only effects are the take and give of the mutex). -/
theorem unregister_miss_is_noop (s : State) (ptr : Nat) (shrink_ok : Bool)
    (hlock : s.debug_track_allocation = true → s.memorySemaphore = Semaphore.available)
    (hok : StorageOk s)
    (hmiss : ptr = 0 ∨ ∀ x ∈ records s, x.address ≠ ptr) :
    ∃ t T, unregister_allocation s ptr shrink_ok = some t ∧
      t.memory_track_allocation = s.memory_track_allocation ∧
      t.memory_track_allocation_t = s.memory_track_allocation_t ∧
      records t = records s ∧
      t.debug_track_allocation = s.debug_track_allocation ∧
      t.memorySemaphore = s.memorySemaphore ∧ t.heap = s.heap ∧ t.vars = s.vars ∧
      t.trace = s.trace ++ T ∧ (T = [] ∨ T = [Event.take, Event.give]) := by
  by_cases hg : ptr = 0 ∨ s.debug_track_allocation = false
  · exact ⟨s, [], unregister_guard s ptr shrink_ok hg, rfl, rfl, rfl, rfl, rfl, rfl, rfl,
      by simp, Or.inl rfl⟩
  · have hptr : ptr ≠ 0 := fun h => hg (Or.inl h)
    have htrack : s.debug_track_allocation = true := by
      cases h : s.debug_track_allocation
      · exact absurd (Or.inr h) hg
      · rfl
    have hm : ∀ x ∈ records s, x.address ≠ ptr := hmiss.resolve_left hptr
    exact ⟨_, [Event.take, Event.give],
      unregister_miss s ptr shrink_ok htrack (hlock htrack) hok hptr hm, rfl, rfl, rfl, rfl,
      rfl, rfl, rfl, rfl, Or.inr rfl⟩

/-- C13 on `example/main.c`: removal of null and of the untracked `0x3000` from the
registry holding the two records. -/
theorem unregister_miss_is_noop_witness :
    ((two_records.debug_track_allocation = true →
        two_records.memorySemaphore = Semaphore.available) ∧
      StorageOk two_records ∧
      ((12288 : Nat) = 0 ∨ ∀ x ∈ records two_records, x.address ≠ 12288)) ∧
    (∃ t T, unregister_allocation two_records 12288 true = some t ∧
      t.memory_track_allocation = two_records.memory_track_allocation ∧
      t.memory_track_allocation_t = two_records.memory_track_allocation_t ∧
      records t = records two_records ∧
      t.debug_track_allocation = two_records.debug_track_allocation ∧
      t.memorySemaphore = two_records.memorySemaphore ∧ t.heap = two_records.heap ∧
      t.vars = two_records.vars ∧
      t.trace = two_records.trace ++ T ∧ (T = [] ∨ T = [Event.take, Event.give])) ∧
    (unregister_allocation two_records 12288 true).map
        (fun t => (t.memory_track_allocation, t.memory_track_allocation_t, lock_ops t.trace))
      = some (some [record_buffer, record_debug_string], 2, 2) ∧
    (unregister_allocation two_records 0 true).map
        (fun t => (t.memory_track_allocation, t.memory_track_allocation_t, lock_ops t.trace))
      = some (some [record_buffer, record_debug_string], 2, 0) :=
  ⟨⟨fun _ => rfl, by decide, Or.inr (by decide)⟩,
    unregister_miss_is_noop two_records 12288 true (fun _ => rfl) (by decide)
      (Or.inr (by decide)),
    by decide, by decide⟩

/-- C14. Release of an untracked block: when the pointer variable holds a non-null
address that no record of the registry has, with tracking enabled or not,
`free_unregister_allocation` returns, writes no byte (the heap is unchanged and no
`memset` is performed), leaves the array, the record sequence and the counter
unchanged, calls `heap_caps_free` exactly once, on that address, and sets the caller's
pointer variable to null, leaving every other variable alone. -/
theorem release_untracked (s : State) (ptr : Nat) (shrink_ok : Bool)
    (hlock : s.debug_track_allocation = true → s.memorySemaphore = Semaphore.available)
    (hok : StorageOk s) (hptr : ptr ≠ 0) (ha : s.vars ptr ≠ 0)
    (hmiss : ∀ x ∈ records s, x.address ≠ s.vars ptr) :
    ∃ t, free_unregister_allocation s ptr shrink_ok = some t ∧
      t.heap = s.heap ∧ zeroings t.trace = zeroings s.trace ∧
      t.memory_track_allocation = s.memory_track_allocation ∧
      t.memory_track_allocation_t = s.memory_track_allocation_t ∧
      records t = records s ∧
      freed t.trace = freed s.trace ++ [s.vars ptr] ∧
      t.vars ptr = 0 ∧ (∀ q, q ≠ ptr → t.vars q = s.vars q) := by
  obtain ⟨T, hT, h1⟩ := free_unregister_miss s ptr shrink_ok hlock hok hptr ha (fun _ => hmiss)
  refine ⟨_, h1, rfl, ?_, rfl, rfl, rfl, ?_, ?_, ?_⟩
  · simp [zeroings_append, bookkeeping_zeroings hT, zeroings]
  · simp [freed_append, bookkeeping_freed hT, freed]
  · simp
  · intro q hq
    simp [Function.update, hq]

/-- C14 with tracking enabled (the untracked `0x3000` next to the two records of
`example/main.c`); the same release with tracking disabled is evaluated as well. -/
theorem release_untracked_witness :
    (((assign two_records 3 12288).debug_track_allocation = true →
        (assign two_records 3 12288).memorySemaphore = Semaphore.available) ∧
      StorageOk (assign two_records 3 12288) ∧ (3 : Nat) ≠ 0 ∧
      (assign two_records 3 12288).vars 3 ≠ 0 ∧
      (∀ x ∈ records (assign two_records 3 12288),
        x.address ≠ (assign two_records 3 12288).vars 3)) ∧
    (∃ t, free_unregister_allocation (assign two_records 3 12288) 3 true = some t ∧
      t.heap = (assign two_records 3 12288).heap ∧
      zeroings t.trace = zeroings (assign two_records 3 12288).trace ∧
      t.memory_track_allocation = (assign two_records 3 12288).memory_track_allocation ∧
      t.memory_track_allocation_t = (assign two_records 3 12288).memory_track_allocation_t ∧
      records t = records (assign two_records 3 12288) ∧
      freed t.trace
        = freed (assign two_records 3 12288).trace ++ [(assign two_records 3 12288).vars 3] ∧
      t.vars 3 = 0 ∧ (∀ q, q ≠ 3 → t.vars q = (assign two_records 3 12288).vars q)) ∧
    (free_unregister_allocation (assign two_records 3 12288) 3 true).map
        (fun t => (records t, t.memory_track_allocation_t, zeroings t.trace, freed t.trace))
      = some ([record_buffer, record_debug_string], 2, [], [12288]) ∧
    (free_unregister_allocation (assign two_records 3 12288) 3 true).map
        (fun t => (t.vars 3, t.heap 4096))
      = some (0, 65) ∧
    (free_unregister_allocation untracked 1 true).map
        (fun t => (t.memory_track_allocation_t, zeroings t.trace, freed t.trace,
          lock_ops t.trace))
      = some (0, [], [4096], 0) ∧
    (free_unregister_allocation untracked 1 true).map
        (fun t => (t.vars 1, t.heap 4096))
      = some (0, 65) := by
  refine ⟨⟨fun _ => rfl, by decide, by decide, by decide, by decide⟩,
    release_untracked (assign two_records 3 12288) 3 true (fun _ => rfl) (by decide) (by decide)
      (by decide) (by decide), ?_, ?_, ?_, ?_⟩
  · decide!
  · decide!
  · decide!
  · decide!

/-- C15. Resize without relocation: whatever the registry state and the input address
`p`, when the external resize returns the same address `p` the call returns `p` and
leaves the array, the record sequence and the counter exactly unchanged, without
touching the mutex; the state is unchanged altogether for a non-null `p`.  In
particular a record of `p` keeps its recorded size: after resizing the 256-byte block
at `0x1000` of `example/main.c` to 1024 bytes in place, its record still says 256. -/
theorem realloc_same_address (s : State) (p size caps : Nat) (file : String) (line : Int)
    (function : String) (shrink_ok grow_ok : Bool) :
    (∃ t, traceable_heap_caps_realloc s p size caps file line function p shrink_ok grow_ok
        = some (p, t) ∧
      t.memory_track_allocation = s.memory_track_allocation ∧
      t.memory_track_allocation_t = s.memory_track_allocation_t ∧
      records t = records s ∧ t.memorySemaphore = s.memorySemaphore ∧
      lock_ops t.trace = lock_ops s.trace ∧ (p ≠ 0 → t = s)) ∧
    (traceable_heap_caps_realloc two_records 4096 1024 4 "main.c" 40 "app_main" 4096 true
        true).map (fun q => (q.1, (records q.2).map (fun r => (r.address, r.size)),
          q.2.memory_track_allocation_t))
      = some (4096, [(4096, 256), (8192, 512)], 2) := by
  refine ⟨?_, by decide⟩
  by_cases hp : p = 0
  · subst hp
    refine ⟨log_memory_allocation s
      ⟨file, line, function, size, "heap_caps_realloc", caps, 1, 0, ""⟩, ?_, rfl, rfl, rfl,
      rfl, ?_, fun h => absurd rfl h⟩
    · cases h : s.debug_track_allocation <;>
        simp [traceable_heap_caps_realloc, log_memory_allocation, emit, h]
    · simp [log_memory_allocation, emit, lock_ops_append, lock_ops]
  · refine ⟨s, ?_, rfl, rfl, rfl, rfl, rfl, fun _ => rfl⟩
    cases h : s.debug_track_allocation <;> simp [traceable_heap_caps_realloc, hp, h]

/-- C20, the code at a successful tracked allocation: the record inserted by
`traceable_heap_caps_malloc` and by `traceable_heap_caps_calloc` has failure flag 0,
but its variable name is the string "unknow", which is not "unknown"; the record
inserted by `traceable_heap_caps_realloc` does carry "unknown". -/
theorem alloc_var_name_is_unknow :
    (traceable_heap_caps_malloc (xSemaphoreCreateMutex (initial true)) 256 4 "main.c" 12
        "app_main" 4096 true).map
        (fun p => (records p.2).map (fun r => (r.address, r.failure, r.var_name)))
      = some [(4096, 0, "unknow")] ∧
    (traceable_heap_caps_calloc (xSemaphoreCreateMutex (initial true)) 256 1 4 "main.c" 12
        "app_main" 4096 true).map
        (fun p => (records p.2).map (fun r => (r.address, r.failure, r.var_name)))
      = some [(4096, 0, "unknow")] ∧
    (traceable_heap_caps_realloc (xSemaphoreCreateMutex (initial true)) 0 256 4 "main.c" 12
        "app_main" 4096 true true).map
        (fun p => (records p.2).map (fun r => (r.address, r.failure, r.var_name)))
      = some [(4096, 0, "unknown")] ∧
    ("unknow" : String) ≠ "unknown" := by
  refine ⟨by decide, by decide, by decide, by decide⟩

/-! ## Tracking disabled -/

theorem registryUntouched_refl (s : State) : RegistryUntouched s s :=
  ⟨rfl, rfl, rfl, rfl, rfl, rfl⟩

theorem registryUntouched_trans {s t u : State} (h1 : RegistryUntouched s t)
    (h2 : RegistryUntouched t u) : RegistryUntouched s u :=
  ⟨h2.1.trans h1.1, h2.2.1.trans h1.2.1, h2.2.2.1.trans h1.2.2.1,
    h2.2.2.2.1.trans h1.2.2.2.1, h2.2.2.2.2.1.trans h1.2.2.2.2.1,
    h2.2.2.2.2.2.trans h1.2.2.2.2.2⟩

theorem registryUntouched_log (s : State) (info : MemoryTraceInfo) :
    RegistryUntouched s (log_memory_allocation s info) := by
  refine ⟨rfl, rfl, rfl, rfl, rfl, ?_⟩
  simp [log_memory_allocation, emit, lock_ops_append, lock_ops]

/-- With tracking disabled `free_unregister_allocation` only frees and nulls. -/
theorem free_unregister_disabled (s : State) (ptr : Nat) (shrink_ok : Bool)
    (htrack : s.debug_track_allocation = false) :
    ∃ t, free_unregister_allocation s ptr shrink_ok = some t ∧ RegistryUntouched s t := by
  by_cases hc : ptr ≠ 0 ∧ s.vars ptr ≠ 0
  · refine ⟨{ heap_caps_free s (s.vars ptr) with
        vars := Function.update (heap_caps_free s (s.vars ptr)).vars ptr 0 }, ?_, ?_⟩
    · rw [free_unregister_allocation, if_pos hc]
      simp [htrack]
    · refine ⟨rfl, rfl, rfl, rfl, rfl, ?_⟩
      simp [heap_caps_free, emit, lock_ops_append, lock_ops]
  · exact ⟨s, by rw [free_unregister_allocation, if_neg hc], registryUntouched_refl s⟩

/-- With tracking disabled a facade call leaves the registry and the mutex alone. -/
theorem facade_call_disabled (s : State) (c : FacadeCall)
    (htrack : s.debug_track_allocation = false) :
    ∃ t, c.run s = some t ∧ RegistryUntouched s t := by
  cases c with
  | malloc size caps file line function result grow_ok =>
    by_cases hres : result = 0
    · subst hres
      exact ⟨log_memory_allocation s
        ⟨file, line, function, size, "heap_caps_malloc", caps, 1, 0, ""⟩,
        by simp [FacadeCall.run, traceable_heap_caps_malloc, log_memory_allocation, emit,
          htrack], registryUntouched_log s _⟩
    · exact ⟨s, by simp [FacadeCall.run, traceable_heap_caps_malloc, hres, htrack],
        registryUntouched_refl s⟩
  | calloc n size caps file line function result grow_ok =>
    by_cases hres : result = 0
    · subst hres
      exact ⟨log_memory_allocation s
        ⟨file, line, function, (n * size) % SIZE_T_MOD, "heap_caps_calloc", caps, 1, 0, ""⟩,
        by simp [FacadeCall.run, traceable_heap_caps_calloc, log_memory_allocation, emit,
          htrack], registryUntouched_log s _⟩
    · exact ⟨s, by simp [FacadeCall.run, traceable_heap_caps_calloc, hres, htrack],
        registryUntouched_refl s⟩
  | release var addr shrink_ok =>
    obtain ⟨t, h1, h2⟩ := free_unregister_disabled (assign s var addr) var shrink_ok htrack
    exact ⟨t, h1, h2⟩

theorem run_facade_disabled (calls : List FacadeCall) (s : State)
    (htrack : s.debug_track_allocation = false) :
    ∃ t, run_facade s calls = some t ∧ RegistryUntouched s t := by
  induction calls generalizing s with
  | nil => exact ⟨s, rfl, registryUntouched_refl s⟩
  | cons c cs ih =>
    obtain ⟨u, h1, h2⟩ := facade_call_disabled s c htrack
    obtain ⟨t, k1, k2⟩ := ih u (h2.2.2.2.1.trans htrack)
    exact ⟨t, by rw [run_facade, h1]; exact k1, registryUntouched_trans h2 k2⟩

/-- C11. Tracking-disabled no-op: with the tracking flag false, `register_allocation`,
`unregister_allocation` and `list_allocations` return the state unchanged, and the
three wrappers and `free_unregister_allocation` return with the array, the record
sequence and the counter unchanged and without any operation on the mutex (whatever
its state, even a `NULL` handle); consequently every prefix of every sequence of
allocate, allocate-zeroed and release calls leaves the registry as it was, and from
the empty registry the counter is zero after every step. -/
theorem tracking_disabled_noop (s : State) (htrack : s.debug_track_allocation = false) :
    (∀ info grow_ok, register_allocation s info grow_ok = some s) ∧
    (∀ ptr shrink_ok, unregister_allocation s ptr shrink_ok = some s) ∧
    list_allocations s = some s ∧
    (∀ size caps file line function result grow_ok, ∃ t,
      traceable_heap_caps_malloc s size caps file line function result grow_ok
        = some (result, t) ∧ RegistryUntouched s t) ∧
    (∀ n size caps file line function result grow_ok, ∃ t,
      traceable_heap_caps_calloc s n size caps file line function result grow_ok
        = some (result, t) ∧ RegistryUntouched s t) ∧
    (∀ ptr size caps file line function result shrink_ok grow_ok, ∃ t,
      traceable_heap_caps_realloc s ptr size caps file line function result shrink_ok grow_ok
        = some (result, t) ∧ RegistryUntouched s t) ∧
    (∀ ptr shrink_ok, ∃ t,
      free_unregister_allocation s ptr shrink_ok = some t ∧ RegistryUntouched s t) ∧
    (∀ (calls : List FacadeCall) (k : Nat), ∃ t,
      run_facade s (calls.take k) = some t ∧ RegistryUntouched s t ∧
      (s.memory_track_allocation_t = 0 → t.memory_track_allocation_t = 0)) := by
  refine ⟨?_, ?_, ?_, ?_, ?_, ?_, ?_, ?_⟩
  · intro info grow_ok
    simp [register_allocation, htrack]
  · intro ptr shrink_ok
    exact unregister_guard s ptr shrink_ok (Or.inr htrack)
  · simp [list_allocations, htrack]
  · intro size caps file line function result grow_ok
    by_cases hres : result = 0
    · subst hres
      exact ⟨log_memory_allocation s
        ⟨file, line, function, size, "heap_caps_malloc", caps, 1, 0, ""⟩,
        by simp [traceable_heap_caps_malloc, log_memory_allocation, emit, htrack],
        registryUntouched_log s _⟩
    · exact ⟨s, by simp [traceable_heap_caps_malloc, hres, htrack], registryUntouched_refl s⟩
  · intro n size caps file line function result grow_ok
    by_cases hres : result = 0
    · subst hres
      exact ⟨log_memory_allocation s
        ⟨file, line, function, (n * size) % SIZE_T_MOD, "heap_caps_calloc", caps, 1, 0, ""⟩,
        by simp [traceable_heap_caps_calloc, log_memory_allocation, emit, htrack],
        registryUntouched_log s _⟩
    · exact ⟨s, by simp [traceable_heap_caps_calloc, hres, htrack], registryUntouched_refl s⟩
  · intro ptr size caps file line function result shrink_ok grow_ok
    by_cases hres : result = 0
    · subst hres
      exact ⟨log_memory_allocation s
        ⟨file, line, function, size, "heap_caps_realloc", caps, 1, 0, ""⟩,
        by simp [traceable_heap_caps_realloc, log_memory_allocation, emit, htrack],
        registryUntouched_log s _⟩
    · exact ⟨s, by simp [traceable_heap_caps_realloc, hres, htrack], registryUntouched_refl s⟩
  · intro ptr shrink_ok
    exact free_unregister_disabled s ptr shrink_ok htrack
  · intro calls k
    obtain ⟨t, h1, h2⟩ := run_facade_disabled (calls.take k) s htrack
    exact ⟨t, h1, h2, fun h => h2.2.1.trans h⟩

/-- C11 on `example/main.c` run with tracking left disabled and no mutex created: two
allocations and two releases, the counter is zero throughout and the mutex is never
operated. -/
theorem tracking_disabled_noop_witness :
    untracked.debug_track_allocation = false ∧
    ((∀ info grow_ok, register_allocation untracked info grow_ok = some untracked) ∧
    (∀ ptr shrink_ok, unregister_allocation untracked ptr shrink_ok = some untracked) ∧
    list_allocations untracked = some untracked ∧
    (∀ size caps file line function result grow_ok, ∃ t,
      traceable_heap_caps_malloc untracked size caps file line function result grow_ok
        = some (result, t) ∧ RegistryUntouched untracked t) ∧
    (∀ n size caps file line function result grow_ok, ∃ t,
      traceable_heap_caps_calloc untracked n size caps file line function result grow_ok
        = some (result, t) ∧ RegistryUntouched untracked t) ∧
    (∀ ptr size caps file line function result shrink_ok grow_ok, ∃ t,
      traceable_heap_caps_realloc untracked ptr size caps file line function result shrink_ok
          grow_ok
        = some (result, t) ∧ RegistryUntouched untracked t) ∧
    (∀ ptr shrink_ok, ∃ t,
      free_unregister_allocation untracked ptr shrink_ok = some t ∧
        RegistryUntouched untracked t) ∧
    (∀ (calls : List FacadeCall) (k : Nat), ∃ t,
      run_facade untracked (calls.take k) = some t ∧ RegistryUntouched untracked t ∧
      (untracked.memory_track_allocation_t = 0 → t.memory_track_allocation_t = 0))) ∧
    (run_facade untracked
        [FacadeCall.calloc 256 1 4 "main.c" 12 "app_main" 4096 true,
          FacadeCall.calloc 512 1 1024 "main.c" 21 "app_main" 8192 true,
          FacadeCall.release 1 4096 true,
          FacadeCall.release 2 8192 true]).map
        (fun t => (t.memory_track_allocation, t.memory_track_allocation_t, lock_ops t.trace,
          freed t.trace))
      = some (none, 0, 0, [4096, 8192]) := by
  refine ⟨rfl, tracking_disabled_noop untracked rfl, ?_⟩
  decide!

/-! ## Shrink failure -/

/-- A removal that finds its address at the first match is the matching branch run at
that index, after the take of the mutex. -/
theorem unregister_eq_remove_at (s : State) (ptr : Nat) (shrink_ok : Bool)
    (pre : List MemoryTraceInfo) (r : MemoryTraceInfo) (post : List MemoryTraceInfo)
    (htrack : s.debug_track_allocation = true)
    (hlock : s.memorySemaphore = Semaphore.available) (hok : StorageOk s) (hptr : ptr ≠ 0)
    (hrec : records s = pre ++ r :: post) (hr : r.address = ptr)
    (hpre : ∀ x ∈ pre, x.address ≠ ptr) :
    pre.length < s.memory_track_allocation_t ∧
    unregister_allocation s ptr shrink_ok
      = remove_at
          { s with memorySemaphore := Semaphore.taken, trace := s.trace ++ [Event.take] }
          pre.length shrink_ok := by
  have hlen : (records s).length = s.memory_track_allocation_t := by
    simp only [records, List.length_take, StorageOk, capacity] at hok ⊢
    omega
  have hk : pre.length < s.memory_track_allocation_t := by
    rw [← hlen, hrec]; simp
  let s1 : State :=
    { s with memorySemaphore := Semaphore.taken, trace := s.trace ++ [Event.take] }
  have hslot : ∀ m, slot s1 m = slot s m := fun m => rfl
  have hne : ∀ m, 0 ≤ m → m < pre.length → (slot s1 m).address ≠ ptr := by
    intro m _ hm
    rw [hslot, slot_eq_records s m (by omega), hrec, List.getElem?_append_left hm,
      List.getElem?_eq_getElem hm]
    exact hpre _ (List.getElem_mem _)
  have hm : (slot s1 pre.length).address = ptr := by
    rw [hslot, slot_eq_records s _ hk, hrec, List.getElem?_append_right (le_refl _),
      Nat.sub_self]
    simpa using hr
  refine ⟨hk, ?_⟩
  have hc : ¬ (ptr = 0 ∨ (!s.debug_track_allocation) = true) := by simp [hptr, htrack]
  rw [unregister_allocation, if_neg hc, xSemaphoreTake_available s hlock]
  show unregister_loop s1.memory_track_allocation_t s1 ptr shrink_ok 0 = _
  rw [unregister_loop_skip _ s1 ptr shrink_ok 0 pre.length (Nat.zero_le _) (le_of_lt hk) hne
    (le_of_lt hk)]
  exact unregister_loop_hit _ s1 ptr shrink_ok _ hk hm

/-- When the shrinking `realloc` fails the array pointer is not assigned: the block is
the old one, with the slots shifted. -/
theorem remove_at_shrink_fail (s : State) (i : Nat)
    (hcount : 2 ≤ s.memory_track_allocation_t) :
    ∃ t, remove_at s i false = some t ∧
      t.memory_track_allocation
        = s.memory_track_allocation.map (shifted i (s.memory_track_allocation_t - 1 - i)) := by
  have hpos : s.memory_track_allocation_t - 1 > 0 := by omega
  rw [remove_at, shift_loop_eq _ _ _ (by omega)]
  refine ⟨_, rfl, ?_⟩
  simp only [set_count, realloc, hpos, if_true, Bool.false_eq_true, if_false]
  cases hs : s.memorySemaphore <;> simp [xSemaphoreGive, hs]

/-- C12. Shrink failure never loses records: in a registry with at least two records,
for every tracked address, `unregister_allocation` returns for both outcomes of the
shrinking `realloc`, with the same record sequence and the same counter (for a non-null
address with tracking enabled: the old records without the first one of that address);
when the shrink fails the array is the old block (same capacity, not `NULL`), the
counter does not exceed its capacity and its slots `0 .. count-1` are exactly the
remaining live records. -/
theorem shrink_failure_keeps_records (s : State) (ptr : Nat)
    (hlock : s.debug_track_allocation = true → s.memorySemaphore = Semaphore.available)
    (hok : StorageOk s) (hcount : 2 ≤ s.memory_track_allocation_t)
    (hmem : ∃ x ∈ records s, x.address = ptr) :
    ∃ t1 t2, unregister_allocation s ptr true = some t1 ∧
      unregister_allocation s ptr false = some t2 ∧
      records t2 = records t1 ∧
      t2.memory_track_allocation_t = t1.memory_track_allocation_t ∧
      (ptr ≠ 0 → s.debug_track_allocation = true →
        ∃ pre r post, records s = pre ++ r :: post ∧ r.address = ptr ∧
          (∀ x ∈ pre, x.address ≠ ptr) ∧ records t2 = pre ++ post ∧
          t2.memory_track_allocation_t + 1 = s.memory_track_allocation_t) ∧
      capacity t2 = capacity s ∧ t2.memory_track_allocation ≠ none ∧
      t2.memory_track_allocation_t ≤ capacity t2 ∧
      (∀ i, i < t2.memory_track_allocation_t →
        (t2.memory_track_allocation.getD [])[i]? = (records t1)[i]? ∧
        ((records t1)[i]?).isSome = true) := by
  have hsome : s.memory_track_allocation ≠ none := by
    intro h
    simp only [StorageOk, capacity, h, Option.getD_none, List.length_nil] at hok
    omega
  have hslots : ∀ (t1 t2 : State), records t2 = records t1 → StorageOk t2 →
      ∀ i, i < t2.memory_track_allocation_t →
        (t2.memory_track_allocation.getD [])[i]? = (records t1)[i]? ∧
        ((records t1)[i]?).isSome = true := by
    intro t1 t2 h12 hok2 i hi
    have hcap : i < (t2.memory_track_allocation.getD []).length :=
      lt_of_lt_of_le hi hok2
    rw [← h12]
    simp only [records, List.getElem?_take, hi, if_true]
    exact ⟨trivial, by rw [List.getElem?_eq_getElem hcap]; rfl⟩
  by_cases hg : ptr = 0 ∨ s.debug_track_allocation = false
  · have h1 := unregister_guard s ptr true hg
    have h2 := unregister_guard s ptr false hg
    refine ⟨s, s, h1, h2, rfl, rfl, ?_, rfl, hsome, hok, hslots s s rfl hok⟩
    intro hp ht
    rcases hg with h | h
    · exact absurd h hp
    · rw [ht] at h; exact absurd h (by decide)
  · have hptr : ptr ≠ 0 := fun h => hg (Or.inl h)
    have htrack : s.debug_track_allocation = true := by
      cases h : s.debug_track_allocation
      · exact absurd (Or.inr h) hg
      · rfl
    have hl := hlock htrack
    obtain ⟨pre, r, post, hrec, hr, hpre⟩ :=
      split_at_first (fun x => x.address = ptr) (records s) hmem
    obtain ⟨t1, T1, a1, _, _, a4, a5, _⟩ :=
      unregister_hit s ptr true pre r post htrack hl hok hptr hrec hr hpre
    obtain ⟨t2, T2, b1, _, _, b4, b5, b6⟩ :=
      unregister_hit s ptr false pre r post htrack hl hok hptr hrec hr hpre
    obtain ⟨_, hstep⟩ :=
      unregister_eq_remove_at s ptr false pre r post htrack hl hok hptr hrec hr hpre
    obtain ⟨u, c1, c2⟩ :=
      remove_at_shrink_fail
        { s with memorySemaphore := Semaphore.taken, trace := s.trace ++ [Event.take] }
        pre.length hcount
    have htu : t2 = u := by
      rw [hstep, c1] at b1
      exact (Option.some.inj b1).symm
    have hst : t2.memory_track_allocation
        = s.memory_track_allocation.map
            (shifted pre.length (s.memory_track_allocation_t - 1 - pre.length)) := by
      rw [htu]; exact c2
    have hcap : capacity t2 = capacity s := by
      rw [capacity, capacity, hst]
      cases hs : s.memory_track_allocation with
      | none => rfl
      | some a => simp [shifted_length]
    have hne : t2.memory_track_allocation ≠ none := by
      rw [hst]
      cases hs : s.memory_track_allocation with
      | none => exact absurd hs hsome
      | some a => simp
    refine ⟨t1, t2, a1, b1, by rw [b4, a4], ?_, ?_, hcap, hne, b6,
      hslots t1 t2 (by rw [b4, a4]) b6⟩
    · omega
    · intro _ _
      exact ⟨pre, r, post, hrec, hr, hpre, b4, b5⟩

/-- C12 on the registry of `example/main.c`: removing the record of `0x1000` with a
failing shrink keeps the two-slot block, whose first slot holds the remaining record. -/
theorem shrink_failure_keeps_records_witness :
    ((two_records.debug_track_allocation = true →
        two_records.memorySemaphore = Semaphore.available) ∧
      StorageOk two_records ∧ 2 ≤ two_records.memory_track_allocation_t ∧
      (∃ x ∈ records two_records, x.address = 4096)) ∧
    (∃ t1 t2, unregister_allocation two_records 4096 true = some t1 ∧
      unregister_allocation two_records 4096 false = some t2 ∧
      records t2 = records t1 ∧
      t2.memory_track_allocation_t = t1.memory_track_allocation_t ∧
      ((4096 : Nat) ≠ 0 → two_records.debug_track_allocation = true →
        ∃ pre r post, records two_records = pre ++ r :: post ∧ r.address = 4096 ∧
          (∀ x ∈ pre, x.address ≠ 4096) ∧ records t2 = pre ++ post ∧
          t2.memory_track_allocation_t + 1 = two_records.memory_track_allocation_t) ∧
      capacity t2 = capacity two_records ∧ t2.memory_track_allocation ≠ none ∧
      t2.memory_track_allocation_t ≤ capacity t2 ∧
      (∀ i, i < t2.memory_track_allocation_t →
        (t2.memory_track_allocation.getD [])[i]? = (records t1)[i]? ∧
        ((records t1)[i]?).isSome = true)) ∧
    (unregister_allocation two_records 4096 true).map
        (fun t => (records t, t.memory_track_allocation_t, capacity t))
      = some ([record_debug_string], 1, 1) ∧
    (unregister_allocation two_records 4096 false).map
        (fun t => (records t, t.memory_track_allocation_t, capacity t))
      = some ([record_debug_string], 1, 2) := by
  have hmem : ∃ x ∈ records two_records, x.address = 4096 := ⟨record_buffer, by decide, rfl⟩
  exact ⟨⟨fun _ => rfl, by decide, by decide, hmem⟩,
    shrink_failure_keeps_records two_records 4096 (fun _ => rfl) (by decide) (by decide) hmem,
    by decide, by decide⟩

/-! ## Round trip -/

/-- C19. Insert/remove round trip: with tracking enabled, for a record whose non-null
address no record of the registry has, `register_allocation` of the record with a
successful growth followed by `unregister_allocation` of its address (shrink succeeding
or not) returns and yields exactly the original record sequence and counter.  Without
the freshness of the address the round trip can fail: there is a state and a record
with an address already present for which the round trip deletes the first, older
record with that address and keeps the one just appended. -/
theorem register_unregister_round_trip (s : State) (info : MemoryTraceInfo)
    (shrink_ok : Bool) (htrack : s.debug_track_allocation = true)
    (hlock : s.memorySemaphore = Semaphore.available) (hok : StorageOk s)
    (haddr : info.address ≠ 0) (hfresh : ∀ x ∈ records s, x.address ≠ info.address) :
    (∃ t u, register_allocation s info true = some t ∧
      unregister_allocation t info.address shrink_ok = some u ∧
      records u = records s ∧
      u.memory_track_allocation_t = s.memory_track_allocation_t) ∧
    (∃ (s2 : State) (info2 old : MemoryTraceInfo) (rest : List MemoryTraceInfo) (t2 u2 : State),
      s2.debug_track_allocation = true ∧ s2.memorySemaphore = Semaphore.available ∧
      StorageOk s2 ∧ info2.address ≠ 0 ∧ records s2 = old :: rest ∧
      old.address = info2.address ∧ old ≠ info2 ∧
      register_allocation s2 info2 true = some t2 ∧
      unregister_allocation t2 info2.address true = some u2 ∧
      records u2 = rest ++ [info2] ∧ records u2 ≠ records s2) := by
  constructor
  · obtain ⟨t, T, h1, ⟨h2, h3, _⟩, _, h5, h6, h7⟩ := register_ok s info htrack hlock hok
    obtain ⟨u, U, k1, _, _, k4, k5, _⟩ :=
      unregister_hit t info.address shrink_ok (records s) info [] (h2.trans htrack)
        (h3.trans hlock) h7 haddr h5 rfl hfresh
    refine ⟨t, u, h1, k1, by rw [k4, List.append_nil], ?_⟩
    omega
  · have hrun : ((register_allocation two_records record_reuse true).bind
        (fun t => unregister_allocation t 4096 true)).map records
        = some [record_debug_string, record_reuse] := by decide!
    cases h1 : register_allocation two_records record_reuse true with
    | none => rw [h1] at hrun; simp at hrun
    | some t2 =>
      rw [h1] at hrun
      cases h2 : unregister_allocation t2 4096 true with
      | none =>
        simp only [Option.bind] at hrun
        rw [h2] at hrun
        simp at hrun
      | some u2 =>
        simp only [Option.bind] at hrun
        rw [h2] at hrun
        have hu : records u2 = [record_debug_string, record_reuse] := by simpa using hrun
        refine ⟨two_records, record_reuse, record_buffer, [record_debug_string], t2, u2, rfl,
          rfl, by decide, by decide, rfl, rfl, by decide, h1, h2, hu, ?_⟩
        rw [hu]
        decide

/-- C19 on the registry of `example/main.c`: a record for the fresh address `0x3000` is
registered and removed again. -/
theorem register_unregister_round_trip_witness :
    (two_records.debug_track_allocation = true ∧
      two_records.memorySemaphore = Semaphore.available ∧ StorageOk two_records ∧
      ({ record_reuse with address := 12288 } : MemoryTraceInfo).address ≠ 0 ∧
      (∀ x ∈ records two_records,
        x.address ≠ ({ record_reuse with address := 12288 } : MemoryTraceInfo).address)) ∧
    ((∃ t u, register_allocation two_records { record_reuse with address := 12288 } true
          = some t ∧
      unregister_allocation t
          ({ record_reuse with address := 12288 } : MemoryTraceInfo).address false = some u ∧
      records u = records two_records ∧
      u.memory_track_allocation_t = two_records.memory_track_allocation_t) ∧
    (∃ (s2 : State) (info2 old : MemoryTraceInfo) (rest : List MemoryTraceInfo) (t2 u2 : State),
      s2.debug_track_allocation = true ∧ s2.memorySemaphore = Semaphore.available ∧
      StorageOk s2 ∧ info2.address ≠ 0 ∧ records s2 = old :: rest ∧
      old.address = info2.address ∧ old ≠ info2 ∧
      register_allocation s2 info2 true = some t2 ∧
      unregister_allocation t2 info2.address true = some u2 ∧
      records u2 = rest ++ [info2] ∧ records u2 ≠ records s2)) ∧
    ((register_allocation two_records { record_reuse with address := 12288 } true).bind
        (fun t => unregister_allocation t 12288 false)).map
        (fun u => (records u, u.memory_track_allocation_t, capacity u))
      = some ([record_buffer, record_debug_string], 2, 3) ∧
    ((register_allocation two_records record_reuse true).bind
        (fun t => unregister_allocation t 4096 true)).map records
      = some [record_debug_string, record_reuse] := by
  refine ⟨⟨rfl, rfl, by decide, by decide, by decide⟩,
    register_unregister_round_trip two_records { record_reuse with address := 12288 } false
      rfl rfl (by decide) (by decide) (by decide), ?_, ?_⟩
  · decide!
  · decide!

/-! ## Lock discipline -/

theorem lock_check_append (b : Bool) (T U : List Event) :
    lock_check b (T ++ U) = (lock_check b T).bind (fun c => lock_check c U) := by
  induction T generalizing b with
  | nil => rfl
  | cons e T ih =>
    cases e <;> cases b <;> simp [lock_check, ih]

/-- Inside a critical section any effects other than mutex operations are allowed. -/
theorem lock_check_held (W : List Event)
    (hW : ∀ e ∈ W, e ≠ Event.take ∧ e ≠ Event.give) : lock_check true W = some true := by
  induction W with
  | nil => rfl
  | cons e W ih =>
    have h1 := hW e (List.mem_cons_self _ _)
    have h2 := ih (fun x hx => hW x (List.mem_cons_of_mem _ hx))
    cases e <;> simp_all [lock_check]

theorem lock_check_section (W : List Event)
    (hW : ∀ e ∈ W, e ≠ Event.take ∧ e ≠ Event.give) :
    lock_check false ([Event.take] ++ W ++ [Event.give]) = some false := by
  rw [List.append_assoc, lock_check_append]
  simp only [lock_check, Bool.false_eq_true, if_false, Option.bind]
  rw [lock_check_append, lock_check_held W hW]
  rfl

/-- The matching branch of `unregister_allocation`, entered with the mutex taken, only
writes and then gives the mutex. -/
theorem remove_at_trace (s : State) (i : Nat) (shrink_ok : Bool)
    (hlock : s.memorySemaphore = Semaphore.taken) :
    ∃ t W, remove_at s i shrink_ok = some t ∧
      t.memorySemaphore = Semaphore.available ∧
      t.debug_track_allocation = s.debug_track_allocation ∧ t.vars = s.vars ∧
      t.trace = s.trace ++ W ++ [Event.give] ∧ ∀ e ∈ W, e = Event.write := by
  obtain ⟨d, m, a, n, hp, v, tr⟩ := s
  simp only at hlock
  subst hlock
  rw [remove_at, shift_loop_eq _ _ _ (by show n - 1 - i ≤ n; omega)]
  by_cases hpos : n - 1 > 0
  · cases shrink_ok
    · refine ⟨_, List.replicate (n - 1 - i) Event.write ++ [Event.write], rfl, ?_⟩
      simp only [set_count, set_storage, realloc, xSemaphoreGive, hpos, if_true,
        Bool.false_eq_true, if_false, List.append_assoc]
      refine ⟨trivial, trivial, trivial, trivial, ?_⟩
      intro e he
      rcases List.mem_append.mp he with h | h
      · exact List.eq_of_mem_replicate h
      · exact List.mem_singleton.mp h
    · refine ⟨_, List.replicate (n - 1 - i) Event.write ++ [Event.write] ++ [Event.write],
        rfl, ?_⟩
      simp only [set_count, set_storage, realloc, xSemaphoreGive, hpos, if_true,
        List.append_assoc]
      refine ⟨trivial, trivial, trivial, trivial, ?_⟩
      intro e he
      rcases List.mem_append.mp he with h | h
      · exact List.eq_of_mem_replicate h
      · rcases List.mem_append.mp h with h | h
        · exact List.mem_singleton.mp h
        · exact List.mem_singleton.mp h
  · refine ⟨_, List.replicate (n - 1 - i) Event.write ++ [Event.write] ++ [Event.write],
      rfl, ?_⟩
    simp only [set_count, set_storage, xSemaphoreGive, hpos, if_false, List.append_assoc]
    refine ⟨trivial, trivial, trivial, trivial, ?_⟩
    intro e he
    rcases List.mem_append.mp he with h | h
    · exact List.eq_of_mem_replicate h
    · rcases List.mem_append.mp h with h | h
      · exact List.mem_singleton.mp h
      · exact List.mem_singleton.mp h

/-- The scan of `unregister_allocation`, entered with the mutex taken, returns on every
path with the mutex given, having added only registry writes before the give. -/
theorem unregister_loop_trace (fuel : Nat) (s : State) (ptr : Nat) (shrink_ok : Bool)
    (i : Nat) (hlock : s.memorySemaphore = Semaphore.taken)
    (hfuel : s.memory_track_allocation_t - i ≤ fuel) :
    ∃ t W, unregister_loop fuel s ptr shrink_ok i = some t ∧
      t.memorySemaphore = Semaphore.available ∧
      t.debug_track_allocation = s.debug_track_allocation ∧ t.vars = s.vars ∧
      t.trace = s.trace ++ W ++ [Event.give] ∧ ∀ e ∈ W, e = Event.write := by
  have hend : ∃ t W, some (xSemaphoreGive s) = some t ∧
      t.memorySemaphore = Semaphore.available ∧
      t.debug_track_allocation = s.debug_track_allocation ∧ t.vars = s.vars ∧
      t.trace = s.trace ++ W ++ [Event.give] ∧ ∀ e ∈ W, e = Event.write := by
    refine ⟨_, [], rfl, ?_⟩
    rw [xSemaphoreGive_taken s hlock]
    exact ⟨rfl, rfl, rfl, by simp, by intro e he; simp at he⟩
  induction fuel generalizing i with
  | zero =>
    have h1 : ¬ (i < s.memory_track_allocation_t) := by omega
    rw [unregister_loop.eq_def]
    simp only [if_neg h1]
    exact hend
  | succ f ih =>
    rw [unregister_loop.eq_def]
    by_cases h1 : i < s.memory_track_allocation_t
    · by_cases h2 : (slot s i).address = ptr
      · simp only [if_pos h1, if_pos h2]
        exact remove_at_trace s i shrink_ok hlock
      · simp only [if_pos h1, if_neg h2]
        exact ih (i + 1) (by omega)
    · simp only [if_neg h1]
      exact hend

theorem lockDisciplined_refl (s : State) (h : s.memorySemaphore = Semaphore.available) :
    LockDisciplined s s :=
  ⟨h, [], by simp, rfl⟩

theorem write_not_lock_op (W : List Event) (hW : ∀ e ∈ W, e = Event.write) :
    ∀ e ∈ W, e ≠ Event.take ∧ e ≠ Event.give := by
  intro e he
  rw [hW e he]
  exact ⟨fun h => (by cases h), fun h => (by cases h)⟩

theorem unregister_disciplined (s : State) (ptr : Nat) (shrink_ok : Bool)
    (hfree : s.memorySemaphore = Semaphore.available) :
    ∃ t, unregister_allocation s ptr shrink_ok = some t ∧ LockDisciplined s t ∧
      t.debug_track_allocation = s.debug_track_allocation ∧ t.vars = s.vars := by
  by_cases hg : ptr = 0 ∨ s.debug_track_allocation = false
  · exact ⟨s, unregister_guard s ptr shrink_ok hg, lockDisciplined_refl s hfree, rfl, rfl⟩
  · have hc : ¬ (ptr = 0 ∨ (!s.debug_track_allocation) = true) := by
      intro h
      rcases h with h | h
      · exact hg (Or.inl h)
      · exact hg (Or.inr (by simpa using h))
    let s1 : State :=
      { s with memorySemaphore := Semaphore.taken, trace := s.trace ++ [Event.take] }
    obtain ⟨t, W, h1, h2, h3, h4, h5, h6⟩ :=
      unregister_loop_trace s1.memory_track_allocation_t s1 ptr shrink_ok 0 rfl (by omega)
    refine ⟨t, ?_, ⟨h2, [Event.take] ++ W ++ [Event.give], ?_, ?_⟩, h3, h4⟩
    · rw [unregister_allocation, if_neg hc, xSemaphoreTake_available s hfree]
      exact h1
    · rw [h5]
      simp [s1]
    · exact lock_check_section W (write_not_lock_op W h6)

theorem register_disciplined (s : State) (info : MemoryTraceInfo) (grow_ok : Bool)
    (hfree : s.memorySemaphore = Semaphore.available) :
    ∃ t, register_allocation s info grow_ok = some t ∧ LockDisciplined s t := by
  cases htrack : s.debug_track_allocation with
  | false =>
    exact ⟨s, by simp [register_allocation, htrack], lockDisciplined_refl s hfree⟩
  | true =>
    obtain ⟨d, m, a, n, hp, v, tr⟩ := s
    simp only at hfree htrack
    subst hfree htrack
    cases grow_ok with
    | true =>
      refine ⟨_, rfl, ?_, [Event.take, Event.write, Event.write, Event.write, Event.give],
        ?_, by rfl⟩
      · simp [xSemaphoreTake, realloc, set_storage, store_slot, set_count, xSemaphoreGive]
      · simp [xSemaphoreTake, realloc, set_storage, store_slot, set_count, xSemaphoreGive]
    | false =>
      refine ⟨_, rfl, ?_, [Event.take,
        Event.printf "Failed to allocate memory for tracking allocations\n",
        Event.wait 5000, Event.give], ?_, by rfl⟩
      · simp [xSemaphoreTake, realloc, emit, xSemaphoreGive]
      · simp [xSemaphoreTake, realloc, emit, xSemaphoreGive]

theorem list_disciplined (s : State) (hfree : s.memorySemaphore = Semaphore.available) :
    ∃ t, list_allocations s = some t ∧ LockDisciplined s t := by
  cases htrack : s.debug_track_allocation with
  | false =>
    exact ⟨s, by simp [list_allocations, htrack], lockDisciplined_refl s hfree⟩
  | true =>
    let s1 : State :=
      { s with memorySemaphore := Semaphore.taken, trace := s.trace ++ [Event.take] }
    have hloop := list_loop_eq s1.memory_track_allocation_t s1 0 (by omega)
    refine ⟨xSemaphoreGive
        { s1 with
          trace := s1.trace ++ (List.range' 0 (s1.memory_track_allocation_t - 0)).map
            (fun k => Event.print_allocation (slot s1 k)) }, ?_, rfl,
      [Event.take] ++ (List.range' 0 (s1.memory_track_allocation_t - 0)).map
            (fun k => Event.print_allocation (slot s1 k)) ++ [Event.give], ?_, ?_⟩
    · rw [list_allocations, if_pos htrack, xSemaphoreTake_available s hfree]
      show (list_loop s1.memory_track_allocation_t s1 0).bind _ = _
      rw [hloop]
      rfl
    · simp [xSemaphoreGive, s1]
    · apply lock_check_section
      intro e he
      obtain ⟨k, _, hk⟩ := List.mem_map.mp he
      rw [← hk]
      exact ⟨fun h => (by cases h), fun h => (by cases h)⟩

theorem free_unregister_disciplined (s : State) (ptr : Nat) (shrink_ok : Bool)
    (hfree : s.memorySemaphore = Semaphore.available) :
    ∃ t, free_unregister_allocation s ptr shrink_ok = some t ∧ LockDisciplined s t := by
  by_cases hc : ptr ≠ 0 ∧ s.vars ptr ≠ 0
  · cases htrack : s.debug_track_allocation with
    | false =>
      refine ⟨{ heap_caps_free s (s.vars ptr) with
          vars := Function.update (heap_caps_free s (s.vars ptr)).vars ptr 0 }, ?_, hfree,
        [Event.heap_caps_free (s.vars ptr) s.heap], rfl, rfl⟩
      rw [free_unregister_allocation, if_pos hc]
      simp [htrack]
    | true =>
      let s1 : State :=
        { s with memorySemaphore := Semaphore.taken, trace := s.trace ++ [Event.take] }
      obtain ⟨s2, M, z1, z2, z3, z4, z5, z6⟩ :=
        zero_loop_trace s1.memory_track_allocation_t s1 ptr 0 (by omega)
      have hs2 : s2.memorySemaphore = Semaphore.taken := z2
      have hgive := xSemaphoreGive_taken s2 hs2
      obtain ⟨u, u1, ⟨u2, U, u3, u4⟩, u5, u6⟩ :=
        unregister_disciplined (xSemaphoreGive s2) ((xSemaphoreGive s2).vars ptr) shrink_ok
          (by rw [hgive])
      refine ⟨{ heap_caps_free u (u.vars ptr) with
          vars := Function.update (heap_caps_free u (u.vars ptr)).vars ptr 0 }, ?_, u2,
        ([Event.take] ++ M ++ [Event.give]) ++ U ++ [Event.heap_caps_free (u.vars ptr) u.heap],
        ?_, ?_⟩
      · rw [free_unregister_allocation, if_pos hc, if_pos htrack,
          xSemaphoreTake_available s hfree]
        show ((zero_loop s1.memory_track_allocation_t s1 ptr 0).bind _).bind _ = _
        rw [z1]
        show ((unregister_allocation (xSemaphoreGive s2) ((xSemaphoreGive s2).vars ptr)
          shrink_ok)).bind _ = _
        rw [u1]
        rfl
      · show u.trace ++ [Event.heap_caps_free (u.vars ptr) u.heap] = _
        rw [u3, hgive]
        show (s2.trace ++ [Event.give]) ++ U ++ _ = _
        rw [z5]
        simp [s1]
      · rw [lock_check_append, lock_check_append, lock_check_section M, Option.bind,
          u4]
        · rfl
        · intro e he
          obtain ⟨a, n, h⟩ := z6 e he
          rw [h]
          exact ⟨fun h => (by cases h), fun h => (by cases h)⟩
  · exact ⟨s, by rw [free_unregister_allocation, if_neg hc], lockDisciplined_refl s hfree⟩

/-- C17. Lock discipline, with the mutex as a held/free state: each of
`register_allocation`, `unregister_allocation`, `free_unregister_allocation` and
`list_allocations`, entered with the mutex free, returns with the mutex free for every
argument, every setting of the tracking flag and every outcome of the `realloc`s (so on
every path: growth failure, lookup miss, return after a successful remove); replaying
the effects of the call from the free state, the mutex is never taken while held nor
given while free, and every write to the array pointer, to a slot or to the counter
happens while the mutex is held. -/
theorem lock_discipline (s : State) (hfree : s.memorySemaphore = Semaphore.available) :
    (∀ info grow_ok, ∃ t, register_allocation s info grow_ok = some t ∧ LockDisciplined s t) ∧
    (∀ ptr shrink_ok, ∃ t,
      unregister_allocation s ptr shrink_ok = some t ∧ LockDisciplined s t) ∧
    (∀ ptr shrink_ok, ∃ t,
      free_unregister_allocation s ptr shrink_ok = some t ∧ LockDisciplined s t) ∧
    (∃ t, list_allocations s = some t ∧ LockDisciplined s t) := by
  refine ⟨fun info grow_ok => register_disciplined s info grow_ok hfree, ?_,
    fun ptr shrink_ok => free_unregister_disciplined s ptr shrink_ok hfree,
    list_disciplined s hfree⟩
  intro ptr shrink_ok
  obtain ⟨t, h1, h2, _⟩ := unregister_disciplined s ptr shrink_ok hfree
  exact ⟨t, h1, h2⟩

/-- C17 on `example/main.c`: the complete run of `app_main` replays without a
violation and ends with the mutex free; a write outside a critical section, or a
second take, is what the replay rejects. -/
theorem lock_discipline_witness :
    two_records.memorySemaphore = Semaphore.available ∧
    ((∀ info grow_ok, ∃ t,
      register_allocation two_records info grow_ok = some t ∧ LockDisciplined two_records t) ∧
    (∀ ptr shrink_ok, ∃ t,
      unregister_allocation two_records ptr shrink_ok = some t ∧
        LockDisciplined two_records t) ∧
    (∀ ptr shrink_ok, ∃ t,
      free_unregister_allocation two_records ptr shrink_ok = some t ∧
        LockDisciplined two_records t) ∧
    (∃ t, list_allocations two_records = some t ∧ LockDisciplined two_records t)) ∧
    (app_main (initial false) "main.c" 4 1024 1 2 4096 8192 true true true true).map
        (fun t => (lock_check false t.trace, lock_ops t.trace,
          decide (t.memorySemaphore = Semaphore.available)))
      = some (some false, 18, true) ∧
    lock_check false [Event.take, Event.write, Event.give, Event.write] = none ∧
    lock_check false [Event.take, Event.take] = none := by
  refine ⟨rfl, lock_discipline two_records rfl, ?_, by decide, by decide⟩
  decide!

/-! ## Storage safety -/

theorem slot_checked_eq (s : State) (i : Nat) (hi : i < capacity s) :
    slot_checked s i = some (slot s i) := by
  unfold capacity at hi
  cases hs : s.memory_track_allocation with
  | none => rw [hs] at hi; simp at hi
  | some a =>
    rw [hs] at hi
    simp only [Option.getD_some] at hi
    simp [slot_checked, slot, hs, List.getElem?_eq_getElem hi]

theorem store_slot_checked_eq (s : State) (i : Nat) (v : MemoryTraceInfo)
    (hi : i < capacity s) : store_slot_checked s i v = some (store_slot s i v) := by
  rw [store_slot_checked, if_pos hi]

theorem capacity_store_slot (s : State) (i : Nat) (v : MemoryTraceInfo) :
    capacity (store_slot s i v) = capacity s := by
  cases hs : s.memory_track_allocation <;> simp [capacity, store_slot, hs]

/-- In a consistent state with a positive counter every access of the shift loop is
inside the block and the loop bound does not wrap. -/
theorem shift_loop_checked_eq (fuel : Nat) (s : State) (j : Nat) (hok : StorageOk s)
    (hpos : 0 < s.memory_track_allocation_t) :
    shift_loop_checked fuel s j = shift_loop fuel s j := by
  have hne : ¬ (s.memory_track_allocation_t = 0) := by omega
  induction fuel generalizing s j with
  | zero =>
    rw [shift_loop_checked.eq_def, shift_loop]
    simp only [if_neg hne]
  | succ f ih =>
    rw [shift_loop_checked.eq_def, shift_loop]
    simp only [if_neg hne]
    by_cases h1 : j < s.memory_track_allocation_t - 1
    · have hc1 : j + 1 < capacity s := by
        have := hok
        unfold StorageOk at this
        omega
      have hc2 : j < capacity s := by omega
      simp only [if_pos h1]
      rw [slot_checked_eq s (j + 1) hc1]
      simp only [Option.bind]
      rw [store_slot_checked_eq s j _ hc2]
      simp only [Option.bind]
      apply ih
      · show (store_slot s j (slot s (j + 1))).memory_track_allocation_t
          ≤ capacity (store_slot s j (slot s (j + 1)))
        rw [capacity_store_slot]
        exact hok
      · exact hpos
      · exact hne
    · simp only [if_neg h1]

theorem remove_at_checked_eq (s : State) (i : Nat) (shrink_ok : Bool) (hok : StorageOk s)
    (hi : i < s.memory_track_allocation_t) :
    remove_at_checked s i shrink_ok = remove_at s i shrink_ok := by
  rw [remove_at_checked, remove_at, shift_loop_checked_eq _ s i hok (by omega)]

theorem unregister_loop_checked_eq (fuel : Nat) (s : State) (ptr : Nat) (shrink_ok : Bool)
    (i : Nat) (hok : StorageOk s) :
    unregister_loop_checked fuel s ptr shrink_ok i = unregister_loop fuel s ptr shrink_ok i := by
  induction fuel generalizing i with
  | zero =>
    rw [unregister_loop_checked.eq_def, unregister_loop.eq_def]
    by_cases h1 : i < s.memory_track_allocation_t
    · have hc : i < capacity s := lt_of_lt_of_le h1 hok
      simp only [if_pos h1]
      rw [slot_checked_eq s i hc]
      simp only [Option.bind]
      by_cases h2 : (slot s i).address = ptr
      · simp only [if_pos h2]
        exact remove_at_checked_eq s i shrink_ok hok h1
      · simp only [if_neg h2]
    · simp only [if_neg h1]
  | succ f ih =>
    rw [unregister_loop_checked.eq_def, unregister_loop.eq_def]
    by_cases h1 : i < s.memory_track_allocation_t
    · have hc : i < capacity s := lt_of_lt_of_le h1 hok
      simp only [if_pos h1]
      rw [slot_checked_eq s i hc]
      simp only [Option.bind]
      by_cases h2 : (slot s i).address = ptr
      · simp only [if_pos h2]
        exact remove_at_checked_eq s i shrink_ok hok h1
      · simp only [if_neg h2]
        exact ih (i + 1)
    · simp only [if_neg h1]

theorem unregister_allocation_checked_eq (s : State) (ptr : Nat) (shrink_ok : Bool)
    (hok : StorageOk s) :
    unregister_allocation_checked s ptr shrink_ok = unregister_allocation s ptr shrink_ok := by
  rw [unregister_allocation_checked, unregister_allocation]
  by_cases hg : ptr = 0 ∨ (!s.debug_track_allocation) = true
  · rw [if_pos hg, if_pos hg]
  · rw [if_neg hg, if_neg hg]
    cases hs : s.memorySemaphore with
    | available =>
      rw [xSemaphoreTake_available s hs]
      exact unregister_loop_checked_eq _ _ ptr shrink_ok 0 hok
    | null => simp [xSemaphoreTake, hs]
    | taken => simp [xSemaphoreTake, hs]

/-- The slot `register_allocation` stores into lies inside the block `realloc` has just
returned, whatever the state. -/
theorem register_allocation_checked_eq (s : State) (info : MemoryTraceInfo) (grow_ok : Bool) :
    register_allocation_checked s info grow_ok = register_allocation s info grow_ok := by
  rw [register_allocation_checked, register_allocation]
  cases htrack : s.debug_track_allocation with
  | false => rfl
  | true =>
    cases hs : s.memorySemaphore with
    | available =>
      rw [xSemaphoreTake_available s hs]
      cases grow_ok with
      | false => rfl
      | true =>
        simp only [if_true, Option.bind, realloc]
        rw [store_slot_checked_eq]
        show s.memory_track_allocation_t
          < (List.take (s.memory_track_allocation_t + 1) (s.memory_track_allocation.getD [])
              ++ List.replicate
                (s.memory_track_allocation_t + 1 - (s.memory_track_allocation.getD []).length)
                default).length
        simp only [List.length_append, List.length_take, List.length_replicate]
        omega
    | null => simp [xSemaphoreTake, hs]
    | taken => simp [xSemaphoreTake, hs]

theorem list_loop_checked_eq (fuel : Nat) (s : State) (i : Nat) (hok : StorageOk s) :
    list_loop_checked fuel s i = list_loop fuel s i := by
  induction fuel generalizing s i with
  | zero =>
    rw [list_loop_checked.eq_def, list_loop.eq_def]
  | succ f ih =>
    rw [list_loop_checked.eq_def, list_loop.eq_def]
    by_cases h1 : i < s.memory_track_allocation_t
    · have hc : i < capacity s := lt_of_lt_of_le h1 hok
      simp only [if_pos h1]
      rw [slot_checked_eq s i hc]
      simp only [Option.bind]
      exact ih _ _ hok
    · simp only [if_neg h1]

theorem list_allocations_checked_eq (s : State) (hok : StorageOk s) :
    list_allocations_checked s = list_allocations s := by
  rw [list_allocations_checked, list_allocations]
  cases htrack : s.debug_track_allocation with
  | false => rfl
  | true =>
    cases hs : s.memorySemaphore with
    | available =>
      rw [xSemaphoreTake_available s hs]
      have h := list_loop_checked_eq s.memory_track_allocation_t
        { s with memorySemaphore := Semaphore.taken, trace := s.trace ++ [Event.take] } 0 hok
      simp only [if_true, Option.bind]
      rw [h]
    | null => simp [xSemaphoreTake, hs]
    | taken => simp [xSemaphoreTake, hs]

theorem xSemaphoreGive_registry (s : State) :
    (xSemaphoreGive s).memory_track_allocation = s.memory_track_allocation ∧
    (xSemaphoreGive s).memory_track_allocation_t = s.memory_track_allocation_t := by
  cases hs : s.memorySemaphore <;> simp [xSemaphoreGive, hs]

/-- After the matching branch the array pointer is `NULL` exactly when the counter has
reached 0. -/
theorem remove_at_null_iff (s : State) (i : Nat) (shrink_ok : Bool)
    (hsome : s.memory_track_allocation ≠ none) (t : State)
    (ht : remove_at s i shrink_ok = some t) :
    t.memory_track_allocation = none ↔ t.memory_track_allocation_t = 0 := by
  rw [remove_at, shift_loop_eq _ _ _ (by omega)] at ht
  simp only [Option.bind, Option.some.injEq] at ht
  rw [← ht, (xSemaphoreGive_registry _).1, (xSemaphoreGive_registry _).2]
  cases hs : s.memory_track_allocation with
  | none => exact absurd hs hsome
  | some a =>
    by_cases hpos : s.memory_track_allocation_t - 1 > 0
    · have hne : s.memory_track_allocation_t - 1 ≠ 0 := by omega
      cases shrink_ok <;> simp [set_count, set_storage, realloc, hpos, hs, hne]
    · have h0 : s.memory_track_allocation_t - 1 = 0 := by omega
      simp [set_count, set_storage, hpos, h0]

/-- One registry call keeps the array pointer `NULL` exactly when the counter is 0. -/
theorem registry_call_null_iff (s : State) (c : RegistryCall) (hok : StorageOk s)
    (hnull : s.memory_track_allocation = none ↔ s.memory_track_allocation_t = 0)
    (hlock : s.debug_track_allocation = true → s.memorySemaphore = Semaphore.available)
    (t : State) (ht : c.run s = some t) :
    t.memory_track_allocation = none ↔ t.memory_track_allocation_t = 0 := by
  cases htrack : s.debug_track_allocation with
  | false =>
    cases c with
    | register info grow_ok =>
      have h : register_allocation s info grow_ok = some s := by
        simp [register_allocation, htrack]
      rw [RegistryCall.run, h] at ht
      rw [← Option.some.inj ht]; exact hnull
    | unregister ptr shrink_ok =>
      rw [RegistryCall.run, unregister_guard s ptr shrink_ok (Or.inr htrack)] at ht
      rw [← Option.some.inj ht]; exact hnull
  | true =>
    have hl := hlock htrack
    cases c with
    | register info grow_ok =>
      cases grow_ok with
      | true =>
        obtain ⟨d, m, a, n, hp, v, tr⟩ := s
        simp only at hl htrack
        subst hl htrack
        have h : register_allocation
            ⟨true, Semaphore.available, a, n, hp, v, tr⟩ info true
            = some (xSemaphoreGive (set_count (store_slot (set_storage
                ⟨true, Semaphore.taken, a, n, hp, v, tr ++ [Event.take]⟩
                (some ((a.getD []).take (n + 1)
                  ++ List.replicate (n + 1 - (a.getD []).length) default))) n info)
                (n + 1))) := rfl
        rw [RegistryCall.run, h] at ht
        rw [← Option.some.inj ht, (xSemaphoreGive_registry _).1, (xSemaphoreGive_registry _).2]
        simp [set_count, store_slot, set_storage]
      | false =>
        obtain ⟨u, h1, _, h4, h5⟩ := register_fail s info htrack hl
        rw [RegistryCall.run, h1] at ht
        rw [← Option.some.inj ht, h4, h5]; exact hnull
    | unregister ptr shrink_ok =>
      by_cases hptr : ptr = 0
      · rw [RegistryCall.run, unregister_guard s ptr shrink_ok (Or.inl hptr)] at ht
        rw [← Option.some.inj ht]; exact hnull
      · by_cases hmem : ∃ x ∈ records s, x.address = ptr
        · obtain ⟨pre, r, post, hrec, hr, hpre⟩ :=
            split_at_first (fun x => x.address = ptr) (records s) hmem
          obtain ⟨hk, hstep⟩ :=
            unregister_eq_remove_at s ptr shrink_ok pre r post htrack hl hok hptr hrec hr hpre
          rw [RegistryCall.run, hstep] at ht
          refine remove_at_null_iff _ pre.length shrink_ok ?_ t ht
          show s.memory_track_allocation ≠ none
          intro h
          have h0 := hnull.mp h
          omega
        · have hmiss : ∀ x ∈ records s, x.address ≠ ptr :=
            fun x hx hxa => hmem ⟨x, hx, hxa⟩
          rw [RegistryCall.run, unregister_miss s ptr shrink_ok htrack hl hok hptr hmiss] at ht
          rw [← Option.some.inj ht]; exact hnull

theorem run_checked_eq (s : State) (c : RegistryCall) (hok : StorageOk s) :
    c.run_checked s = c.run s := by
  cases c with
  | register info grow_ok => exact register_allocation_checked_eq s info grow_ok
  | unregister ptr shrink_ok => exact unregister_allocation_checked_eq s ptr shrink_ok hok

/-- The storage invariant along a sequence of registry calls; the run with checked
accesses is the run itself. -/
theorem run_calls_safe (calls : List RegistryCall) (s : State) (hok : StorageOk s)
    (hnull : s.memory_track_allocation = none ↔ s.memory_track_allocation_t = 0)
    (hlock : s.debug_track_allocation = true → s.memorySemaphore = Semaphore.available) :
    ∃ t, run_calls s calls = some t ∧ run_calls_checked s calls = some t ∧ StorageOk t ∧
      (t.memory_track_allocation = none ↔ t.memory_track_allocation_t = 0) ∧
      (t.debug_track_allocation = true → t.memorySemaphore = Semaphore.available) := by
  induction calls generalizing s with
  | nil => exact ⟨s, rfl, rfl, hok, hnull, hlock⟩
  | cons c cs ih =>
    obtain ⟨u, h1, h2, h3, h4, _⟩ := registry_call_step s c hok hlock
    have h5 := registry_call_null_iff s c hok hnull hlock u h1
    obtain ⟨t, k1, k2, k3, k4, k5⟩ := ih u h2 h5 (fun h => by rw [h4]; exact hlock (h3 ▸ h))
    refine ⟨t, ?_, ?_, k3, k4, k5⟩
    · rw [run_calls, h1]; exact k1
    · rw [run_calls_checked, run_checked_eq s c hok, h1]; exact k2

/-- C18. Storage safety invariant: in every state reached from the initial state (array
`NULL`, counter 0) by `register_allocation` and `unregister_allocation` calls with
arbitrary growth and shrink outcomes, the array pointer is `NULL` exactly when the
counter is 0 and the block has room for at least as many records as the counter says.
Hence no slot access leaves the block: the run itself, and each of
`register_allocation`, `unregister_allocation` and `list_allocations` started in the
reached state, gives the same result when every slot read and write (scan, shift loop
with `j` and `j + 1`, append slot, enumeration) is checked against the capacity and the
shift loop is refused a counter of 0, where `memory_track_allocation_t - 1` would wrap;
and each of them returns. -/
theorem storage_safety (s : State) (calls : List RegistryCall)
    (hnull : s.memory_track_allocation = none) (hzero : s.memory_track_allocation_t = 0)
    (hlock : s.debug_track_allocation = true → s.memorySemaphore = Semaphore.available) :
    ∃ t, run_calls s calls = some t ∧ run_calls_checked s calls = some t ∧
      (t.memory_track_allocation = none ↔ t.memory_track_allocation_t = 0) ∧
      t.memory_track_allocation_t ≤ capacity t ∧
      (∀ info grow_ok, ∃ u, register_allocation t info grow_ok = some u ∧
        register_allocation_checked t info grow_ok = some u) ∧
      (∀ ptr shrink_ok, ∃ u, unregister_allocation t ptr shrink_ok = some u ∧
        unregister_allocation_checked t ptr shrink_ok = some u) ∧
      (∃ u, list_allocations t = some u ∧ list_allocations_checked t = some u) := by
  have hok : StorageOk s := by simp [StorageOk, hzero]
  obtain ⟨t, h1, h2, h3, h4, h5⟩ :=
    run_calls_safe calls s hok ⟨fun _ => hzero, fun _ => hnull⟩ hlock
  refine ⟨t, h1, h2, h4, h3, ?_, ?_, ?_⟩
  · intro info grow_ok
    obtain ⟨u, k1, _⟩ := registry_call_step t (RegistryCall.register info grow_ok) h3 h5
    exact ⟨u, k1, by rw [register_allocation_checked_eq]; exact k1⟩
  · intro ptr shrink_ok
    obtain ⟨u, k1, _⟩ := registry_call_step t (RegistryCall.unregister ptr shrink_ok) h3 h5
    exact ⟨u, k1, by rw [unregister_allocation_checked_eq t ptr shrink_ok h3]; exact k1⟩
  · obtain ⟨u, k1, _⟩ := list_allocations_prints t h5 h3
    exact ⟨u, k1, by rw [list_allocations_checked_eq t h3]; exact k1⟩

/-- C18 on a run with a failed growth, a failed shrink and a lookup miss; in a state
that violates the invariant (counter 1, array `NULL`) the checked removal fails. -/
theorem storage_safety_witness :
    ((xSemaphoreCreateMutex (initial true)).memory_track_allocation = none ∧
      (xSemaphoreCreateMutex (initial true)).memory_track_allocation_t = 0 ∧
      ((xSemaphoreCreateMutex (initial true)).debug_track_allocation = true →
        (xSemaphoreCreateMutex (initial true)).memorySemaphore = Semaphore.available)) ∧
    (∃ t, run_calls (xSemaphoreCreateMutex (initial true))
          [RegistryCall.register record_buffer true,
            RegistryCall.register record_null false,
            RegistryCall.register record_debug_string true,
            RegistryCall.unregister 12288 true,
            RegistryCall.unregister 4096 false] = some t ∧
      run_calls_checked (xSemaphoreCreateMutex (initial true))
          [RegistryCall.register record_buffer true,
            RegistryCall.register record_null false,
            RegistryCall.register record_debug_string true,
            RegistryCall.unregister 12288 true,
            RegistryCall.unregister 4096 false] = some t ∧
      (t.memory_track_allocation = none ↔ t.memory_track_allocation_t = 0) ∧
      t.memory_track_allocation_t ≤ capacity t ∧
      (∀ info grow_ok, ∃ u, register_allocation t info grow_ok = some u ∧
        register_allocation_checked t info grow_ok = some u) ∧
      (∀ ptr shrink_ok, ∃ u, unregister_allocation t ptr shrink_ok = some u ∧
        unregister_allocation_checked t ptr shrink_ok = some u) ∧
      (∃ u, list_allocations t = some u ∧ list_allocations_checked t = some u)) ∧
    (run_calls_checked (xSemaphoreCreateMutex (initial true))
          [RegistryCall.register record_buffer true,
            RegistryCall.register record_null false,
            RegistryCall.register record_debug_string true,
            RegistryCall.unregister 12288 true,
            RegistryCall.unregister 4096 false]).map
        (fun t => (t.memory_track_allocation, t.memory_track_allocation_t, capacity t))
      = some (some [record_debug_string, record_debug_string], 1, 2) ∧
    (unregister_allocation_checked
        { xSemaphoreCreateMutex (initial true) with memory_track_allocation_t := 1 } 4096
        true).isSome = false := by
  refine ⟨⟨rfl, rfl, fun _ => rfl⟩,
    storage_safety (xSemaphoreCreateMutex (initial true)) _ rfl rfl (fun _ => rfl), ?_, ?_⟩
  · decide!
  · decide!

end MemTrack
